import Mathlib

/-!
# The module state store (`internal/state/module.go`)

A shallow embedding of the module store of the language server and the
properties of its operations.

* A Go `map` is a `GoMap`: a list of entries with pairwise distinct keys; a
  field that may hold a nil map has type `Option (GoMap K V)`.
* A `*Module` is an address into the list of allocated Module objects of the
  store, so that handing out the stored pointer, copying an object and writing
  through a pointer are all visible in the model.
* The module table of the in-memory database is its `id` index: the entries
  `(Path, pointer)` in ascending order of the key.
* A Go `error` value is `Option String` (`none` is the nil error); the ways a
  call of the store fails are the constructors of `StoreError`.
-/

/-! ## Values owned by other packages -/

/-- A Go `error` value: `none` is nil, `some msg` an error carrying a message. -/
abbrev GoError := Option String

/-- A Go slice `[]T`, by its elements. -/
abbrev Slice (T : Type) := List T

/-- A Go map: the entries in some fixed iteration order, no key occurring twice. -/
structure GoMap (K V : Type) where
  /-- The key/value pairs held by the map. -/
  entries : List (K × V)
  /-- A key indexes one entry only. -/
  nodup : (entries.map Prod.fst).Nodup

instance {K V : Type} [DecidableEq K] [DecidableEq V] : DecidableEq (GoMap K V) :=
  fun a b => decidable_of_iff (a.entries = b.entries) (by cases a; cases b; simp)

namespace GoMap

/-- The entries after `m[k] = v`: the entry of `k` is overwritten where it
stands, a new key is added behind the others. -/
def assignEntries {K V : Type} [DecidableEq K] (k : K) (v : V) : List (K × V) → List (K × V)
  | [] => [(k, v)]
  | e :: rest => if e.1 = k then (k, v) :: rest else e :: assignEntries k v rest

/-- The map `make(map[K]V, n)`: no entries. -/
def make {K V : Type} : GoMap K V :=
  { entries := [], nodup := List.nodup_nil }

/-- The statement `m[k] = v`. -/
def assign {K V : Type} [DecidableEq K] (m : GoMap K V) (k : K) (v : V) : GoMap K V :=
  { entries := assignEntries k v m.entries
    nodup := by
      have keys : ∀ l : List (K × V), (l.map Prod.fst).Nodup →
          ((assignEntries k v l).map Prod.fst).Nodup ∧
            ∀ x, x ∈ (assignEntries k v l).map Prod.fst → x = k ∨ x ∈ l.map Prod.fst := by
        intro l
        induction l with
        | nil => intro _; simp [assignEntries]
        | cons e rest ih =>
          intro hn
          rw [List.map_cons, List.nodup_cons] at hn
          obtain ⟨h1, h2⟩ := ih hn.2
          by_cases hk : e.1 = k
          · subst hk
            simp only [assignEntries, if_true, List.map_cons, List.nodup_cons]
            exact ⟨⟨hn.1, hn.2⟩, fun x hx => Or.inr (by simpa using hx)⟩
          · simp only [assignEntries, if_neg hk, List.map_cons, List.nodup_cons]
            refine ⟨⟨fun hmem => ?_, h1⟩, fun x hx => ?_⟩
            · rcases h2 _ hmem with h | h
              · exact hk h
              · exact hn.1 h
            · rcases List.mem_cons.1 hx with h | h
              · exact Or.inr (List.mem_cons.2 (Or.inl h))
              · rcases h2 x h with h | h
                · exact Or.inl h
                · exact Or.inr (List.mem_cons.2 (Or.inr h))
      exact (keys m.entries m.nodup).1 }

/-- The loop `for k, v := range src { dst[k] = v }`. -/
def copyInto {K V : Type} [DecidableEq K] (src : GoMap K V) (dst : GoMap K V) : GoMap K V :=
  src.entries.foldl (fun acc e => acc.assign e.1 e.2) dst

end GoMap

/-- The slice built by `dst := make([]T, len(src))` followed by
`for i, x := range src { dst[i] = x }`. -/
def copySlice {T : Type} [Inhabited T] (src : List T) : List T :=
  src.enum.foldl (fun dst ix => dst.set ix.1 ix.2) (List.replicate src.length default)

namespace op

/-- Modelled from the spec: the type `op.OpState` is declared in the package
`operation`. The spec gives the lifecycle of an artifact as the enum
Unknown, Loading, Loaded, and a Module created empty has all states Unknown:
Unknown is the zero value of the type. -/
inductive OpState where
  | OpStateUnknown
  | OpStateLoading
  | OpStateLoaded
deriving DecidableEq

instance : Inhabited OpState := ⟨OpState.OpStateUnknown⟩

end op

namespace version

/-- A parsed version (`version.Version`), identified by its text. -/
abbrev Version := String

/-- A list of version constraints (`version.Constraints`). -/
abbrev Constraints := List String

end version

namespace tfaddr

/-- A provider address (`tfaddr.Provider`). -/
abbrev Provider := String

end tfaddr

namespace hcl

/-- A parsed file handle (`*hcl.File`). -/
abbrev File := String

/-- The findings of one file (`hcl.Diagnostics`, a slice of `*hcl.Diagnostic`):
each element is nil or a finding. -/
abbrev Diagnostics := List (Option String)

end hcl

namespace lang

/-- The reference targets contributed by a module (`lang.ReferenceTargets`). -/
abbrev ReferenceTargets := List String

/-- The reference origins contributed by a module (`lang.ReferenceOrigins`). -/
abbrev ReferenceOrigins := List String

/-- The copy of a target list made by the language library: a new slice
holding a copy of each target. -/
def ReferenceTargets.Copy (refs : ReferenceTargets) : ReferenceTargets :=
  refs.map id

/-- The copy of an origin list made by the language library: a new slice
holding a copy of each origin. -/
def ReferenceOrigins.Copy (refs : ReferenceOrigins) : ReferenceOrigins :=
  refs.map id

end lang

namespace ast

/-- Parsed module files by file name (`ast.ModFiles`). -/
abbrev ModFiles := GoMap String hcl.File

/-- Parsed variable files by file name (`ast.VarsFiles`). -/
abbrev VarsFiles := GoMap String hcl.File

/-- Module diagnostics by file name (`ast.ModDiags`). -/
abbrev ModDiags := GoMap String hcl.Diagnostics

/-- Variable-file diagnostics by file name (`ast.VarsDiags`). -/
abbrev VarsDiags := GoMap String hcl.Diagnostics

end ast

namespace tfmod

/-- A reference to a provider inside a module (`tfmod.ProviderRef`). -/
abbrev ProviderRef := String

/-- A declared variable (`tfmod.Variable`). -/
abbrev Variable := String

/-- A declared output (`tfmod.Output`). -/
abbrev Output := String

/-- The metadata shape consumed by the decoder (`tfmod.Meta`). -/
structure Meta where
  Path : String := ""
  ProviderReferences : Option (GoMap ProviderRef tfaddr.Provider) := none
  ProviderRequirements : Option (GoMap tfaddr.Provider version.Constraints) := none
  CoreRequirements : version.Constraints := []
  Variables : Option (GoMap String Variable) := none
  Outputs : Option (GoMap String Output) := none
deriving DecidableEq

/-- One module call derived from a manifest record (`tfmod.ModuleCall`). -/
structure ModuleCall where
  LocalName : String := ""
  SourceAddr : String := ""
  Path : String := ""
deriving DecidableEq

end tfmod

namespace datadir

/-- Modelled from the spec: the type `datadir.ModuleRecord` is declared in
the package `datadir`. A manifest record carries the key (local name), the
source address and the directory of a module call; these are the members
read by the store. -/
structure ModuleRecord where
  Key : String := ""
  SourceAddr : String := ""
  Dir : String := ""
deriving DecidableEq

instance : Inhabited ModuleRecord := ⟨{}⟩

/-- Modelled from the spec: the module-call manifest of a module, a root
directory and the list of its records. -/
structure ModuleManifest where
  rootDir : String := ""
  Records : List ModuleRecord := []
deriving DecidableEq

/-- Modelled from the spec: `ModuleManifest.Copy` is a method of the package
`datadir`. A Module copy is a full shallow-plus-nested copy: the copy of a
manifest holds the same root directory and the same records, and the copy of
an absent manifest is absent. -/
def ModuleManifest.Copy : Option ModuleManifest → Option ModuleManifest
  | none => none
  | some mm => some { rootDir := mm.rootDir, Records := copySlice mm.Records }

end datadir

namespace state

/-- The derived facts of a module (`ModuleMetadata`). -/
structure ModuleMetadata where
  CoreRequirements : version.Constraints := []
  ProviderReferences : Option (GoMap tfmod.ProviderRef tfaddr.Provider) := none
  ProviderRequirements : Option (GoMap tfaddr.Provider version.Constraints) := none
  Variables : Option (GoMap String tfmod.Variable) := none
  Outputs : Option (GoMap String tfmod.Output) := none
deriving DecidableEq

/-- A new map with the entries of the given one; a nil map stays nil
(`if x != nil { y = make(..); for k, v := range x { y[k] = v } }`). -/
def copyMap {K V : Type} [DecidableEq K] : Option (GoMap K V) → Option (GoMap K V)
  | none => none
  | some m => some (m.copyInto GoMap.make)

/-- The method `ModuleMetadata.Copy`. -/
def ModuleMetadata.Copy (mm : ModuleMetadata) : ModuleMetadata :=
  { CoreRequirements := mm.CoreRequirements
    ProviderReferences := copyMap mm.ProviderReferences
    ProviderRequirements := copyMap mm.ProviderRequirements
    Variables := copyMap mm.Variables
    Outputs := copyMap mm.Outputs }

/-- The record of one module directory (`Module`). The default of each member
is its Go zero value. -/
structure Module where
  Path : String := ""
  ModManifest : Option datadir.ModuleManifest := none
  ModManifestErr : GoError := none
  ModManifestState : op.OpState := default
  TerraformVersion : Option version.Version := none
  TerraformVersionErr : GoError := none
  TerraformVersionState : op.OpState := default
  ProviderSchemaErr : GoError := none
  ProviderSchemaState : op.OpState := default
  RefTargets : lang.ReferenceTargets := []
  RefTargetsErr : GoError := none
  RefTargetsState : op.OpState := default
  RefOrigins : lang.ReferenceOrigins := []
  RefOriginsErr : GoError := none
  RefOriginsState : op.OpState := default
  ParsedModuleFiles : Option ast.ModFiles := none
  ParsedVarsFiles : Option ast.VarsFiles := none
  ModuleParsingErr : GoError := none
  VarsParsingErr : GoError := none
  ModuleParsingState : op.OpState := default
  VarsParsingState : op.OpState := default
  Meta : ModuleMetadata := {}
  MetaErr : GoError := none
  MetaState : op.OpState := default
  ModuleDiagnostics : Option ast.ModDiags := none
  VarsDiagnostics : Option ast.VarsDiags := none
deriving DecidableEq

instance : Inhabited Module := ⟨{}⟩

/-- A new diagnostics map holding, under each file name, a new slice with the
same findings; a nil map stays nil. -/
def copyDiags : Option (GoMap String hcl.Diagnostics) → Option (GoMap String hcl.Diagnostics)
  | none => none
  | some m => some (m.entries.foldl (fun acc e => acc.assign e.1 (copySlice e.2)) GoMap.make)

/-- The method `Module.Copy` on a receiver that is not nil: a new Module with
every member copied. -/
def Module.Copy (m : Module) : Module :=
  { Path := m.Path
    ModManifest := datadir.ModuleManifest.Copy m.ModManifest
    ModManifestErr := m.ModManifestErr
    ModManifestState := m.ModManifestState
    TerraformVersion := m.TerraformVersion
    TerraformVersionErr := m.TerraformVersionErr
    TerraformVersionState := m.TerraformVersionState
    ProviderSchemaErr := m.ProviderSchemaErr
    ProviderSchemaState := m.ProviderSchemaState
    RefTargets := lang.ReferenceTargets.Copy m.RefTargets
    RefTargetsErr := m.RefTargetsErr
    RefTargetsState := m.RefTargetsState
    RefOrigins := lang.ReferenceOrigins.Copy m.RefOrigins
    RefOriginsErr := m.RefOriginsErr
    RefOriginsState := m.RefOriginsState
    ModuleParsingErr := m.ModuleParsingErr
    VarsParsingErr := m.VarsParsingErr
    ModuleParsingState := m.ModuleParsingState
    VarsParsingState := m.VarsParsingState
    Meta := m.Meta.Copy
    MetaErr := m.MetaErr
    MetaState := m.MetaState
    ParsedModuleFiles := copyMap m.ParsedModuleFiles
    ParsedVarsFiles := copyMap m.ParsedVarsFiles
    ModuleDiagnostics := copyDiags m.ModuleDiagnostics
    VarsDiagnostics := copyDiags m.VarsDiagnostics }

/-- The method `Module.Copy` on a receiver that may be nil: nil for nil. -/
def Module.CopyPtr : Option Module → Option Module
  | none => none
  | some m => some m.Copy

/-- The constructor `newModule`: the path and six states are set, every other
member keeps its zero value. -/
def newModule (modPath : String) : Module :=
  { Path := modPath
    ModManifestState := op.OpState.OpStateUnknown
    TerraformVersionState := op.OpState.OpStateUnknown
    ProviderSchemaState := op.OpState.OpStateUnknown
    RefTargetsState := op.OpState.OpStateUnknown
    ModuleParsingState := op.OpState.OpStateUnknown
    MetaState := op.OpState.OpStateUnknown }

/-- The ways a call of the store fails: the two structural errors of the
package, an error passed on from the database library, and a run-time panic of
Go, with which the call does not return (the deferred `txn.Abort()` runs while
the panic unwinds, so nothing is committed). -/
inductive StoreError where
  | AlreadyExistsError (Idx : String)
  | ModuleNotFoundError (Path : String)
  | memdbError (msg : String)
  | runtimePanic (msg : String)
deriving DecidableEq

/-- A non-nil `*Module`: the address of an allocated Module object. -/
abbrev ModulePtr := Nat

end state

namespace memdb

/-- The key of a string in the `id` index. The indexer of the index is a
`StringFieldIndex` on `Path`; `FromObject` and `FromArgs` both append the NUL
character as a terminator to the string. The table below keeps the string
itself as the key of an entry: appending the terminator changes neither the
equality nor the order of two keys. -/
def indexKey (s : String) : List Char :=
  s.data ++ [Char.ofNat 0]

/-- The lookup `txn.First(table, "id", key)` on the unique index of the module
table, an exact lookup of the key: the object indexed under it, if any. The
error it returns is nil for every string (it reports an unknown table or index
and an argument that is no string). -/
def First : List (String × state.ModulePtr) → String → Option state.ModulePtr
  | [], _ => none
  | (k, obj) :: rest, key => if k = key then some obj else First rest key

/-- The write of an entry into the `id` index, an ordered tree: an object
already indexed under the key is replaced, a new key takes its place in the
order of the index. -/
def indexInsert : List (String × state.ModulePtr) → String → state.ModulePtr →
    List (String × state.ModulePtr)
  | [], key, obj => [(key, obj)]
  | (k, o) :: rest, key, obj =>
    if key < k then (key, obj) :: (k, o) :: rest
    else if key = k then (key, obj) :: rest
    else (k, o) :: indexInsert rest key obj

/-- The write `txn.Insert(table, obj)` of an object whose `Path` is `path`.
The primary key is built from the object first: `FromObject` reports no key
for the empty string, and `Insert` then returns the error
`object missing primary index` and writes nothing. -/
def Insert (table : List (String × state.ModulePtr)) (path : String) (obj : state.ModulePtr) :
    Except String (List (String × state.ModulePtr)) :=
  if path = "" then Except.error "object missing primary index"
  else Except.ok (indexInsert table path obj)

/-- The write `txn.DeleteAll(table, "id", key)`. The objects to delete are
collected with `txn.Get(table, "id", key)`, which seeks the index by prefix of
the key built from the argument, and each of them is deleted: every entry
whose index key starts with the index key of the argument leaves the table.
The error it returns is nil for every string. -/
def DeleteAll (table : List (String × state.ModulePtr)) (key : String) :
    List (String × state.ModulePtr) :=
  table.filter (fun e => !(indexKey key).isPrefixOf (indexKey e.1))

/-- The iteration `txn.Get(table, "id")` with `it.Next()` until nil: the
objects in the order of the index. -/
def Get (table : List (String × state.ModulePtr)) : List state.ModulePtr :=
  table.map Prod.snd

end memdb

namespace state

/-- Modelled from the spec: the schema of the module table is declared in
another file of the package. A Module is uniquely identified by its directory
path, the key of the table, and the index order is by path. The store is the
Module objects allocated so far (a `*Module` is a position in this list) and
the committed module table, as its `id` index. -/
structure ModuleStore where
  objects : List Module := []
  table : List (String × ModulePtr) := []
deriving DecidableEq

namespace ModuleStore

/-- The Module a pointer points to. -/
def load (s : ModuleStore) (mod : ModulePtr) : Module :=
  s.objects.getD mod default

/-- Allocation of a new Module object (`&Module{...}`). -/
def new (s : ModuleStore) (m : Module) : ModulePtr × ModuleStore :=
  (s.objects.length, { s with objects := s.objects ++ [m] })

/-- Assignment to members of the object a pointer points to. -/
def assign (s : ModuleStore) (mod : ModulePtr) (f : Module → Module) : ModuleStore :=
  { s with objects := s.objects.set mod (f (s.load mod)) }

/-- The write `txn.Insert(s.tableName, mod)`: the object is indexed under its
`Path`; an error of the database is passed on, and nothing is written then. -/
def insert (s : ModuleStore) (mod : ModulePtr) : Except StoreError ModuleStore :=
  match memdb.Insert s.table (s.load mod).Path mod with
  | Except.error msg => Except.error (StoreError.memdbError msg)
  | Except.ok table => Except.ok { s with table := table }

/-- The method `Add`. When `txn.Insert` fails the transaction is aborted: the
Module made by `newModule` is allocated and the table is left as it was. -/
def Add (s : ModuleStore) (modPath : String) : Option StoreError × ModuleStore :=
  match memdb.First s.table modPath with
  | some _ => (some (StoreError.AlreadyExistsError modPath), s)
  | none =>
    let a := s.new (newModule modPath)
    match a.2.insert a.1 with
    | Except.error err => (some err, a.2)
    | Except.ok txn => (none, txn)

/-- The method `Remove`. The error of `txn.DeleteAll` is nil for every path, so
the transaction is always committed. -/
def Remove (s : ModuleStore) (modPath : String) : Option StoreError × ModuleStore :=
  (none, { s with table := memdb.DeleteAll s.table modPath })

end ModuleStore

/-- The function `moduleByPath`: the stored pointer itself. -/
def moduleByPath (s : ModuleStore) (path : String) : Except StoreError ModulePtr :=
  match memdb.First s.table path with
  | none => Except.error (StoreError.ModuleNotFoundError path)
  | some obj => Except.ok obj

/-- The function `moduleCopyByPath`: a pointer to a newly allocated copy. -/
def moduleCopyByPath (s : ModuleStore) (path : String) :
    Except StoreError (ModulePtr × ModuleStore) :=
  match moduleByPath s path with
  | Except.error err => Except.error err
  | Except.ok mod => Except.ok (s.new (s.load mod).Copy)

namespace ModuleStore

/-- The method `ModuleByPath`. -/
def ModuleByPath (s : ModuleStore) (path : String) : Except StoreError ModulePtr :=
  match moduleByPath s path with
  | Except.error err => Except.error err
  | Except.ok mod => Except.ok mod

/-- The method `List`: the stored pointers in index order, and a nil error. -/
def List (s : ModuleStore) : Slice ModulePtr × Option StoreError :=
  ((memdb.Get s.table).foldl (fun modules mod => modules ++ [mod]) [], none)

/-- The method `CallersOfModule`. The manifest query `ContainsLocalModule`
belongs to the package `datadir` and is a parameter here. -/
def CallersOfModule (ContainsLocalModule : datadir.ModuleManifest → String → Bool)
    (s : ModuleStore) (modPath : String) : Slice ModulePtr × Option StoreError :=
  ((memdb.Get s.table).foldl
    (fun callers mod =>
      match (s.load mod).ModManifest with
      | none => callers
      | some manifest =>
        if ContainsLocalModule manifest modPath then callers ++ [mod] else callers)
    [], none)

/-- The method `ModuleCalls`. The record query `IsRoot` belongs to the package
`datadir` and `Join` stands for `filepath.Join`; both are parameters here. -/
def ModuleCalls (IsRoot : datadir.ModuleRecord → Bool) (Join : String → String → String)
    (s : ModuleStore) (modPath : String) : Slice tfmod.ModuleCall × Option StoreError :=
  let l := s.List
  (l.1.foldl
    (fun result mod =>
      match (s.load mod).ModManifest with
      | none => result
      | some manifest =>
        manifest.Records.foldl
          (fun result record =>
            if IsRoot record then result
            else result ++ [tfmod.ModuleCall.mk record.Key record.SourceAddr
                              (Join modPath record.Dir)])
          result)
    [], l.2)

/-- The method `ModuleMeta`. -/
def ModuleMeta (s : ModuleStore) (modPath : String) : Except StoreError tfmod.Meta :=
  match s.ModuleByPath modPath with
  | Except.error err => Except.error err
  | Except.ok mod =>
    Except.ok { Path := (s.load mod).Path
                ProviderReferences := (s.load mod).Meta.ProviderReferences
                ProviderRequirements := (s.load mod).Meta.ProviderRequirements
                CoreRequirements := (s.load mod).Meta.CoreRequirements
                Variables := (s.load mod).Meta.Variables
                Outputs := (s.load mod).Meta.Outputs }

/-- The registration `txn.Defer(fn)` around the body of a write transaction:
`fn` runs once the transaction has been committed and its result is dropped;
an aborted transaction does not run it. -/
def deferred (r : Option StoreError × ModuleStore)
    (fn : ModuleStore → Option StoreError × ModuleStore) : Option StoreError × ModuleStore :=
  match r.1 with
  | some err => (some err, r.2)
  | none => (none, (fn r.2).2)

/-- Modelled from the spec: `updateProviderVersions` is defined with the
provider schema table, in another file of the package. It records the
resolved provider versions in that table, which is no part of the module
table, and store operations succeed barring NotFound and AlreadyExists. -/
def updateProviderVersions (txn : ModuleStore) (_modPath : String)
    (_pv : Option (GoMap tfaddr.Provider (Option version.Version))) :
    Option StoreError × ModuleStore :=
  (none, txn)

/-- The method `SetModManifestState`. -/
def SetModManifestState (s : ModuleStore) (path : String) (state : op.OpState) :
    Option StoreError × ModuleStore :=
  match moduleCopyByPath s path with
  | Except.error err => (some err, s)
  | Except.ok (mod, txn) =>
    let txn := txn.assign mod (fun m => { m with ModManifestState := state })
    match txn.insert mod with
    | Except.error err => (some err, txn)
    | Except.ok txn => (none, txn)

/-- The method `UpdateModManifest`. -/
def UpdateModManifest (s : ModuleStore) (path : String) (manifest : Option datadir.ModuleManifest) (mErr : GoError) :
    Option StoreError × ModuleStore :=
  deferred
    (match moduleCopyByPath s path with
      | Except.error err => (some err, s)
      | Except.ok (mod, txn) =>
        let txn := txn.assign mod (fun m => { m with ModManifest := manifest, ModManifestErr := mErr })
        match txn.insert mod with
        | Except.error err => (some err, txn)
        | Except.ok txn => (none, txn))
    (fun s => s.SetModManifestState path op.OpState.OpStateLoaded)

/-- The method `SetTerraformVersionState`. -/
def SetTerraformVersionState (s : ModuleStore) (path : String) (state : op.OpState) :
    Option StoreError × ModuleStore :=
  match moduleCopyByPath s path with
  | Except.error err => (some err, s)
  | Except.ok (mod, txn) =>
    let txn := txn.assign mod (fun m => { m with TerraformVersionState := state })
    match txn.insert mod with
    | Except.error err => (some err, txn)
    | Except.ok txn => (none, txn)

/-- The method `SetProviderSchemaState`. -/
def SetProviderSchemaState (s : ModuleStore) (path : String) (state : op.OpState) :
    Option StoreError × ModuleStore :=
  match moduleCopyByPath s path with
  | Except.error err => (some err, s)
  | Except.ok (mod, txn) =>
    let txn := txn.assign mod (fun m => { m with ProviderSchemaState := state })
    match txn.insert mod with
    | Except.error err => (some err, txn)
    | Except.ok txn => (none, txn)

/-- The method `FinishProviderSchemaLoading`. -/
def FinishProviderSchemaLoading (s : ModuleStore) (path : String) (psErr : GoError) :
    Option StoreError × ModuleStore :=
  deferred
    (match moduleCopyByPath s path with
      | Except.error err => (some err, s)
      | Except.ok (mod, txn) =>
        let txn := txn.assign mod (fun m => { m with ProviderSchemaErr := psErr })
        match txn.insert mod with
        | Except.error err => (some err, txn)
        | Except.ok txn => (none, txn))
    (fun s => s.SetProviderSchemaState path op.OpState.OpStateLoaded)

/-- The method `UpdateTerraformVersion`: the provider versions are recorded
inside the same transaction, which is aborted when that fails. -/
def UpdateTerraformVersion (s : ModuleStore) (modPath : String)
    (tfVer : Option version.Version)
    (pv : Option (GoMap tfaddr.Provider (Option version.Version))) (vErr : GoError) :
    Option StoreError × ModuleStore :=
  deferred
    (match moduleCopyByPath s modPath with
      | Except.error err => (some err, s)
      | Except.ok (mod, txn) =>
        let txn := txn.assign mod
          (fun m => { m with TerraformVersion := tfVer, TerraformVersionErr := vErr })
        match txn.insert mod with
        | Except.error err => (some err, txn)
        | Except.ok txn =>
          match updateProviderVersions txn modPath pv with
          | (some err, txn) => (some err, { txn with table := s.table })
          | (none, txn) => (none, txn))
    (fun s => s.SetTerraformVersionState modPath op.OpState.OpStateLoaded)

/-- The method `SetModuleParsingState`. -/
def SetModuleParsingState (s : ModuleStore) (path : String) (state : op.OpState) :
    Option StoreError × ModuleStore :=
  match moduleCopyByPath s path with
  | Except.error err => (some err, s)
  | Except.ok (mod, txn) =>
    let txn := txn.assign mod (fun m => { m with ModuleParsingState := state })
    match txn.insert mod with
    | Except.error err => (some err, txn)
    | Except.ok txn => (none, txn)

/-- The method `SetVarsParsingState`. -/
def SetVarsParsingState (s : ModuleStore) (path : String) (state : op.OpState) :
    Option StoreError × ModuleStore :=
  match moduleCopyByPath s path with
  | Except.error err => (some err, s)
  | Except.ok (mod, txn) =>
    let txn := txn.assign mod (fun m => { m with VarsParsingState := state })
    match txn.insert mod with
    | Except.error err => (some err, txn)
    | Except.ok txn => (none, txn)

/-- The method `UpdateParsedModuleFiles`. -/
def UpdateParsedModuleFiles (s : ModuleStore) (path : String) (pFiles : Option ast.ModFiles) (pErr : GoError) :
    Option StoreError × ModuleStore :=
  deferred
    (match moduleCopyByPath s path with
      | Except.error err => (some err, s)
      | Except.ok (mod, txn) =>
        let txn := txn.assign mod (fun m => { m with ParsedModuleFiles := pFiles, ModuleParsingErr := pErr })
        match txn.insert mod with
        | Except.error err => (some err, txn)
        | Except.ok txn => (none, txn))
    (fun s => s.SetModuleParsingState path op.OpState.OpStateLoaded)

/-- The method `UpdateParsedVarsFiles`. -/
def UpdateParsedVarsFiles (s : ModuleStore) (path : String) (vFiles : Option ast.VarsFiles) (vErr : GoError) :
    Option StoreError × ModuleStore :=
  deferred
    (match moduleCopyByPath s path with
      | Except.error err => (some err, s)
      | Except.ok (mod, txn) =>
        let txn := txn.assign mod (fun m => { m with ParsedVarsFiles := vFiles, VarsParsingErr := vErr })
        match txn.insert mod with
        | Except.error err => (some err, txn)
        | Except.ok txn => (none, txn))
    (fun s => s.SetVarsParsingState path op.OpState.OpStateLoaded)

/-- The method `SetMetaState`. -/
def SetMetaState (s : ModuleStore) (path : String) (state : op.OpState) :
    Option StoreError × ModuleStore :=
  match moduleCopyByPath s path with
  | Except.error err => (some err, s)
  | Except.ok (mod, txn) =>
    let txn := txn.assign mod (fun m => { m with MetaState := state })
    match txn.insert mod with
    | Except.error err => (some err, txn)
    | Except.ok txn => (none, txn)

/-- The method `UpdateMetadata`. It reads the members of `meta` without a nil
check, after the Module has been found: with a nil `meta` the first read is a
nil pointer dereference, Go panics and the transaction is aborted. -/
def UpdateMetadata (s : ModuleStore) (path : String) (meta : Option tfmod.Meta) (mErr : GoError) :
    Option StoreError × ModuleStore :=
  deferred
    (match moduleCopyByPath s path with
      | Except.error err => (some err, s)
      | Except.ok (mod, txn) =>
        match meta with
        | none =>
          (some (StoreError.runtimePanic "invalid memory address or nil pointer dereference"),
            txn)
        | some meta =>
          let txn := txn.assign mod (fun m =>
            { m with
              Meta := { CoreRequirements := meta.CoreRequirements
                        ProviderReferences := meta.ProviderReferences
                        ProviderRequirements := meta.ProviderRequirements
                        Variables := meta.Variables
                        Outputs := meta.Outputs }
              MetaErr := mErr })
          match txn.insert mod with
          | Except.error err => (some err, txn)
          | Except.ok txn => (none, txn))
    (fun s => s.SetMetaState path op.OpState.OpStateLoaded)

/-- The method `UpdateModuleDiagnostics`. -/
def UpdateModuleDiagnostics (s : ModuleStore) (path : String) (diags : Option ast.ModDiags) :
    Option StoreError × ModuleStore :=
  match moduleCopyByPath s path with
  | Except.error err => (some err, s)
  | Except.ok (mod, txn) =>
    let txn := txn.assign mod (fun m => { m with ModuleDiagnostics := diags })
    match txn.insert mod with
    | Except.error err => (some err, txn)
    | Except.ok txn => (none, txn)

/-- The method `UpdateVarsDiagnostics`. -/
def UpdateVarsDiagnostics (s : ModuleStore) (path : String) (diags : Option ast.VarsDiags) :
    Option StoreError × ModuleStore :=
  match moduleCopyByPath s path with
  | Except.error err => (some err, s)
  | Except.ok (mod, txn) =>
    let txn := txn.assign mod (fun m => { m with VarsDiagnostics := diags })
    match txn.insert mod with
    | Except.error err => (some err, txn)
    | Except.ok txn => (none, txn)

/-- The method `SetReferenceTargetsState`: it writes through the stored pointer. -/
def SetReferenceTargetsState (s : ModuleStore) (path : String) (state : op.OpState) :
    Option StoreError × ModuleStore :=
  match moduleByPath s path with
  | Except.error err => (some err, s)
  | Except.ok mod =>
    let txn := s.assign mod (fun m => { m with RefTargetsState := state })
    match txn.insert mod with
    | Except.error err => (some err, txn)
    | Except.ok txn => (none, txn)

/-- The method `UpdateReferenceTargets`: it writes through the stored pointer. -/
def UpdateReferenceTargets (s : ModuleStore) (path : String) (refs : lang.ReferenceTargets) (rErr : GoError) :
    Option StoreError × ModuleStore :=
  deferred
    (match moduleByPath s path with
      | Except.error err => (some err, s)
      | Except.ok mod =>
        let txn := s.assign mod (fun m => { m with RefTargets := refs, RefTargetsErr := rErr })
        match txn.insert mod with
        | Except.error err => (some err, txn)
        | Except.ok txn => (none, txn))
    (fun s => s.SetReferenceTargetsState path op.OpState.OpStateLoaded)

/-- The method `SetReferenceOriginsState`: it writes through the stored pointer. -/
def SetReferenceOriginsState (s : ModuleStore) (path : String) (state : op.OpState) :
    Option StoreError × ModuleStore :=
  match moduleByPath s path with
  | Except.error err => (some err, s)
  | Except.ok mod =>
    let txn := s.assign mod (fun m => { m with RefOriginsState := state })
    match txn.insert mod with
    | Except.error err => (some err, txn)
    | Except.ok txn => (none, txn)

/-- The method `UpdateReferenceOrigins`: it writes through the stored pointer. -/
def UpdateReferenceOrigins (s : ModuleStore) (path : String) (origins : lang.ReferenceOrigins) (roErr : GoError) :
    Option StoreError × ModuleStore :=
  deferred
    (match moduleByPath s path with
      | Except.error err => (some err, s)
      | Except.ok mod =>
        let txn := s.assign mod (fun m => { m with RefOrigins := origins, RefOriginsErr := roErr })
        match txn.insert mod with
        | Except.error err => (some err, txn)
        | Except.ok txn => (none, txn))
    (fun s => s.SetReferenceOriginsState path op.OpState.OpStateLoaded)

/-- The write transaction shared by the operations that work on a copy of the
Module: `mod, err := moduleCopyByPath(txn, path)` with the error returned and
the transaction aborted, the assignments `f` to the members of `mod`,
`txn.Insert(s.tableName, mod)` with its error returned and the transaction
aborted, and `txn.Commit()`. -/
def writeCopy (s : ModuleStore) (path : String) (f : Module → Module) :
    Option StoreError × ModuleStore :=
  match moduleCopyByPath s path with
  | Except.error err => (some err, s)
  | Except.ok (mod, txn) =>
    let txn := txn.assign mod f
    match txn.insert mod with
    | Except.error err => (some err, txn)
    | Except.ok txn => (none, txn)

/-- The write transaction shared by the operations that work on the stored
Module: as `writeCopy`, with `mod, err := moduleByPath(txn, path)`. -/
def writeInPlace (s : ModuleStore) (path : String) (f : Module → Module) :
    Option StoreError × ModuleStore :=
  match moduleByPath s path with
  | Except.error err => (some err, s)
  | Except.ok mod =>
    let txn := s.assign mod f
    match txn.insert mod with
    | Except.error err => (some err, txn)
    | Except.ok txn => (none, txn)

end ModuleStore

end state

/-! ## Vocabulary of the properties -/

namespace state

/-- The eight artifact kinds of a Module. -/
inductive Artifact where
  | manifest
  | toolVersion
  | providerSchema
  | referenceTargets
  | referenceOrigins
  | moduleParsing
  | varsParsing
  | meta
deriving DecidableEq

/-- The state member of a Module that belongs to an artifact kind. -/
def Artifact.state (a : Artifact) (m : Module) : op.OpState :=
  match a with
  | Artifact.manifest => m.ModManifestState
  | Artifact.toolVersion => m.TerraformVersionState
  | Artifact.providerSchema => m.ProviderSchemaState
  | Artifact.referenceTargets => m.RefTargetsState
  | Artifact.referenceOrigins => m.RefOriginsState
  | Artifact.moduleParsing => m.ModuleParsingState
  | Artifact.varsParsing => m.VarsParsingState
  | Artifact.meta => m.MetaState

/-- The operation `Set<Artifact>State` of an artifact kind. -/
def ModuleStore.SetState (s : ModuleStore) (a : Artifact) (path : String) (st : op.OpState) :
    Option StoreError × ModuleStore :=
  match a with
  | Artifact.manifest => s.SetModManifestState path st
  | Artifact.toolVersion => s.SetTerraformVersionState path st
  | Artifact.providerSchema => s.SetProviderSchemaState path st
  | Artifact.referenceTargets => s.SetReferenceTargetsState path st
  | Artifact.referenceOrigins => s.SetReferenceOriginsState path st
  | Artifact.moduleParsing => s.SetModuleParsingState path st
  | Artifact.varsParsing => s.SetVarsParsingState path st
  | Artifact.meta => s.SetMetaState path st

/-- A call of one of the eight `Update<Artifact>` operations, by its arguments
other than the path. The payloads that are pointers or maps may be nil; the
`meta` of `UpdateMetadata` is passed as a pointer that is not nil here, and
`Metadata meta mErr` holds the metadata it points to. -/
inductive ArtifactUpdate where
  | ModManifest (manifest : Option datadir.ModuleManifest) (mErr : GoError)
  | TerraformVersion (tfVer : Option version.Version)
      (pv : Option (GoMap tfaddr.Provider (Option version.Version))) (vErr : GoError)
  | ProviderSchema (psErr : GoError)
  | ParsedModuleFiles (pFiles : Option ast.ModFiles) (pErr : GoError)
  | ParsedVarsFiles (vFiles : Option ast.VarsFiles) (vErr : GoError)
  | Metadata (meta : tfmod.Meta) (mErr : GoError)
  | ReferenceTargets (refs : lang.ReferenceTargets) (rErr : GoError)
  | ReferenceOrigins (origins : lang.ReferenceOrigins) (roErr : GoError)

/-- The artifact kind an update works on. -/
def ArtifactUpdate.kind : ArtifactUpdate → Artifact
  | ArtifactUpdate.ModManifest _ _ => Artifact.manifest
  | ArtifactUpdate.TerraformVersion _ _ _ => Artifact.toolVersion
  | ArtifactUpdate.ProviderSchema _ => Artifact.providerSchema
  | ArtifactUpdate.ParsedModuleFiles _ _ => Artifact.moduleParsing
  | ArtifactUpdate.ParsedVarsFiles _ _ => Artifact.varsParsing
  | ArtifactUpdate.Metadata _ _ => Artifact.meta
  | ArtifactUpdate.ReferenceTargets _ _ => Artifact.referenceTargets
  | ArtifactUpdate.ReferenceOrigins _ _ => Artifact.referenceOrigins

/-- The store operation an update stands for. -/
def ArtifactUpdate.run (u : ArtifactUpdate) (s : ModuleStore) (path : String) :
    Option StoreError × ModuleStore :=
  match u with
  | ArtifactUpdate.ModManifest manifest mErr => s.UpdateModManifest path manifest mErr
  | ArtifactUpdate.TerraformVersion tfVer pv vErr => s.UpdateTerraformVersion path tfVer pv vErr
  | ArtifactUpdate.ProviderSchema psErr => s.FinishProviderSchemaLoading path psErr
  | ArtifactUpdate.ParsedModuleFiles pFiles pErr => s.UpdateParsedModuleFiles path pFiles pErr
  | ArtifactUpdate.ParsedVarsFiles vFiles vErr => s.UpdateParsedVarsFiles path vFiles vErr
  | ArtifactUpdate.Metadata meta mErr => s.UpdateMetadata path (some meta) mErr
  | ArtifactUpdate.ReferenceTargets refs rErr => s.UpdateReferenceTargets path refs rErr
  | ArtifactUpdate.ReferenceOrigins origins roErr => s.UpdateReferenceOrigins path origins roErr

/-- What a Module holds for an artifact once an update of that artifact is
stored: the payload passed in, the error passed in, and the state Loaded. -/
def ArtifactUpdate.StoredIn (u : ArtifactUpdate) (m : Module) : Prop :=
  match u with
  | ArtifactUpdate.ModManifest manifest mErr =>
    m.ModManifest = manifest ∧ m.ModManifestErr = mErr ∧
      m.ModManifestState = op.OpState.OpStateLoaded
  | ArtifactUpdate.TerraformVersion tfVer _ vErr =>
    m.TerraformVersion = tfVer ∧ m.TerraformVersionErr = vErr ∧
      m.TerraformVersionState = op.OpState.OpStateLoaded
  | ArtifactUpdate.ProviderSchema psErr =>
    m.ProviderSchemaErr = psErr ∧ m.ProviderSchemaState = op.OpState.OpStateLoaded
  | ArtifactUpdate.ParsedModuleFiles pFiles pErr =>
    m.ParsedModuleFiles = pFiles ∧ m.ModuleParsingErr = pErr ∧
      m.ModuleParsingState = op.OpState.OpStateLoaded
  | ArtifactUpdate.ParsedVarsFiles vFiles vErr =>
    m.ParsedVarsFiles = vFiles ∧ m.VarsParsingErr = vErr ∧
      m.VarsParsingState = op.OpState.OpStateLoaded
  | ArtifactUpdate.Metadata meta mErr =>
    m.Meta.CoreRequirements = meta.CoreRequirements ∧
      m.Meta.ProviderReferences = meta.ProviderReferences ∧
      m.Meta.ProviderRequirements = meta.ProviderRequirements ∧
      m.Meta.Variables = meta.Variables ∧ m.Meta.Outputs = meta.Outputs ∧
      m.MetaErr = mErr ∧ m.MetaState = op.OpState.OpStateLoaded
  | ArtifactUpdate.ReferenceTargets refs rErr =>
    m.RefTargets = refs ∧ m.RefTargetsErr = rErr ∧
      m.RefTargetsState = op.OpState.OpStateLoaded
  | ArtifactUpdate.ReferenceOrigins origins roErr =>
    m.RefOrigins = origins ∧ m.RefOriginsErr = roErr ∧
      m.RefOriginsState = op.OpState.OpStateLoaded

/-- The Module that differs from `m` in the members of the updated artifact
only: its payload, its error and its state. -/
def ArtifactUpdate.onlyChange (u : ArtifactUpdate) (m : Module) : Module :=
  match u with
  | ArtifactUpdate.ModManifest manifest mErr =>
    { m with ModManifest := manifest, ModManifestErr := mErr,
             ModManifestState := op.OpState.OpStateLoaded }
  | ArtifactUpdate.TerraformVersion tfVer _ vErr =>
    { m with TerraformVersion := tfVer, TerraformVersionErr := vErr,
             TerraformVersionState := op.OpState.OpStateLoaded }
  | ArtifactUpdate.ProviderSchema psErr =>
    { m with ProviderSchemaErr := psErr, ProviderSchemaState := op.OpState.OpStateLoaded }
  | ArtifactUpdate.ParsedModuleFiles pFiles pErr =>
    { m with ParsedModuleFiles := pFiles, ModuleParsingErr := pErr,
             ModuleParsingState := op.OpState.OpStateLoaded }
  | ArtifactUpdate.ParsedVarsFiles vFiles vErr =>
    { m with ParsedVarsFiles := vFiles, VarsParsingErr := vErr,
             VarsParsingState := op.OpState.OpStateLoaded }
  | ArtifactUpdate.Metadata meta mErr =>
    { m with Meta := { CoreRequirements := meta.CoreRequirements
                       ProviderReferences := meta.ProviderReferences
                       ProviderRequirements := meta.ProviderRequirements
                       Variables := meta.Variables
                       Outputs := meta.Outputs },
             MetaErr := mErr, MetaState := op.OpState.OpStateLoaded }
  | ArtifactUpdate.ReferenceTargets refs rErr =>
    { m with RefTargets := refs, RefTargetsErr := rErr,
             RefTargetsState := op.OpState.OpStateLoaded }
  | ArtifactUpdate.ReferenceOrigins origins roErr =>
    { m with RefOrigins := origins, RefOriginsErr := roErr,
             RefOriginsState := op.OpState.OpStateLoaded }

/-- A call of one of the two diagnostics updates, by its argument other than
the path. -/
inductive DiagnosticsUpdate where
  | module (diags : Option ast.ModDiags)
  | vars (diags : Option ast.VarsDiags)

/-- The store operation a diagnostics update stands for. -/
def DiagnosticsUpdate.run (u : DiagnosticsUpdate) (s : ModuleStore) (path : String) :
    Option StoreError × ModuleStore :=
  match u with
  | DiagnosticsUpdate.module diags => s.UpdateModuleDiagnostics path diags
  | DiagnosticsUpdate.vars diags => s.UpdateVarsDiagnostics path diags

/-- The Module that differs from `m` in the diagnostics map of the updated
family only. -/
def DiagnosticsUpdate.onlyChange (u : DiagnosticsUpdate) (m : Module) : Module :=
  match u with
  | DiagnosticsUpdate.module diags => { m with ModuleDiagnostics := diags }
  | DiagnosticsUpdate.vars diags => { m with VarsDiagnostics := diags }

/-- A write to the Module of a path: an artifact update, a diagnostics update
or a state setter. -/
inductive Write where
  | update (u : ArtifactUpdate)
  | diagnostics (u : DiagnosticsUpdate)
  | setState (a : Artifact) (st : op.OpState)

/-- The store operation a write stands for. -/
def Write.run (w : Write) (s : ModuleStore) (path : String) : Option StoreError × ModuleStore :=
  match w with
  | Write.update u => u.run s path
  | Write.diagnostics u => u.run s path
  | Write.setState a st => s.SetState a path st

/-- A call of a mutating store operation. -/
inductive Op where
  | Add (path : String)
  | Remove (path : String)
  | write (path : String) (w : Write)

/-- The store after a call; the returned error is dropped. -/
def Op.run (o : Op) (s : ModuleStore) : ModuleStore :=
  match o with
  | Op.Add path => (s.Add path).2
  | Op.Remove path => (s.Remove path).2
  | Op.write path w => (w.run s path).2

/-- The store reached from the empty store by a sequence of calls. -/
def storeAfter (ops : List Op) : ModuleStore :=
  ops.foldl (fun s o => o.run s) {}

/-- The store holds a Module for the path: the table has an entry under it. -/
def ModuleStore.Has (s : ModuleStore) (path : String) : Prop :=
  ∃ mod, (path, mod) ∈ s.table

/-- The Modules returned by a read, as values: the content each pointer points
to. -/
def ModuleStore.values (s : ModuleStore) (mods : Slice ModulePtr) : Slice Module :=
  mods.map s.load

/-- Representation invariant of the store: the index is in strictly ascending
key order, each entry points to an allocated Module whose `Path` is the key of
the entry, and no key is the empty string (for which the indexer builds no
key). -/
def ModuleStore.WF (s : ModuleStore) : Prop :=
  s.table.Pairwise (fun a b => a.1 < b.1) ∧
    (∀ e ∈ s.table, e.2 < s.objects.length ∧ (s.load e.2).Path = e.1) ∧
    ∀ e ∈ s.table, e.1 ≠ ""

/-- The call `Remove(q)` deletes the Module stored under `p`: the index key of
`p` starts with the index key of `q`. -/
def Deletes (q p : String) : Prop :=
  memdb.indexKey q <+: memdb.indexKey p

instance (q p : String) : Decidable (Deletes q p) :=
  inferInstanceAs (Decidable (memdb.indexKey q <+: memdb.indexKey p))

end state

namespace state

/-- The store `t` is the store `s` with the Module of `path` replaced by `m`:
reading `path` from `t` gives `m`, every other path reads as it did in `s`
(the same pointer, pointing to the same content), and the two stores hold
Modules for the same paths. -/
def ModuleStore.Replaced (s t : ModuleStore) (path : String) (m : Module) : Prop :=
  (∃ mod, memdb.First t.table path = some mod ∧ t.load mod = m) ∧
    (∀ q, q ≠ path → memdb.First t.table q = memdb.First s.table q) ∧
    (∀ q mod, q ≠ path → (q, mod) ∈ s.table → t.load mod = s.load mod) ∧
    (∀ q, t.Has q ↔ s.Has q)

end state

namespace state

/-- A store with one Module, added under `/a` to the empty store. -/
def oneModuleStore : ModuleStore :=
  (ModuleStore.Add {} "/a").2

/-- A store with one Module, added to the empty store under the path made of
`/a`, a NUL character and `b`. -/
def nulPathStore : ModuleStore :=
  (ModuleStore.Add {} "/a\x00b").2

end state

namespace state

/-- The manifest of `/other` in `foreignStore`: one record, a call named `x`
of the module in the directory `x`. -/
def foreignManifest : datadir.ModuleManifest :=
  { rootDir := "/other", Records := [{ Key := "x", SourceAddr := "./x", Dir := "x" }] }

/-- A store that holds the Module `/other` only, with a manifest. -/
def foreignStore : ModuleStore :=
  storeAfter
    [Op.Add "/other",
     Op.write "/other" (Write.update (ArtifactUpdate.ModManifest (some foreignManifest) none))]

/-- The manifest records a Module contributes: those of its manifest, none
when the manifest is absent. -/
def Module.records (m : Module) : List datadir.ModuleRecord :=
  match m.ModManifest with
  | none => []
  | some manifest => manifest.Records

/-- The Module has a manifest and the manifest satisfies the query for the
path. -/
def Module.calls (ContainsLocalModule : datadir.ModuleManifest → String → Bool) (m : Module)
    (modPath : String) : Bool :=
  match m.ModManifest with
  | none => false
  | some manifest => ContainsLocalModule manifest modPath

end state

namespace state

/-- The manifest of `/root` in the example scenario: the record of the root
module followed by the record of the call `child` of the module in the
directory `child`. -/
def scenarioManifest : datadir.ModuleManifest :=
  { rootDir := "/root"
    Records := [{ Key := "", SourceAddr := "", Dir := "." },
                { Key := "child", SourceAddr := "./child", Dir := "child" }] }

/-- The store of the example scenario: the Modules `/root` and `/root/child`
are added and the manifest of `/root` is stored. -/
def scenarioStore : ModuleStore :=
  storeAfter
    [Op.Add "/root", Op.Add "/root/child",
     Op.write "/root" (Write.update (ArtifactUpdate.ModManifest (some scenarioManifest) none))]

end state

namespace state

/-- The write works on a copy of the stored Module, obtained with
`moduleCopyByPath`. The updates and the state setters of the reference
targets and of the reference origins obtain the stored Module itself with
`moduleByPath` and assign to its members. -/
def Write.copies : Write → Bool
  | Write.update (ArtifactUpdate.ReferenceTargets _ _) => false
  | Write.update (ArtifactUpdate.ReferenceOrigins _ _) => false
  | Write.setState Artifact.referenceTargets _ => false
  | Write.setState Artifact.referenceOrigins _ => false
  | _ => true

/-- A store holding `/a` with a map of parsed module files that is not nil and
has no entries. -/
def parsedStore : ModuleStore :=
  (oneModuleStore.UpdateParsedModuleFiles "/a" (some GoMap.make) none).2

/-- Caller code on a Module it holds a pointer to: the assignment
`mod.ParsedModuleFiles[name] = f`, which writes into the map of that Module.
A nil map takes no assignment, and nothing is written then. -/
def addParsedFile (name : String) (f : hcl.File) (m : Module) : Module :=
  { m with ParsedModuleFiles := m.ParsedModuleFiles.map (fun files => files.assign name f) }

/-- The Module that differs from `m` in the state of the artifact only. -/
def Artifact.withState (a : Artifact) (st : op.OpState) (m : Module) : Module :=
  match a with
  | Artifact.manifest => { m with ModManifestState := st }
  | Artifact.toolVersion => { m with TerraformVersionState := st }
  | Artifact.providerSchema => { m with ProviderSchemaState := st }
  | Artifact.referenceTargets => { m with RefTargetsState := st }
  | Artifact.referenceOrigins => { m with RefOriginsState := st }
  | Artifact.moduleParsing => { m with ModuleParsingState := st }
  | Artifact.varsParsing => { m with VarsParsingState := st }
  | Artifact.meta => { m with MetaState := st }

/-- The write transaction of an update, from `s.db.Txn(true)` to
`txn.Commit()`, without the state transition it registers with `txn.Defer`. -/
def ArtifactUpdate.commit (u : ArtifactUpdate) (s : ModuleStore) (path : String) :
    Option StoreError × ModuleStore :=
  match u with
  | ArtifactUpdate.ModManifest manifest mErr =>
    s.writeCopy path (fun m => { m with ModManifest := manifest, ModManifestErr := mErr })
  | ArtifactUpdate.TerraformVersion tfVer _ vErr =>
    s.writeCopy path (fun m => { m with TerraformVersion := tfVer, TerraformVersionErr := vErr })
  | ArtifactUpdate.ProviderSchema psErr =>
    s.writeCopy path (fun m => { m with ProviderSchemaErr := psErr })
  | ArtifactUpdate.ParsedModuleFiles pFiles pErr =>
    s.writeCopy path (fun m => { m with ParsedModuleFiles := pFiles, ModuleParsingErr := pErr })
  | ArtifactUpdate.ParsedVarsFiles vFiles vErr =>
    s.writeCopy path (fun m => { m with ParsedVarsFiles := vFiles, VarsParsingErr := vErr })
  | ArtifactUpdate.Metadata meta mErr =>
    s.writeCopy path (fun m =>
      { m with
        Meta := { CoreRequirements := meta.CoreRequirements
                  ProviderReferences := meta.ProviderReferences
                  ProviderRequirements := meta.ProviderRequirements
                  Variables := meta.Variables
                  Outputs := meta.Outputs }
        MetaErr := mErr })
  | ArtifactUpdate.ReferenceTargets refs rErr =>
    s.writeInPlace path (fun m => { m with RefTargets := refs, RefTargetsErr := rErr })
  | ArtifactUpdate.ReferenceOrigins origins roErr =>
    s.writeInPlace path (fun m => { m with RefOrigins := origins, RefOriginsErr := roErr })

/-- The Module that differs from `m` in the payload and the error of the
updated artifact only: what the transaction of the update assigns. -/
def ArtifactUpdate.payloadChange (u : ArtifactUpdate) (m : Module) : Module :=
  match u with
  | ArtifactUpdate.ModManifest manifest mErr =>
    { m with ModManifest := manifest, ModManifestErr := mErr }
  | ArtifactUpdate.TerraformVersion tfVer _ vErr =>
    { m with TerraformVersion := tfVer, TerraformVersionErr := vErr }
  | ArtifactUpdate.ProviderSchema psErr => { m with ProviderSchemaErr := psErr }
  | ArtifactUpdate.ParsedModuleFiles pFiles pErr =>
    { m with ParsedModuleFiles := pFiles, ModuleParsingErr := pErr }
  | ArtifactUpdate.ParsedVarsFiles vFiles vErr =>
    { m with ParsedVarsFiles := vFiles, VarsParsingErr := vErr }
  | ArtifactUpdate.Metadata meta mErr =>
    { m with
      Meta := { CoreRequirements := meta.CoreRequirements
                ProviderReferences := meta.ProviderReferences
                ProviderRequirements := meta.ProviderRequirements
                Variables := meta.Variables
                Outputs := meta.Outputs }
      MetaErr := mErr }
  | ArtifactUpdate.ReferenceTargets refs rErr =>
    { m with RefTargets := refs, RefTargetsErr := rErr }
  | ArtifactUpdate.ReferenceOrigins origins roErr =>
    { m with RefOrigins := origins, RefOriginsErr := roErr }

/-- A write transaction of two concurrent updates: the transaction of an
update, or the state transition to Loaded that an update runs after its
commit. -/
inductive Transaction where
  | commit (u : ArtifactUpdate)
  | loaded (a : Artifact)

/-- The store after a transaction on the path. The database admits one writer
at a time (`s.db.Txn(true)` to `txn.Commit()`), so a transaction runs as a
whole on the store committed before it. -/
def Transaction.run (t : Transaction) (s : ModuleStore) (path : String) : ModuleStore :=
  match t with
  | Transaction.commit u => (u.commit s path).2
  | Transaction.loaded a => (s.SetState a path op.OpState.OpStateLoaded).2

/-- What a transaction assigns to the Module it finds for the path. -/
def Transaction.effect (t : Transaction) (m : Module) : Module :=
  match t with
  | Transaction.commit u => u.payloadChange m
  | Transaction.loaded a => a.withState op.OpState.OpStateLoaded m

/-- The store after a sequence of transactions on the path. -/
def runTransactions (s : ModuleStore) (path : String) (ts : List Transaction) : ModuleStore :=
  ts.foldl (fun s t => t.run s path) s

/-- All interleavings of two sequences: each keeps the order of both. -/
def interleavings {T : Type} : List T → List T → List (List T)
  | [], ys => [ys]
  | x :: xs, [] => [x :: xs]
  | x :: xs, y :: ys =>
    (interleavings xs (y :: ys)).map (fun l => x :: l) ++
      (interleavings (x :: xs) ys).map (fun l => y :: l)
termination_by xs ys => xs.length + ys.length

/-- The two transactions of an update, in their order. -/
def ArtifactUpdate.transactions (u : ArtifactUpdate) : List Transaction :=
  [Transaction.commit u, Transaction.loaded u.kind]

end state

/-! ## The path-context builder (`internal/decoder/decoder.go`) -/

namespace schema

/-- A body schema (`*schema.BodySchema`), identified by its text. -/
abbrev BodySchema := String

end schema

namespace ast

/-- Modelled from the spec: the method `String` of the file name types
`ast.ModFilename` and `ast.VarsFilename` belongs to the package `ast`. The
files of a context are keyed by filename: the method returns the name. -/
def Filename.String (name : String) : String :=
  name

end ast

namespace decoder

/-- The per-directory view handed to the decoder (`decoder.PathContext`). -/
structure PathContext where
  DirPath : String := ""
  Schema : Option schema.BodySchema := none
  ReferenceOrigins : lang.ReferenceOrigins := []
  ReferenceTargets : lang.ReferenceTargets := []
  Files : Option (GoMap String hcl.File) := none
deriving DecidableEq

/-- The loop `for name, f := range files { pathCtx.Files[name.String()] = f }`
on the map `make(map[string]*hcl.File, 0)`; a nil map of files has nothing to
range over. -/
def collectFiles (files : Option (GoMap String hcl.File)) : GoMap String hcl.File :=
  match files with
  | none => GoMap.make
  | some m => m.entries.foldl (fun acc e => acc.assign (ast.Filename.String e.1) e.2) GoMap.make

/-- The function `modulePathContext`. The schema construction
`schemaForModule` is defined in another file of the package and is a
parameter here, as are the types of the two readers. -/
def modulePathContext {SchemaReader ModuleReader : Type}
    (schemaForModule : state.Module → SchemaReader → ModuleReader →
      Option schema.BodySchema × GoError)
    (mod : state.Module) (schemaReader : SchemaReader) (modReader : ModuleReader) :
    Option PathContext × GoError :=
  match schemaForModule mod schemaReader modReader with
  | (_, some err) => (none, some err)
  | (schema, none) =>
    (some { DirPath := mod.Path
            Schema := schema
            ReferenceOrigins := mod.RefOrigins
            ReferenceTargets := mod.RefTargets
            Files := some (collectFiles mod.ParsedModuleFiles) },
     none)

/-- The function `varsPathContext`. `SchemaForVariables` belongs to the schema
library and is a parameter here. -/
def varsPathContext
    (SchemaForVariables : Option (GoMap String tfmod.Variable) →
      Option schema.BodySchema × GoError)
    (mod : state.Module) : Option PathContext × GoError :=
  match SchemaForVariables mod.Meta.Variables with
  | (_, some err) => (none, some err)
  | (schema, none) =>
    (some { DirPath := mod.Path
            Schema := schema
            ReferenceOrigins := mod.RefOrigins
            ReferenceTargets := mod.RefTargets
            Files := some (collectFiles mod.ParsedVarsFiles) },
     none)

end decoder

namespace decoder

/-- A Module with one parsed module file, no parsed variable file, one
reference origin and one reference target. -/
def exampleModule : state.Module :=
  { Path := "/a"
    RefOrigins := ["var.x at main.tf:5"]
    RefTargets := ["var.x"]
    ParsedModuleFiles := some (GoMap.make.assign "main.tf" "parsed main.tf") }

end decoder

/-! ## The find-references handler (`internal/langserver/handlers/references.go`) -/

namespace lsp

/-- A location in a document (`lsp.Location`), identified by its text. -/
abbrev Location := String

end lsp

namespace ilsp

/-- Modelled from the spec: `RefOriginsToLocations` is a function of the
package `lsp` of the language server. The handler turns the origins it has
found into the locations it returns, in discovery order with no ranking: one
location for each origin, in the order of the origins. The conversion of one
origin, `RefOriginToLocation`, is a parameter. -/
def RefOriginsToLocations (RefOriginToLocation : String → String → lsp.Location)
    (modPath : String) (origins : lang.ReferenceOrigins) : Slice lsp.Location :=
  origins.map (RefOriginToLocation modPath)

end ilsp

namespace handlers

/-- The collaborators of the handler `References`: the document storage of the
context, the decoder of a document with its two queries, and the conversions
of the package `lsp`. Their types are parameters. -/
structure Collaborators (Ctx Params Storage Document Decoder Position : Type) where
  DocumentStorage : Ctx → Except String Storage
  GetDocument : Storage → Params → Except String Document
  decoderForDocument : Ctx → Document → Except String Decoder
  FilePositionFromDocumentPosition : Params → Document → Except String Position
  InnermostReferenceTargetsAtPos : Decoder → Position → Except String lang.ReferenceTargets
  ReferenceOriginsTargeting : Decoder → String → Except String lang.ReferenceOrigins
  Dir : Document → String
  RefOriginToLocation : String → String → lsp.Location

/-- A line written to the logger of the service by `References`. -/
inductive LogEntry (Position : Type) where
  | notAddressable (fPos : Position)
  | findingOrigins (refTargets : lang.ReferenceTargets)
deriving DecidableEq

/-- What a call of `References` produces: the returned list, the returned
error, and the lines logged. -/
structure Outcome (Position : Type) where
  list : Slice lsp.Location
  err : GoError
  log : Slice (LogEntry Position)
deriving DecidableEq

/-- The loop of `References` over the targets: the origins of each target
are appended to those found so far, and the first error ends the loop. -/
def collectOrigins (ReferenceOriginsTargeting : String → Except String lang.ReferenceOrigins) :
    lang.ReferenceTargets → lang.ReferenceOrigins → Except String lang.ReferenceOrigins
  | [], origins => Except.ok origins
  | refTarget :: rest, origins =>
    match ReferenceOriginsTargeting refTarget with
    | Except.error err => Except.error err
    | Except.ok refOrigins => collectOrigins ReferenceOriginsTargeting rest (origins ++ refOrigins)

/-- The handler `References`. -/
def References {Ctx Params Storage Document Decoder Position : Type}
    (svc : Collaborators Ctx Params Storage Document Decoder Position) (ctx : Ctx)
    (params : Params) : Outcome Position :=
  match svc.DocumentStorage ctx with
  | Except.error err => { list := [], err := some err, log := [] }
  | Except.ok fs =>
    match svc.GetDocument fs params with
    | Except.error err => { list := [], err := some err, log := [] }
    | Except.ok doc =>
      match svc.decoderForDocument ctx doc with
      | Except.error err => { list := [], err := some err, log := [] }
      | Except.ok d =>
        match svc.FilePositionFromDocumentPosition params doc with
        | Except.error err => { list := [], err := some err, log := [] }
        | Except.ok fPos =>
          match svc.InnermostReferenceTargetsAtPos d fPos with
          | Except.error err => { list := [], err := some err, log := [] }
          | Except.ok refTargets =>
            if refTargets.length = 0 then
              { list := [], err := none, log := [LogEntry.notAddressable fPos] }
            else
              match collectOrigins (svc.ReferenceOriginsTargeting d) refTargets [] with
              | Except.error err =>
                { list := [], err := some err, log := [LogEntry.findingOrigins refTargets] }
              | Except.ok origins =>
                { list := ilsp.RefOriginsToLocations svc.RefOriginToLocation (svc.Dir doc) origins
                  err := none
                  log := [LogEntry.findingOrigins refTargets] }

/-- A service for one document in which the position 0 is covered by no
target and every other position by the target `var.x`, which no origin
refers to. -/
def quietService : Collaborators Unit Nat Unit Unit Unit Nat :=
  { DocumentStorage := fun _ => Except.ok ()
    GetDocument := fun _ _ => Except.ok ()
    decoderForDocument := fun _ _ => Except.ok ()
    FilePositionFromDocumentPosition := fun params _ => Except.ok params
    InnermostReferenceTargetsAtPos := fun _ fPos =>
      Except.ok (if fPos = 0 then [] else ["var.x"])
    ReferenceOriginsTargeting := fun _ _ => Except.ok []
    Dir := fun _ => "/a"
    RefOriginToLocation := fun modPath origin => modPath ++ "/" ++ origin }

/-- A service for one document whose position 1 is covered by the targets
`var.x` and `var.y`, each referred to by origins. -/
def busyService : Collaborators Unit Nat Unit Unit Unit Nat :=
  { DocumentStorage := fun _ => Except.ok ()
    GetDocument := fun _ _ => Except.ok ()
    decoderForDocument := fun _ _ => Except.ok ()
    FilePositionFromDocumentPosition := fun params _ => Except.ok params
    InnermostReferenceTargetsAtPos := fun _ fPos =>
      Except.ok (if fPos = 0 then [] else ["var.x", "var.y"])
    ReferenceOriginsTargeting := fun _ refTarget =>
      Except.ok (if refTarget = "var.x" then ["main.tf:5", "main.tf:2"] else ["main.tf:5"])
    Dir := fun _ => "/a"
    RefOriginToLocation := fun modPath origin => modPath ++ "/" ++ origin }

end handlers

namespace state

/-- A Module with diagnostics for two files, one of them without findings, a
map of parsed module files that is not nil, and nil maps otherwise. -/
def diagnosedModule : Module :=
  { Path := "/a"
    ParsedModuleFiles := some (GoMap.make.assign "main.tf" "parsed main.tf")
    ModuleParsingState := op.OpState.OpStateLoaded
    ModuleDiagnostics :=
      some ((GoMap.make.assign "main.tf" [some "unexpected block", none, some "missing name"]).assign
        "outputs.tf" []) }

end state

/-! ## Code actions (`internal/lsp/code_actions.go`) -/

namespace GoMap

/-- The value of a key among the entries, if the key is there. -/
def lookupEntries {K V : Type} [DecidableEq K] (k : K) : List (K × V) → Option V
  | [] => none
  | e :: rest => if e.1 = k then some e.2 else lookupEntries k rest

/-- The read `v, ok := m[k]`: `some v` when `ok`, `none` otherwise. -/
def lookup {K V : Type} [DecidableEq K] (m : GoMap K V) (k : K) : Option V :=
  lookupEntries k m.entries

end GoMap

namespace sort

/-- The place of a new element in a sorted slice: behind every element it is
not less than. -/
def insertStable {T : Type} (less : T → T → Bool) (x : T) : List T → List T
  | [] => [x]
  | y :: ys => if less x y then x :: y :: ys else y :: insertStable less x ys

/-- The library sort `sort.SliceStable(s, less)`, with `less` taken on the
elements: the elements in ascending order of `less`, equal elements in their
original order. -/
def SliceStable {T : Type} (less : T → T → Bool) (s : List T) : List T :=
  s.foldl (fun sorted x => insertStable less x sorted) []

end sort

namespace lsp

/-- The kind of a code action (`lsp.CodeActionKind`, a string). -/
abbrev CodeActionKind := String

end lsp

namespace ilsp

/-- The constant `SourceFormatAll`. -/
def SourceFormatAll : lsp.CodeActionKind := "source.formatAll"

/-- The constant `SourceFormatAllTerraformLs`. -/
def SourceFormatAllTerraformLs : lsp.CodeActionKind := "source.formatAll.terraform-ls"

/-- The type `CodeActions`, a map from kinds to booleans. A nil map is read
like a map without entries, by `range` and by lookup alike. -/
abbrev CodeActions := GoMap lsp.CodeActionKind Bool

/-- The variable `SupportedCodeActions`. -/
def SupportedCodeActions : CodeActions :=
  (GoMap.make.assign SourceFormatAll true).assign SourceFormatAllTerraformLs true

/-- The method `CodeActions.AsSlice`: the keys are appended in the order the
map is ranged over, then sorted. -/
def CodeActions.AsSlice (c : CodeActions) : Slice lsp.CodeActionKind :=
  sort.SliceStable (fun a b => decide (a < b)) (c.entries.foldl (fun s e => s ++ [e.1]) [])

/-- The method `CodeActions.Only`. -/
def CodeActions.Only (ca : CodeActions) (only : Slice lsp.CodeActionKind) : CodeActions :=
  only.foldl
    (fun wanted kind =>
      match ca.lookup kind with
      | some v => wanted.assign kind v
      | none => wanted)
    GoMap.make

end ilsp

/-! ## Copies hold the same values -/

theorem copySlice_loop {T : Type} (xs : List T) :
    ∀ pre junk : List T, junk.length = xs.length →
      (xs.enumFrom pre.length).foldl (fun dst ix => dst.set ix.1 ix.2) (pre ++ junk) =
        pre ++ xs := by
  induction xs with
  | nil =>
    intro pre junk h
    have : junk = [] := List.length_eq_zero.1 h
    simp [this]
  | cons x xs ih =>
    intro pre junk h
    cases junk with
    | nil => simp at h
    | cons j junk =>
      have hlen : junk.length = xs.length := by simpa using h
      have hset : (pre ++ j :: junk).set pre.length x = (pre ++ [x]) ++ junk := by
        simp [List.set_append]
      have hn : pre.length + 1 = (pre ++ [x]).length := by simp
      simp only [List.enumFrom_cons, List.foldl_cons, hset]
      rw [hn, ih (pre ++ [x]) junk hlen]
      simp

theorem copySlice_eq {T : Type} [Inhabited T] (xs : List T) : copySlice xs = xs := by
  have h := copySlice_loop xs [] (List.replicate xs.length default) (by simp)
  simpa [copySlice, List.enum] using h

namespace GoMap

theorem ext_entries {K V : Type} {a b : GoMap K V} (h : a.entries = b.entries) : a = b := by
  cases a; cases b; simp_all

theorem assignEntries_new {K V : Type} [DecidableEq K] (k : K) (v : V) :
    ∀ l : List (K × V), k ∉ l.map Prod.fst → assignEntries k v l = l ++ [(k, v)] := by
  intro l
  induction l with
  | nil => intro _; rfl
  | cons e rest ih =>
    intro h
    have h1 : e.1 ≠ k := fun he => h (by simp [he])
    have h2 : k ∉ rest.map Prod.fst := fun hm => h (by simp at hm ⊢; exact Or.inr hm)
    simp [assignEntries, h1, ih h2]

theorem assign_loop {K V : Type} [DecidableEq K] :
    ∀ (l : List (K × V)) (acc : GoMap K V), ((acc.entries ++ l).map Prod.fst).Nodup →
      (l.foldl (fun acc e => acc.assign e.1 e.2) acc).entries = acc.entries ++ l := by
  intro l
  induction l with
  | nil => intro acc _; simp
  | cons e rest ih =>
    intro acc h
    have hk : e.1 ∉ acc.entries.map Prod.fst := by
      intro hm
      rw [List.map_append, List.nodup_append] at h
      exact h.2.2 hm (by simp)
    have hstep : (acc.assign e.1 e.2).entries = acc.entries ++ [e] := by
      simp [assign, assignEntries_new e.1 e.2 acc.entries hk]
    rw [List.foldl_cons, ih (acc.assign e.1 e.2) (by rw [hstep]; simpa using h), hstep]
    simp

theorem copyInto_make {K V : Type} [DecidableEq K] (m : GoMap K V) : m.copyInto make = m := by
  apply ext_entries
  have h := assign_loop m.entries (make : GoMap K V) (by simpa [make] using m.nodup)
  simpa [copyInto, make] using h

end GoMap

namespace state

theorem copyMap_eq {K V : Type} [DecidableEq K] (m : Option (GoMap K V)) : copyMap m = m := by
  cases m with
  | none => rfl
  | some m => simp [copyMap, GoMap.copyInto_make]

theorem copyDiags_eq (m : Option (GoMap String hcl.Diagnostics)) : copyDiags m = m := by
  cases m with
  | none => rfl
  | some m =>
    have h : (fun (acc : GoMap String hcl.Diagnostics) (e : String × hcl.Diagnostics) =>
        acc.assign e.1 (copySlice e.2)) = fun acc e => acc.assign e.1 e.2 := by
      funext acc e
      rw [copySlice_eq]
    have h2 := GoMap.copyInto_make m
    simp only [GoMap.copyInto] at h2
    simp [copyDiags, h, h2]

theorem metadataCopy_eq (mm : ModuleMetadata) : mm.Copy = mm := by
  cases mm
  simp [ModuleMetadata.Copy, copyMap_eq]

theorem manifestCopy_eq (mm : Option datadir.ModuleManifest) :
    datadir.ModuleManifest.Copy mm = mm := by
  cases mm with
  | none => rfl
  | some mm => cases mm; simp [datadir.ModuleManifest.Copy, copySlice_eq]

theorem moduleCopy_eq (m : Module) : m.Copy = m := by
  cases m
  simp [Module.Copy, copyMap_eq, copyDiags_eq, metadataCopy_eq, manifestCopy_eq,
    lang.ReferenceTargets.Copy, lang.ReferenceOrigins.Copy]

end state

/-! ## The index of the module table -/

namespace memdb

theorem First_mem {t : List (String × state.ModulePtr)} {key : String} {obj : state.ModulePtr}
    (h : First t key = some obj) : (key, obj) ∈ t := by
  induction t with
  | nil => simp [First] at h
  | cons e rest ih =>
    obtain ⟨k, o⟩ := e
    by_cases hk : k = key
    · simp [First, hk] at h
      simp [hk, h]
    · simp [First, hk] at h
      exact List.mem_cons_of_mem _ (ih h)

theorem First_eq_none_iff (t : List (String × state.ModulePtr)) (key : String) :
    First t key = none ↔ ∀ obj, (key, obj) ∉ t := by
  induction t with
  | nil => simp [First]
  | cons e rest ih =>
    obtain ⟨k, o⟩ := e
    by_cases hk : k = key
    · subst hk
      simp only [First, if_true]
      constructor
      · intro h; cases h
      · intro h; exact absurd (List.mem_cons_self _ _) (h o)
    · simp only [First, if_neg hk, ih]
      constructor
      · intro h obj hm
        rcases List.mem_cons.1 hm with h1 | h1
        · exact hk (by cases h1; rfl)
        · exact h obj h1
      · intro h obj hm
        exact h obj (List.mem_cons_of_mem _ hm)

theorem First_of_mem {t : List (String × state.ModulePtr)} {key : String} {obj : state.ModulePtr}
    (hs : t.Pairwise (fun a b => a.1 < b.1)) (h : (key, obj) ∈ t) : First t key = some obj := by
  induction t with
  | nil => simp at h
  | cons e rest ih =>
    obtain ⟨k, o⟩ := e
    rw [List.pairwise_cons] at hs
    rcases List.mem_cons.1 h with h1 | h1
    · cases h1
      simp [First]
    · have hlt : k < key := hs.1 _ h1
      simp [First, ne_of_lt hlt, ih hs.2 h1]

theorem First_Insert_self (t : List (String × state.ModulePtr)) (key : String)
    (obj : state.ModulePtr) : First (indexInsert t key obj) key = some obj := by
  induction t with
  | nil => simp [indexInsert, First]
  | cons e rest ih =>
    obtain ⟨k, o⟩ := e
    by_cases h1 : key < k
    · simp [indexInsert, h1, First]
    · by_cases h2 : key = k
      · simp [indexInsert, h2, First]
      · simp [indexInsert, h1, h2, First, Ne.symm h2, ih]

theorem First_Insert_ne (t : List (String × state.ModulePtr)) {key q : String}
    (obj : state.ModulePtr) (hq : q ≠ key) : First (indexInsert t key obj) q = First t q := by
  induction t with
  | nil => simp [indexInsert, First, Ne.symm hq]
  | cons e rest ih =>
    obtain ⟨k, o⟩ := e
    by_cases h1 : key < k
    · simp [indexInsert, h1, First, Ne.symm hq]
    · by_cases h2 : key = k
      · subst h2
        simp [indexInsert, First, Ne.symm hq]
      · simp only [indexInsert, h1, h2, if_false, First, ih]

theorem mem_Insert_sub {t : List (String × state.ModulePtr)} {key : String}
    {obj : state.ModulePtr} {e : String × state.ModulePtr} (h : e ∈ indexInsert t key obj) :
    e = (key, obj) ∨ e ∈ t := by
  induction t with
  | nil => simpa [indexInsert] using h
  | cons x rest ih =>
    obtain ⟨k, o⟩ := x
    by_cases h1 : key < k
    · simp only [indexInsert, h1, if_true, List.mem_cons] at h
      rcases h with h | h | h
      · exact Or.inl h
      · exact Or.inr (by simp [h])
      · exact Or.inr (List.mem_cons_of_mem _ h)
    · by_cases h2 : key = k
      · subst h2
        simp only [indexInsert, h1, if_true, if_false, List.mem_cons] at h
        rcases h with h | h
        · exact Or.inl h
        · exact Or.inr (List.mem_cons_of_mem _ h)
      · simp only [indexInsert, h1, h2, if_false, List.mem_cons] at h
        rcases h with h | h
        · exact Or.inr (by simp [h])
        · rcases ih h with h | h
          · exact Or.inl h
          · exact Or.inr (List.mem_cons_of_mem _ h)

theorem mem_Insert_iff {t : List (String × state.ModulePtr)} (key : String)
    (obj : state.ModulePtr) (e : String × state.ModulePtr)
    (hs : t.Pairwise (fun a b => a.1 < b.1)) :
    e ∈ indexInsert t key obj ↔ e = (key, obj) ∨ (e ∈ t ∧ e.1 ≠ key) := by
  induction t with
  | nil => simp [indexInsert]
  | cons x rest ih =>
    obtain ⟨k, o⟩ := x
    rw [List.pairwise_cons] at hs
    by_cases h1 : key < k
    · simp only [indexInsert, h1, if_true, List.mem_cons]
      constructor
      · rintro (h | h | h)
        · exact Or.inl h
        · exact Or.inr ⟨Or.inl h, by rw [h]; exact ne_of_gt h1⟩
        · exact Or.inr ⟨Or.inr h, ne_of_gt (lt_trans h1 (hs.1 _ h))⟩
      · rintro (h | ⟨h | h, _⟩)
        · exact Or.inl h
        · exact Or.inr (Or.inl h)
        · exact Or.inr (Or.inr h)
    · by_cases h2 : key = k
      · subst h2
        simp only [indexInsert, h1, if_true, if_false, List.mem_cons]
        constructor
        · rintro (h | h)
          · exact Or.inl h
          · exact Or.inr ⟨Or.inr h, ne_of_gt (hs.1 _ h)⟩
        · rintro (h | ⟨h | h, hne⟩)
          · exact Or.inl h
          · exact absurd (by rw [h]) hne
          · exact Or.inr h
      · simp only [indexInsert, h1, h2, if_false, List.mem_cons, ih hs.2]
        constructor
        · rintro (h | h | ⟨h, hne⟩)
          · exact Or.inr ⟨Or.inl h, by rw [h]; exact Ne.symm h2⟩
          · exact Or.inl h
          · exact Or.inr ⟨Or.inr h, hne⟩
        · rintro (h | ⟨h | h, hne⟩)
          · exact Or.inr (Or.inl h)
          · exact Or.inl h
          · exact Or.inr (Or.inr ⟨h, hne⟩)

theorem Insert_sorted {t : List (String × state.ModulePtr)} (key : String)
    (obj : state.ModulePtr) (hs : t.Pairwise (fun a b => a.1 < b.1)) :
    (indexInsert t key obj).Pairwise (fun a b => a.1 < b.1) := by
  induction t with
  | nil => simp [indexInsert]
  | cons x rest ih =>
    obtain ⟨k, o⟩ := x
    have hs0 := hs
    rw [List.pairwise_cons] at hs
    by_cases h1 : key < k
    · simp only [indexInsert, h1, if_true]
      refine List.pairwise_cons.2 ⟨fun e he => ?_, hs0⟩
      rcases List.mem_cons.1 he with h | h
      · rw [h]; exact h1
      · exact lt_trans h1 (hs.1 _ h)
    · by_cases h2 : key = k
      · subst h2
        simp only [indexInsert, h1, if_true, if_false]
        exact List.pairwise_cons.2 ⟨hs.1, hs.2⟩
      · simp only [indexInsert, h1, h2, if_false]
        refine List.pairwise_cons.2 ⟨fun e he => ?_, ih hs.2⟩
        rcases mem_Insert_sub he with h | h
        · rw [h]
          exact lt_of_le_of_ne (not_lt.1 h1) (Ne.symm h2)
        · exact hs.1 _ h

theorem Insert_same {t : List (String × state.ModulePtr)} {key : String}
    {obj : state.ModulePtr} (hs : t.Pairwise (fun a b => a.1 < b.1)) (h : (key, obj) ∈ t) :
    indexInsert t key obj = t := by
  induction t with
  | nil => simp at h
  | cons x rest ih =>
    obtain ⟨k, o⟩ := x
    rw [List.pairwise_cons] at hs
    rcases List.mem_cons.1 h with h1 | h1
    · cases h1
      simp [indexInsert]
    · have hlt : k < key := hs.1 _ h1
      simp [indexInsert, not_lt_of_gt hlt, ne_of_gt hlt, ih hs.2 h1]

theorem indexKey_extends_iff (q p : String) :
    indexKey q <+: indexKey p ↔ p = q ∨ q.data ++ [Char.ofNat 0] <+: p.data := by
  unfold indexKey
  rw [List.prefix_concat_iff]
  constructor
  · rintro (h | h)
    · left
      have hd : q.data = p.data := List.append_inj_left' h rfl
      exact (String.ext hd).symm
    · exact Or.inr h
  · rintro (h | h)
    · subst h
      exact Or.inl rfl
    · exact Or.inr h

theorem mem_DeleteAll (t : List (String × state.ModulePtr)) (key : String)
    (e : String × state.ModulePtr) :
    e ∈ DeleteAll t key ↔ e ∈ t ∧ ¬ indexKey key <+: indexKey e.1 := by
  simp only [DeleteAll, List.mem_filter, Bool.not_eq_true', ← Bool.not_eq_true,
    List.isPrefixOf_iff_prefix]

theorem DeleteAll_sorted {t : List (String × state.ModulePtr)} (key : String)
    (hs : t.Pairwise (fun a b => a.1 < b.1)) :
    (DeleteAll t key).Pairwise (fun a b => a.1 < b.1) :=
  List.Pairwise.filter _ hs

theorem DeleteAll_twice (t : List (String × state.ModulePtr)) (key : String) :
    DeleteAll (DeleteAll t key) key = DeleteAll t key := by
  simp [DeleteAll, List.filter_filter]

theorem First_DeleteAll_self (t : List (String × state.ModulePtr)) (key : String) :
    First (DeleteAll t key) key = none := by
  rw [First_eq_none_iff]
  intro obj h
  exact ((mem_DeleteAll t key _).1 h).2 (List.prefix_refl _)

theorem First_DeleteAll_ne (t : List (String × state.ModulePtr)) {key q : String}
    (hq : ¬ indexKey key <+: indexKey q) : First (DeleteAll t key) q = First t q := by
  induction t with
  | nil => rfl
  | cons x rest ih =>
    obtain ⟨k, o⟩ := x
    have hb : (indexKey key).isPrefixOf (indexKey k) = true ↔ indexKey key <+: indexKey k :=
      List.isPrefixOf_iff_prefix
    by_cases hk : indexKey key <+: indexKey k
    · have hd : DeleteAll ((k, o) :: rest) key = DeleteAll rest key := by
        simp [DeleteAll, hb.2 hk]
      have hne : k ≠ q := by
        intro h
        rw [h] at hk
        exact hq hk
      rw [hd, ih]
      simp [First, hne]
    · have hd : DeleteAll ((k, o) :: rest) key = (k, o) :: DeleteAll rest key := by
        have hfalse : (indexKey key).isPrefixOf (indexKey k) = false := by
          rw [← Bool.not_eq_true, hb]
          exact hk
        simp [DeleteAll, hfalse]
      rw [hd]
      simp only [First, ih]

end memdb

/-! ## Reads and writes of the store -/

namespace state

theorem getD_append_length (l : List Module) (m d : Module) :
    (l ++ [m]).getD l.length d = m := by
  simp [List.getD_eq_getElem?_getD]

theorem set_append_length (l : List Module) (m m' : Module) :
    (l ++ [m]).set l.length m' = l ++ [m'] := by
  simp [List.set_append]

theorem load_append_self (s : ModuleStore) (m : Module) (t : List (String × ModulePtr)) :
    ModuleStore.load { objects := s.objects ++ [m], table := t } s.objects.length = m :=
  getD_append_length _ _ _

theorem load_append_lt (s : ModuleStore) (m : Module) (t : List (String × ModulePtr))
    {i : Nat} (h : i < s.objects.length) :
    ModuleStore.load { objects := s.objects ++ [m], table := t } i = s.load i := by
  simp [ModuleStore.load, List.getD_eq_getElem?_getD, List.getElem?_append_left h]

theorem load_set_self (s : ModuleStore) (m : Module) (t : List (String × ModulePtr))
    {i : Nat} (h : i < s.objects.length) :
    ModuleStore.load { objects := s.objects.set i m, table := t } i = m := by
  simp [ModuleStore.load, List.getD_eq_getElem?_getD, h]

theorem load_set_ne (s : ModuleStore) (m : Module) (t : List (String × ModulePtr))
    {i j : Nat} (h : i ≠ j) :
    ModuleStore.load { objects := s.objects.set i m, table := t } j = s.load j := by
  simp [ModuleStore.load, List.getD_eq_getElem?_getD, List.getElem?_set_ne h]

theorem insert_eq (s : ModuleStore) (mod : ModulePtr) :
    s.insert mod =
      if (s.load mod).Path = "" then
        Except.error (StoreError.memdbError "object missing primary index")
      else Except.ok { s with table := memdb.indexInsert s.table (s.load mod).Path mod } := by
  unfold ModuleStore.insert memdb.Insert
  split_ifs <;> rfl

theorem writeCopy_eq {s : ModuleStore} {path : String} {mod : ModulePtr} (f : Module → Module)
    (h : memdb.First s.table path = some mod) (hp : (f (s.load mod)).Path ≠ "") :
    s.writeCopy path f =
      (none, { objects := s.objects ++ [f (s.load mod)]
               table := memdb.indexInsert s.table (f (s.load mod)).Path s.objects.length }) := by
  simp only [ModuleStore.load, List.getD_eq_getElem?_getD] at hp
  simp [ModuleStore.writeCopy, moduleCopyByPath, moduleByPath, h, ModuleStore.new,
    ModuleStore.assign, insert_eq, ModuleStore.load, moduleCopy_eq,
    getD_append_length, set_append_length, hp]

theorem writeCopy_fails {s : ModuleStore} {path : String} {mod : ModulePtr} (f : Module → Module)
    (h : memdb.First s.table path = some mod) (hp : (f (s.load mod)).Path = "") :
    s.writeCopy path f =
      (some (StoreError.memdbError "object missing primary index"),
        { objects := s.objects ++ [f (s.load mod)], table := s.table }) := by
  simp only [ModuleStore.load, List.getD_eq_getElem?_getD] at hp
  simp [ModuleStore.writeCopy, moduleCopyByPath, moduleByPath, h, ModuleStore.new,
    ModuleStore.assign, insert_eq, ModuleStore.load, moduleCopy_eq,
    getD_append_length, set_append_length, hp]

theorem writeInPlace_eq {s : ModuleStore} {path : String} {mod : ModulePtr}
    (f : Module → Module) (h : memdb.First s.table path = some mod)
    (hp : ((s.objects.set mod (f (s.load mod))).getD mod default).Path ≠ "") :
    s.writeInPlace path f =
      (none, { objects := s.objects.set mod (f (s.load mod))
               table := memdb.indexInsert s.table
                 ((s.objects.set mod (f (s.load mod))).getD mod default).Path mod }) := by
  simp only [ModuleStore.load, List.getD_eq_getElem?_getD] at hp
  simp [ModuleStore.writeInPlace, moduleByPath, h, ModuleStore.assign, insert_eq,
    ModuleStore.load, hp]

theorem writeCopy_absent {s : ModuleStore} {path : String} (f : Module → Module)
    (h : memdb.First s.table path = none) :
    s.writeCopy path f = (some (StoreError.ModuleNotFoundError path), s) := by
  simp [ModuleStore.writeCopy, moduleCopyByPath, moduleByPath, h]

theorem writeInPlace_absent {s : ModuleStore} {path : String} (f : Module → Module)
    (h : memdb.First s.table path = none) :
    s.writeInPlace path f = (some (StoreError.ModuleNotFoundError path), s) := by
  simp [ModuleStore.writeInPlace, moduleByPath, h]

end state

namespace state

theorem writeCopy_replaced {s : ModuleStore} {path : String} {mod : ModulePtr}
    (f : Module → Module) (hf : ∀ m, (f m).Path = m.Path) (hwf : s.WF)
    (hmem : (path, mod) ∈ s.table) :
    (s.writeCopy path f).1 = none ∧ (s.writeCopy path f).2.WF ∧
      s.Replaced (s.writeCopy path f).2 path (f (s.load mod)) := by
  have hfirst := memdb.First_of_mem hwf.1 hmem
  have hpath : (f (s.load mod)).Path = path := by rw [hf]; exact (hwf.2.1 _ hmem).2
  have hne : path ≠ "" := hwf.2.2 _ hmem
  rw [writeCopy_eq f hfirst (by rw [hpath]; exact hne), hpath]
  refine ⟨rfl, ⟨memdb.Insert_sorted _ _ hwf.1, ?_, ?wfne⟩, ⟨s.objects.length, ?_, ?_⟩, ?_, ?_,
    ?_⟩
  case wfne =>
    intro e he
    rcases (memdb.mem_Insert_iff path s.objects.length e hwf.1).1 he with h | ⟨h, _⟩
    · subst h
      exact hne
    · exact hwf.2.2 e h
  · intro e he
    rcases (memdb.mem_Insert_iff path s.objects.length e hwf.1).1 he with h | ⟨h, _⟩
    · subst h
      refine ⟨by simp, ?_⟩
      show (ModuleStore.load _ s.objects.length).Path = path
      rw [load_append_self, hpath]
    · have := hwf.2.1 e h
      refine ⟨?_, ?_⟩
      · show e.2 < (s.objects ++ [f (s.load mod)]).length
        rw [List.length_append]
        exact Nat.lt_add_right _ this.1
      · show (ModuleStore.load _ e.2).Path = e.1
        rw [load_append_lt _ _ _ this.1]
        exact this.2
  · exact memdb.First_Insert_self _ _ _
  · exact load_append_self _ _ _
  · intro q hq
    exact memdb.First_Insert_ne _ _ hq
  · intro q ptr _ hm
    exact load_append_lt _ _ _ (hwf.2.1 _ hm).1
  · intro q
    constructor
    · rintro ⟨ptr, hp⟩
      rcases (memdb.mem_Insert_iff path s.objects.length _ hwf.1).1 hp with h | ⟨h, _⟩
      · cases h
        exact ⟨mod, hmem⟩
      · exact ⟨ptr, h⟩
    · rintro ⟨ptr, hp⟩
      by_cases hq : q = path
      · subst hq
        exact ⟨s.objects.length, (memdb.mem_Insert_iff _ _ _ hwf.1).2 (Or.inl rfl)⟩
      · exact ⟨ptr, (memdb.mem_Insert_iff _ _ _ hwf.1).2 (Or.inr ⟨hp, hq⟩)⟩

theorem writeInPlace_replaced {s : ModuleStore} {path : String} {mod : ModulePtr}
    (f : Module → Module) (hf : ∀ m, (f m).Path = m.Path) (hwf : s.WF)
    (hmem : (path, mod) ∈ s.table) :
    (s.writeInPlace path f).1 = none ∧ (s.writeInPlace path f).2.WF ∧
      s.Replaced (s.writeInPlace path f).2 path (f (s.load mod)) := by
  have hfirst := memdb.First_of_mem hwf.1 hmem
  have hlt : mod < s.objects.length := (hwf.2.1 _ hmem).1
  have hpath : (f (s.load mod)).Path = path := by rw [hf]; exact (hwf.2.1 _ hmem).2
  have hother : ∀ e ∈ s.table, e.1 ≠ path → e.2 ≠ mod := by
    intro e he hne heq
    have h1 := (hwf.2.1 e he).2
    rw [heq, (hwf.2.1 _ hmem).2] at h1
    exact hne h1.symm
  have hget : ((s.objects.set mod (f (s.load mod))).getD mod default) = f (s.load mod) :=
    load_set_self s _ s.table hlt
  rw [writeInPlace_eq f hfirst (by rw [hget, hpath]; exact hwf.2.2 _ hmem), hget, hpath,
    memdb.Insert_same hwf.1 hmem]
  refine ⟨rfl, ⟨hwf.1, ?_, hwf.2.2⟩, ⟨mod, hfirst, ?_⟩, ?_, ?_, ?_⟩
  · intro e he
    have := hwf.2.1 e he
    refine ⟨?_, ?_⟩
    · show e.2 < (s.objects.set mod (f (s.load mod))).length
      rw [List.length_set]
      exact this.1
    · show (ModuleStore.load _ e.2).Path = e.1
      by_cases heq : e.2 = mod
      · have h1 : e.1 = path := by
          by_contra hne
          exact hother e he hne heq
        rw [heq, load_set_self _ _ _ hlt, hpath, h1]
      · rw [load_set_ne _ _ _ (Ne.symm heq)]
        exact this.2
  · exact load_set_self _ _ _ hlt
  · intro q _
    rfl
  · intro q ptr hq hm
    exact load_set_ne _ _ _ (Ne.symm (hother _ hm hq))
  · intro q
    exact Iff.rfl

theorem replaced_trans {s t u : ModuleStore} {path : String} {m m' : Module} (hwf : s.WF)
    (h1 : s.Replaced t path m) (h2 : t.Replaced u path m') : s.Replaced u path m' := by
  obtain ⟨_, a2, a3, a4⟩ := h1
  obtain ⟨b1, b2, b3, b4⟩ := h2
  refine ⟨b1, fun q hq => (b2 q hq).trans (a2 q hq), fun q ptr hq hm => ?_,
    fun q => (b4 q).trans (a4 q)⟩
  have hf : memdb.First t.table q = some ptr := by
    rw [a2 q hq]
    exact memdb.First_of_mem hwf.1 hm
  rw [b3 q ptr hq (memdb.First_mem hf), a3 q ptr hq hm]

theorem deferred_replaced {s : ModuleStore} {path : String} {mod : ModulePtr}
    {w1 w2 : ModuleStore → Option StoreError × ModuleStore} {f1 f2 : Module → Module}
    (hwf : s.WF) (hmem : (path, mod) ∈ s.table)
    (h1 : ∀ (s : ModuleStore) (mod : ModulePtr), s.WF → (path, mod) ∈ s.table →
      (w1 s).1 = none ∧ (w1 s).2.WF ∧ s.Replaced (w1 s).2 path (f1 (s.load mod)))
    (h2 : ∀ (s : ModuleStore) (mod : ModulePtr), s.WF → (path, mod) ∈ s.table →
      (w2 s).1 = none ∧ (w2 s).2.WF ∧ s.Replaced (w2 s).2 path (f2 (s.load mod))) :
    (ModuleStore.deferred (w1 s) w2).1 = none ∧ (ModuleStore.deferred (w1 s) w2).2.WF ∧
      s.Replaced (ModuleStore.deferred (w1 s) w2).2 path (f2 (f1 (s.load mod))) := by
  obtain ⟨e1, wf1, r1⟩ := h1 s mod hwf hmem
  obtain ⟨ptr, hp, hl⟩ := r1.1
  obtain ⟨_, wf2, r2⟩ := h2 (w1 s).2 ptr wf1 (memdb.First_mem hp)
  have hd : ModuleStore.deferred (w1 s) w2 = (none, (w2 (w1 s).2).2) := by
    simp [ModuleStore.deferred, e1]
  rw [hd]
  rw [hl] at r2
  exact ⟨rfl, wf2, replaced_trans hwf r1 r2⟩

end state

/-! ## The write operations -/

namespace state

theorem SetModManifestState_eq (s : ModuleStore) (path : String) (st : op.OpState) :
    s.SetModManifestState path st = s.writeCopy path (fun m => { m with ModManifestState := st }) := rfl

theorem SetTerraformVersionState_eq (s : ModuleStore) (path : String) (st : op.OpState) :
    s.SetTerraformVersionState path st = s.writeCopy path (fun m => { m with TerraformVersionState := st }) := rfl

theorem SetProviderSchemaState_eq (s : ModuleStore) (path : String) (st : op.OpState) :
    s.SetProviderSchemaState path st = s.writeCopy path (fun m => { m with ProviderSchemaState := st }) := rfl

theorem SetModuleParsingState_eq (s : ModuleStore) (path : String) (st : op.OpState) :
    s.SetModuleParsingState path st = s.writeCopy path (fun m => { m with ModuleParsingState := st }) := rfl

theorem SetVarsParsingState_eq (s : ModuleStore) (path : String) (st : op.OpState) :
    s.SetVarsParsingState path st = s.writeCopy path (fun m => { m with VarsParsingState := st }) := rfl

theorem SetMetaState_eq (s : ModuleStore) (path : String) (st : op.OpState) :
    s.SetMetaState path st = s.writeCopy path (fun m => { m with MetaState := st }) := rfl

theorem SetReferenceTargetsState_eq (s : ModuleStore) (path : String) (st : op.OpState) :
    s.SetReferenceTargetsState path st = s.writeInPlace path (fun m => { m with RefTargetsState := st }) := rfl

theorem SetReferenceOriginsState_eq (s : ModuleStore) (path : String) (st : op.OpState) :
    s.SetReferenceOriginsState path st = s.writeInPlace path (fun m => { m with RefOriginsState := st }) := rfl

theorem UpdateModManifest_eq (s : ModuleStore) (path : String) (manifest : Option datadir.ModuleManifest) (mErr : GoError) :
    s.UpdateModManifest path manifest mErr =
      ModuleStore.deferred (s.writeCopy path (fun m => { m with ModManifest := manifest, ModManifestErr := mErr }))
        (fun s => s.SetModManifestState path op.OpState.OpStateLoaded) := rfl

theorem FinishProviderSchemaLoading_eq (s : ModuleStore) (path : String) (psErr : GoError) :
    s.FinishProviderSchemaLoading path psErr =
      ModuleStore.deferred (s.writeCopy path (fun m => { m with ProviderSchemaErr := psErr }))
        (fun s => s.SetProviderSchemaState path op.OpState.OpStateLoaded) := rfl

theorem UpdateParsedModuleFiles_eq (s : ModuleStore) (path : String) (pFiles : Option ast.ModFiles) (pErr : GoError) :
    s.UpdateParsedModuleFiles path pFiles pErr =
      ModuleStore.deferred (s.writeCopy path (fun m => { m with ParsedModuleFiles := pFiles, ModuleParsingErr := pErr }))
        (fun s => s.SetModuleParsingState path op.OpState.OpStateLoaded) := rfl

theorem UpdateParsedVarsFiles_eq (s : ModuleStore) (path : String) (vFiles : Option ast.VarsFiles) (vErr : GoError) :
    s.UpdateParsedVarsFiles path vFiles vErr =
      ModuleStore.deferred (s.writeCopy path (fun m => { m with ParsedVarsFiles := vFiles, VarsParsingErr := vErr }))
        (fun s => s.SetVarsParsingState path op.OpState.OpStateLoaded) := rfl

theorem UpdateReferenceTargets_eq (s : ModuleStore) (path : String) (refs : lang.ReferenceTargets) (rErr : GoError) :
    s.UpdateReferenceTargets path refs rErr =
      ModuleStore.deferred (s.writeInPlace path (fun m => { m with RefTargets := refs, RefTargetsErr := rErr }))
        (fun s => s.SetReferenceTargetsState path op.OpState.OpStateLoaded) := rfl

theorem UpdateReferenceOrigins_eq (s : ModuleStore) (path : String) (origins : lang.ReferenceOrigins) (roErr : GoError) :
    s.UpdateReferenceOrigins path origins roErr =
      ModuleStore.deferred (s.writeInPlace path (fun m => { m with RefOrigins := origins, RefOriginsErr := roErr }))
        (fun s => s.SetReferenceOriginsState path op.OpState.OpStateLoaded) := rfl

theorem UpdateMetadata_eq (s : ModuleStore) (path : String) (meta : tfmod.Meta)
    (mErr : GoError) :
    s.UpdateMetadata path (some meta) mErr =
      ModuleStore.deferred
        (s.writeCopy path (fun m =>
          { m with
            Meta := { CoreRequirements := meta.CoreRequirements
                      ProviderReferences := meta.ProviderReferences
                      ProviderRequirements := meta.ProviderRequirements
                      Variables := meta.Variables
                      Outputs := meta.Outputs }
            MetaErr := mErr }))
        (fun s => s.SetMetaState path op.OpState.OpStateLoaded) := by
  unfold ModuleStore.UpdateMetadata ModuleStore.writeCopy
  cases moduleCopyByPath s path <;> rfl

theorem UpdateModuleDiagnostics_eq (s : ModuleStore) (path : String)
    (diags : Option ast.ModDiags) :
    s.UpdateModuleDiagnostics path diags =
      s.writeCopy path (fun m => { m with ModuleDiagnostics := diags }) := rfl

theorem UpdateVarsDiagnostics_eq (s : ModuleStore) (path : String)
    (diags : Option ast.VarsDiags) :
    s.UpdateVarsDiagnostics path diags =
      s.writeCopy path (fun m => { m with VarsDiagnostics := diags }) := rfl

theorem UpdateTerraformVersion_eq (s : ModuleStore) (modPath : String)
    (tfVer : Option version.Version)
    (pv : Option (GoMap tfaddr.Provider (Option version.Version))) (vErr : GoError) :
    s.UpdateTerraformVersion modPath tfVer pv vErr =
      ModuleStore.deferred
        (s.writeCopy modPath
          (fun mod => { mod with TerraformVersion := tfVer, TerraformVersionErr := vErr }))
        (fun s => s.SetTerraformVersionState modPath op.OpState.OpStateLoaded) := by
  unfold ModuleStore.UpdateTerraformVersion ModuleStore.writeCopy
  cases moduleCopyByPath s modPath with
  | error err => rfl
  | ok r =>
    obtain ⟨mod, txn⟩ := r
    simp only [ModuleStore.updateProviderVersions]

theorem deferred_copy {s : ModuleStore} {path : String} {mod : ModulePtr}
    (f1 f2 : Module → Module) (hf1 : ∀ m, (f1 m).Path = m.Path)
    (hf2 : ∀ m, (f2 m).Path = m.Path) (hwf : s.WF) (hmem : (path, mod) ∈ s.table) :
    (ModuleStore.deferred (s.writeCopy path f1) (fun s => s.writeCopy path f2)).1 = none ∧
      (ModuleStore.deferred (s.writeCopy path f1) (fun s => s.writeCopy path f2)).2.WF ∧
      s.Replaced (ModuleStore.deferred (s.writeCopy path f1) (fun s => s.writeCopy path f2)).2
        path (f2 (f1 (s.load mod))) :=
  deferred_replaced hwf hmem
    (fun _ _ h1 h2 => writeCopy_replaced f1 hf1 h1 h2)
    (fun _ _ h1 h2 => writeCopy_replaced f2 hf2 h1 h2)

theorem deferred_inPlace {s : ModuleStore} {path : String} {mod : ModulePtr}
    (f1 f2 : Module → Module) (hf1 : ∀ m, (f1 m).Path = m.Path)
    (hf2 : ∀ m, (f2 m).Path = m.Path) (hwf : s.WF) (hmem : (path, mod) ∈ s.table) :
    (ModuleStore.deferred (s.writeInPlace path f1) (fun s => s.writeInPlace path f2)).1 = none ∧
      (ModuleStore.deferred (s.writeInPlace path f1)
        (fun s => s.writeInPlace path f2)).2.WF ∧
      s.Replaced
        (ModuleStore.deferred (s.writeInPlace path f1) (fun s => s.writeInPlace path f2)).2
        path (f2 (f1 (s.load mod))) :=
  deferred_replaced hwf hmem
    (fun _ _ h1 h2 => writeInPlace_replaced f1 hf1 h1 h2)
    (fun _ _ h1 h2 => writeInPlace_replaced f2 hf2 h1 h2)

theorem artifactUpdate_replaced (u : ArtifactUpdate) {s : ModuleStore} {path : String}
    {mod : ModulePtr} (hwf : s.WF) (hmem : (path, mod) ∈ s.table) :
    (u.run s path).1 = none ∧ (u.run s path).2.WF ∧
      s.Replaced (u.run s path).2 path (u.onlyChange (s.load mod)) := by
  cases u with
  | ModManifest manifest mErr =>
    exact deferred_copy (fun m => { m with ModManifest := manifest, ModManifestErr := mErr })
      (fun m => { m with ModManifestState := op.OpState.OpStateLoaded }) (fun _ => rfl) (fun _ => rfl)
      hwf hmem
  | TerraformVersion tfVer pv vErr =>
    simp only [ArtifactUpdate.run, UpdateTerraformVersion_eq]
    exact deferred_copy
      (fun m => { m with TerraformVersion := tfVer, TerraformVersionErr := vErr })
      (fun m => { m with TerraformVersionState := op.OpState.OpStateLoaded }) (fun _ => rfl)
      (fun _ => rfl) hwf hmem
  | ProviderSchema psErr =>
    exact deferred_copy (fun m => { m with ProviderSchemaErr := psErr })
      (fun m => { m with ProviderSchemaState := op.OpState.OpStateLoaded }) (fun _ => rfl) (fun _ => rfl)
      hwf hmem
  | ParsedModuleFiles pFiles pErr =>
    exact deferred_copy (fun m => { m with ParsedModuleFiles := pFiles, ModuleParsingErr := pErr })
      (fun m => { m with ModuleParsingState := op.OpState.OpStateLoaded }) (fun _ => rfl) (fun _ => rfl)
      hwf hmem
  | ParsedVarsFiles vFiles vErr =>
    exact deferred_copy (fun m => { m with ParsedVarsFiles := vFiles, VarsParsingErr := vErr })
      (fun m => { m with VarsParsingState := op.OpState.OpStateLoaded }) (fun _ => rfl) (fun _ => rfl)
      hwf hmem
  | Metadata meta mErr =>
    exact deferred_copy
      (fun m => { m with
        Meta := { CoreRequirements := meta.CoreRequirements
                  ProviderReferences := meta.ProviderReferences
                  ProviderRequirements := meta.ProviderRequirements
                  Variables := meta.Variables
                  Outputs := meta.Outputs }
        MetaErr := mErr })
      (fun m => { m with MetaState := op.OpState.OpStateLoaded }) (fun _ => rfl)
      (fun _ => rfl) hwf hmem
  | ReferenceTargets refs rErr =>
    exact deferred_inPlace (fun m => { m with RefTargets := refs, RefTargetsErr := rErr })
      (fun m => { m with RefTargetsState := op.OpState.OpStateLoaded }) (fun _ => rfl) (fun _ => rfl)
      hwf hmem
  | ReferenceOrigins origins roErr =>
    exact deferred_inPlace (fun m => { m with RefOrigins := origins, RefOriginsErr := roErr })
      (fun m => { m with RefOriginsState := op.OpState.OpStateLoaded }) (fun _ => rfl) (fun _ => rfl)
      hwf hmem

theorem diagnosticsUpdate_replaced (u : DiagnosticsUpdate) {s : ModuleStore}
    {path : String} {mod : ModulePtr} (hwf : s.WF) (hmem : (path, mod) ∈ s.table) :
    (u.run s path).1 = none ∧ (u.run s path).2.WF ∧
      s.Replaced (u.run s path).2 path (u.onlyChange (s.load mod)) := by
  cases u with
  | module diags => exact writeCopy_replaced _ (fun _ => rfl) hwf hmem
  | vars diags => exact writeCopy_replaced _ (fun _ => rfl) hwf hmem

theorem SetState_replaced (a : Artifact) (st : op.OpState) {s : ModuleStore} {path : String}
    {mod : ModulePtr} (hwf : s.WF) (hmem : (path, mod) ∈ s.table) :
    (s.SetState a path st).1 = none ∧ (s.SetState a path st).2.WF ∧
      ∃ m, s.Replaced (s.SetState a path st).2 path m := by
  cases a
  case referenceTargets =>
    have h := writeInPlace_replaced (fun m => { m with RefTargetsState := st })
      (fun _ => rfl) hwf hmem
    exact ⟨h.1, h.2.1, _, h.2.2⟩
  case referenceOrigins =>
    have h := writeInPlace_replaced (fun m => { m with RefOriginsState := st })
      (fun _ => rfl) hwf hmem
    exact ⟨h.1, h.2.1, _, h.2.2⟩
  case manifest =>
    have h := writeCopy_replaced (fun m => { m with ModManifestState := st })
      (fun _ => rfl) hwf hmem
    exact ⟨h.1, h.2.1, _, h.2.2⟩
  case toolVersion =>
    have h := writeCopy_replaced (fun m => { m with TerraformVersionState := st })
      (fun _ => rfl) hwf hmem
    exact ⟨h.1, h.2.1, _, h.2.2⟩
  case providerSchema =>
    have h := writeCopy_replaced (fun m => { m with ProviderSchemaState := st })
      (fun _ => rfl) hwf hmem
    exact ⟨h.1, h.2.1, _, h.2.2⟩
  case moduleParsing =>
    have h := writeCopy_replaced (fun m => { m with ModuleParsingState := st })
      (fun _ => rfl) hwf hmem
    exact ⟨h.1, h.2.1, _, h.2.2⟩
  case varsParsing =>
    have h := writeCopy_replaced (fun m => { m with VarsParsingState := st })
      (fun _ => rfl) hwf hmem
    exact ⟨h.1, h.2.1, _, h.2.2⟩
  case meta =>
    have h := writeCopy_replaced (fun m => { m with MetaState := st })
      (fun _ => rfl) hwf hmem
    exact ⟨h.1, h.2.1, _, h.2.2⟩

theorem write_present (w : Write) {s : ModuleStore} {path : String} {mod : ModulePtr}
    (hwf : s.WF) (hmem : (path, mod) ∈ s.table) :
    (w.run s path).1 = none ∧ (w.run s path).2.WF ∧
      ∃ m, s.Replaced (w.run s path).2 path m := by
  cases w with
  | update u =>
    have h := artifactUpdate_replaced u hwf hmem
    exact ⟨h.1, h.2.1, _, h.2.2⟩
  | diagnostics u =>
    have h := diagnosticsUpdate_replaced u hwf hmem
    exact ⟨h.1, h.2.1, _, h.2.2⟩
  | setState a st => exact SetState_replaced a st hwf hmem

theorem deferred_absent {s : ModuleStore} {e : StoreError}
    (fn : ModuleStore → Option StoreError × ModuleStore) :
    ModuleStore.deferred (some e, s) fn = (some e, s) := rfl

theorem write_absent (w : Write) {s : ModuleStore} {path : String}
    (h : memdb.First s.table path = none) :
    w.run s path = (some (StoreError.ModuleNotFoundError path), s) := by
  cases w with
  | update u =>
    cases u <;>
      simp only [Write.run, ArtifactUpdate.run, UpdateModManifest_eq,
        UpdateTerraformVersion_eq, FinishProviderSchemaLoading_eq, UpdateParsedModuleFiles_eq,
        UpdateParsedVarsFiles_eq, UpdateMetadata_eq, UpdateReferenceTargets_eq,
        UpdateReferenceOrigins_eq, writeCopy_absent _ h, writeInPlace_absent _ h,
        deferred_absent]
  | diagnostics u =>
    cases u <;>
      simp only [Write.run, DiagnosticsUpdate.run, UpdateModuleDiagnostics_eq,
        UpdateVarsDiagnostics_eq, writeCopy_absent _ h]
  | setState a st =>
    cases a <;>
      simp only [Write.run, ModuleStore.SetState, SetModManifestState_eq,
        SetTerraformVersionState_eq, SetProviderSchemaState_eq, SetModuleParsingState_eq,
        SetVarsParsingState_eq, SetMetaState_eq, SetReferenceTargetsState_eq,
        SetReferenceOriginsState_eq, writeCopy_absent _ h, writeInPlace_absent _ h]

end state

/-! ## Add, Remove and ModuleByPath -/

namespace state

theorem Has_iff_First (s : ModuleStore) (p : String) :
    s.Has p ↔ ∃ mod, memdb.First s.table p = some mod := by
  constructor
  · intro h
    cases hf : memdb.First s.table p with
    | none =>
      obtain ⟨mod, hm⟩ := h
      exact absurd hm ((memdb.First_eq_none_iff _ _).1 hf mod)
    | some mod => exact ⟨mod, rfl⟩
  · rintro ⟨mod, h⟩
    exact ⟨mod, memdb.First_mem h⟩

theorem not_Has_iff_First (s : ModuleStore) (p : String) :
    ¬ s.Has p ↔ memdb.First s.table p = none := by
  rw [memdb.First_eq_none_iff]
  simp [ModuleStore.Has]

theorem ModuleByPath_ok_iff (s : ModuleStore) (p : String) (mod : ModulePtr) :
    s.ModuleByPath p = Except.ok mod ↔ memdb.First s.table p = some mod := by
  unfold ModuleStore.ModuleByPath moduleByPath
  cases memdb.First s.table p <;> simp

theorem ModuleByPath_error_iff (s : ModuleStore) (p : String) (e : StoreError) :
    s.ModuleByPath p = Except.error e ↔
      memdb.First s.table p = none ∧ e = StoreError.ModuleNotFoundError p := by
  unfold ModuleStore.ModuleByPath moduleByPath
  cases memdb.First s.table p <;> simp [eq_comm]

theorem Add_present {s : ModuleStore} {p : String} {mod : ModulePtr}
    (h : memdb.First s.table p = some mod) :
    s.Add p = (some (StoreError.AlreadyExistsError p), s) := by
  simp [ModuleStore.Add, h]

theorem Add_absent {s : ModuleStore} {p : String} (h : memdb.First s.table p = none)
    (hp : p ≠ "") :
    s.Add p =
      (none, { objects := s.objects ++ [newModule p]
               table := memdb.indexInsert s.table p s.objects.length }) := by
  simp [ModuleStore.Add, h, ModuleStore.new, insert_eq, ModuleStore.load,
    getD_append_length, newModule, hp]

theorem Add_no_key {s : ModuleStore} (h : memdb.First s.table "" = none) :
    s.Add "" =
      (some (StoreError.memdbError "object missing primary index"),
        { objects := s.objects ++ [newModule ""], table := s.table }) := by
  simp [ModuleStore.Add, h, ModuleStore.new, insert_eq, ModuleStore.load,
    getD_append_length, newModule]

theorem oneModuleStore_eq :
    oneModuleStore = { objects := [newModule "/a"], table := [("/a", 0)] } := by
  decide

theorem oneModuleStore_WF : oneModuleStore.WF := by
  rw [oneModuleStore_eq]
  refine ⟨by simp, ?_, ?_⟩
  · intro e he
    simp only [List.mem_singleton] at he
    subst he
    exact ⟨by decide, rfl⟩
  · intro e he
    simp only [List.mem_singleton] at he
    subst he
    decide

theorem oneModuleStore_Has : oneModuleStore.Has "/a" :=
  ⟨0, by rw [oneModuleStore_eq]; simp⟩

theorem empty_not_Has (p : String) : ¬ ModuleStore.Has {} p := by
  rintro ⟨mod, h⟩
  simp at h

theorem empty_WF : ModuleStore.WF {} :=
  ⟨List.Pairwise.nil, fun e he => by simp at he, fun e he => by simp at he⟩

/-- C1: when the store already holds a Module for the path, `Add` returns
`AlreadyExistsError` carrying that path and the store is left exactly as it
was; this is the situation right after any successful `Add` of the same path. -/
theorem Add_existing_fails (s : ModuleStore) (p : String) (h : s.Has p) :
    s.Add p = (some (StoreError.AlreadyExistsError p), s) ∧
      ∀ s0 : ModuleStore, (s0.Add p).1 = none →
        (s0.Add p).2.Has p ∧
          (s0.Add p).2.Add p = (some (StoreError.AlreadyExistsError p), (s0.Add p).2) := by
  have key : ∀ t : ModuleStore, t.Has p →
      t.Add p = (some (StoreError.AlreadyExistsError p), t) := by
    intro t ht
    obtain ⟨mod, hm⟩ := (Has_iff_First t p).1 ht
    exact Add_present hm
  refine ⟨key s h, fun s0 h0 => ?_⟩
  have hhas : (s0.Add p).2.Has p := by
    cases hf : memdb.First s0.table p with
    | some mod => rw [Add_present hf] at h0; cases h0
    | none =>
      by_cases hp : p = ""
      · subst hp
        rw [Add_no_key hf] at h0
        cases h0
      · rw [Add_absent hf hp, Has_iff_First]
        exact ⟨_, memdb.First_Insert_self _ _ _⟩
  exact ⟨hhas, key _ hhas⟩

/-- Witness of C1 on the store holding `/a`. -/
theorem Add_existing_fails_witness :
    oneModuleStore.Has "/a" ∧
      oneModuleStore.Add "/a" = (some (StoreError.AlreadyExistsError "/a"), oneModuleStore) :=
  ⟨oneModuleStore_Has, (Add_existing_fails oneModuleStore "/a" oneModuleStore_Has).1⟩

/-- C2 as stated fails for the empty path: the empty store holds no Module for
it, and `Add` returns the error of the database, `object missing primary
index`; the table stays empty, so the path reads as not found and `List`
returns nothing. -/
theorem Add_empty_path_fails :
    ¬ ModuleStore.Has {} "" ∧
      (ModuleStore.Add {} "").1 =
        some (StoreError.memdbError "object missing primary index") ∧
      (ModuleStore.Add {} "").2.table = [] ∧
      (ModuleStore.Add {} "").2.ModuleByPath "" =
        Except.error (StoreError.ModuleNotFoundError "") ∧
      (ModuleStore.Add {} "").2.List.1 = [] :=
  ⟨empty_not_Has "", rfl, rfl, rfl, rfl⟩

/-- C2 as amended: on a store without a Module for the path, `Add` of a path
that is not empty succeeds and `ModuleByPath` then returns a Module with that
path, all eight artifact states Unknown, no payload, no error and no
diagnostics. `Add` of the empty path returns the error of the database,
`object missing primary index`, and leaves the table and every Module
allocated before as they were. -/
theorem Add_fresh_module (s : ModuleStore) (p : String) (h : ¬ s.Has p) :
    (p ≠ "" →
      (s.Add p).1 = none ∧
        ∃ mod, (s.Add p).2.ModuleByPath p = Except.ok mod ∧
          (s.Add p).2.load mod =
            { Path := p
              ModManifest := none
              ModManifestErr := none
              ModManifestState := op.OpState.OpStateUnknown
              TerraformVersion := none
              TerraformVersionErr := none
              TerraformVersionState := op.OpState.OpStateUnknown
              ProviderSchemaErr := none
              ProviderSchemaState := op.OpState.OpStateUnknown
              RefTargets := []
              RefTargetsErr := none
              RefTargetsState := op.OpState.OpStateUnknown
              RefOrigins := []
              RefOriginsErr := none
              RefOriginsState := op.OpState.OpStateUnknown
              ParsedModuleFiles := none
              ParsedVarsFiles := none
              ModuleParsingErr := none
              VarsParsingErr := none
              ModuleParsingState := op.OpState.OpStateUnknown
              VarsParsingState := op.OpState.OpStateUnknown
              Meta := { CoreRequirements := []
                        ProviderReferences := none
                        ProviderRequirements := none
                        Variables := none
                        Outputs := none }
              MetaErr := none
              MetaState := op.OpState.OpStateUnknown
              ModuleDiagnostics := none
              VarsDiagnostics := none }) ∧
      (p = "" →
        (s.Add p).1 = some (StoreError.memdbError "object missing primary index") ∧
          (s.Add p).2.table = s.table ∧
          ¬ (s.Add p).2.Has p ∧
          ∀ mod, mod < s.objects.length → (s.Add p).2.load mod = s.load mod) := by
  have hf := (not_Has_iff_First s p).1 h
  refine ⟨fun hp => ?_, fun hp => ?_⟩
  · rw [Add_absent hf hp]
    refine ⟨rfl, s.objects.length, ?_, ?_⟩
    · rw [ModuleByPath_ok_iff]
      exact memdb.First_Insert_self _ _ _
    · rw [load_append_self]
      rfl
  · subst hp
    rw [Add_no_key hf]
    exact ⟨rfl, rfl, h, fun mod hlt => load_append_lt _ _ _ hlt⟩

/-- Witness of C2 as amended on the empty store, for the path `/a`. -/
theorem Add_fresh_module_witness :
    ¬ ModuleStore.Has {} "/a" ∧ "/a" ≠ "" ∧ (ModuleStore.Add {} "/a").1 = none :=
  ⟨empty_not_Has "/a", by decide,
    ((Add_fresh_module {} "/a" (empty_not_Has "/a")).1 (by decide)).1⟩

end state

namespace state

/-- C3: `ModuleByPath` fails exactly when the store holds no Module for the
path, and then with `ModuleNotFoundError` carrying the path; otherwise it
returns a pointer committed under the path, the only one when the store is
well formed. After `Remove` of the path it fails with `ModuleNotFoundError`. -/
theorem ModuleByPath_found_iff (s : ModuleStore) (p : String) :
    (s.ModuleByPath p = Except.error (StoreError.ModuleNotFoundError p) ↔ ¬ s.Has p) ∧
      (∀ e, s.ModuleByPath p = Except.error e → e = StoreError.ModuleNotFoundError p) ∧
      (s.Has p → ∃ mod, s.ModuleByPath p = Except.ok mod) ∧
      (∀ mod, s.ModuleByPath p = Except.ok mod → (p, mod) ∈ s.table) ∧
      (s.WF → ∀ mod other, s.ModuleByPath p = Except.ok mod → (p, other) ∈ s.table →
        other = mod) ∧
      (s.Remove p).1 = none ∧
      (s.Remove p).2.ModuleByPath p = Except.error (StoreError.ModuleNotFoundError p) := by
  refine ⟨?_, ?_, ?_, ?_, ?_, rfl, ?_⟩
  · rw [ModuleByPath_error_iff, not_Has_iff_First]
    simp
  · intro e he
    exact ((ModuleByPath_error_iff s p e).1 he).2
  · intro h
    obtain ⟨mod, hm⟩ := (Has_iff_First s p).1 h
    exact ⟨mod, (ModuleByPath_ok_iff s p mod).2 hm⟩
  · intro mod hm
    exact memdb.First_mem ((ModuleByPath_ok_iff s p mod).1 hm)
  · intro hwf mod other hm ho
    have h1 := (ModuleByPath_ok_iff s p mod).1 hm
    rw [memdb.First_of_mem hwf.1 ho] at h1
    exact Option.some.inj h1
  · rw [ModuleByPath_error_iff]
    exact ⟨memdb.First_DeleteAll_self _ _, rfl⟩

/-- Witness of C3 on the store holding `/a`: the lookup succeeds with the
pointer committed there, and fails once the path is removed. -/
theorem ModuleByPath_found_iff_witness :
    oneModuleStore.Has "/a" ∧ oneModuleStore.WF ∧
      (∃ mod, oneModuleStore.ModuleByPath "/a" = Except.ok mod) ∧
      (oneModuleStore.Remove "/a").2.ModuleByPath "/a" =
        Except.error (StoreError.ModuleNotFoundError "/a") :=
  ⟨oneModuleStore_Has, oneModuleStore_WF,
    (ModuleByPath_found_iff oneModuleStore "/a").2.2.1 oneModuleStore_Has,
    (ModuleByPath_found_iff oneModuleStore "/a").2.2.2.2.2.2⟩

/-- C4 as stated fails: on the store holding the path `/a`, a NUL character
and `b` only, `Remove` of the other path `/a` succeeds and deletes that Module,
since the index key of `/a` (the path and the NUL terminator) is a beginning of
its index key. -/
theorem Remove_deletes_longer_path :
    "/a\x00b" ≠ "/a" ∧
      nulPathStore.ModuleByPath "/a\x00b" = Except.ok 0 ∧
      (nulPathStore.Remove "/a").1 = none ∧
      (nulPathStore.Remove "/a").2.ModuleByPath "/a\x00b" =
        Except.error (StoreError.ModuleNotFoundError "/a\x00b") ∧
      (nulPathStore.Remove "/a").2.List.1 = [] :=
  ⟨by decide, rfl, rfl, rfl, rfl⟩

/-- C4 as amended: `Remove` succeeds on every store and path, removing again
changes nothing, the path is absent afterwards and no Module object is
changed. It deletes the Modules of the paths whose index key starts with the
index key of the path removed: the path itself and every path that starts with
it followed by a NUL character. Every other path reads as before. -/
theorem Remove_idempotent (s : ModuleStore) (p : String) :
    (s.Remove p).1 = none ∧
      (s.Remove p).2.Remove p = (none, (s.Remove p).2) ∧
      ¬ (s.Remove p).2.Has p ∧
      (∀ mod, (s.Remove p).2.load mod = s.load mod) ∧
      (∀ q, Deletes p q ↔ q = p ∨ p.data ++ [Char.ofNat 0] <+: q.data) ∧
      (∀ q, Deletes p q → ¬ (s.Remove p).2.Has q) ∧
      ∀ q, ¬ Deletes p q →
        (s.Remove p).2.ModuleByPath q = s.ModuleByPath q ∧
          ∀ mod, (q, mod) ∈ (s.Remove p).2.table ↔ (q, mod) ∈ s.table := by
  refine ⟨rfl, ?_, ?_, fun _ => rfl, fun q => memdb.indexKey_extends_iff p q, fun q hq => ?_,
    fun q hq => ⟨?_, fun mod => ?_⟩⟩
  · simp [ModuleStore.Remove, memdb.DeleteAll_twice]
  · rw [not_Has_iff_First]
    exact memdb.First_DeleteAll_self _ _
  · rintro ⟨mod, hm⟩
    exact ((memdb.mem_DeleteAll _ _ _).1 hm).2 hq
  · unfold ModuleStore.ModuleByPath moduleByPath
    simp only [ModuleStore.Remove, memdb.First_DeleteAll_ne _ hq]
  · simp only [ModuleStore.Remove, memdb.mem_DeleteAll]
    exact ⟨fun h => h.1, fun h => ⟨h, hq⟩⟩

/-- Witness of C4 as amended on the store holding `/a`, for the other path
`/b`, which `Remove` of `/a` does not delete. -/
theorem Remove_idempotent_witness :
    ¬ Deletes "/a" "/b" ∧
      (oneModuleStore.Remove "/a").2.ModuleByPath "/b" = oneModuleStore.ModuleByPath "/b" :=
  ⟨by decide, ((Remove_idempotent oneModuleStore "/a").2.2.2.2.2.2 "/b" (by decide)).1⟩

/-- C5 as stated fails for the nil payload of `UpdateMetadata`: on the store
holding `/a` the call with a nil `meta` does not return success, it panics on
the first read through `meta`; the Module of `/a` is the one stored before and
its metadata state is still Unknown. -/
theorem UpdateMetadata_nil_panics :
    oneModuleStore.Has "/a" ∧
      (oneModuleStore.UpdateMetadata "/a" none none).1 =
        some (StoreError.runtimePanic "invalid memory address or nil pointer dereference") ∧
      (oneModuleStore.UpdateMetadata "/a" none none).2.ModuleByPath "/a" = Except.ok 0 ∧
      (oneModuleStore.UpdateMetadata "/a" none none).2.load 0 = oneModuleStore.load 0 ∧
      ((oneModuleStore.UpdateMetadata "/a" none none).2.load 0).MetaState =
        op.OpState.OpStateUnknown := by
  refine ⟨oneModuleStore_Has, ?_⟩
  rw [oneModuleStore_eq]
  exact ⟨rfl, rfl, rfl, rfl⟩

/-- C5 as amended: on a well-formed store holding a Module for the path, each
of the eight artifact updates returns no error, whatever the error passed in
and whatever the payload, provided the `meta` of `UpdateMetadata` is not nil;
the Module then read for the path has the payload and the error passed in and
the state Loaded; the store stays well formed and keeps the path, so that a
later update overwrites in the same way. `UpdateMetadata` with a nil `meta`
panics once the Module is found: nothing is committed and every Module
allocated before is as it was. -/
theorem Update_stores_payload (u : ArtifactUpdate) (s : ModuleStore) (p : String)
    (hwf : s.WF) (h : s.Has p) :
    (u.run s p).1 = none ∧
      (∃ mod, (u.run s p).2.ModuleByPath p = Except.ok mod ∧
        u.StoredIn ((u.run s p).2.load mod)) ∧
      (u.run s p).2.WF ∧ (u.run s p).2.Has p ∧
      (∀ v : ArtifactUpdate,
        (v.run (u.run s p).2 p).1 = none ∧
          ∃ mod, (v.run (u.run s p).2 p).2.ModuleByPath p = Except.ok mod ∧
            v.StoredIn ((v.run (u.run s p).2 p).2.load mod)) ∧
      (∀ (meta : tfmod.Meta) (mErr : GoError),
        s.UpdateMetadata p (some meta) mErr = (ArtifactUpdate.Metadata meta mErr).run s p) ∧
      ∀ mErr : GoError,
        (s.UpdateMetadata p none mErr).1 =
            some (StoreError.runtimePanic
              "invalid memory address or nil pointer dereference") ∧
          (s.UpdateMetadata p none mErr).2.table = s.table ∧
          ∀ mod, mod < s.objects.length →
            (s.UpdateMetadata p none mErr).2.load mod = s.load mod := by
  have key : ∀ (w : ArtifactUpdate) (t : ModuleStore), t.WF → t.Has p →
      (w.run t p).1 = none ∧
        (∃ mod, (w.run t p).2.ModuleByPath p = Except.ok mod ∧
          w.StoredIn ((w.run t p).2.load mod)) ∧
        (w.run t p).2.WF ∧ (w.run t p).2.Has p := by
    intro w t twf th
    obtain ⟨old, hold⟩ := th
    obtain ⟨e, wf, ⟨mod, hm, hl⟩, _, _, hhas⟩ := artifactUpdate_replaced w twf hold
    refine ⟨e, ⟨mod, (ModuleByPath_ok_iff _ _ _).2 hm, ?_⟩, wf, (hhas p).2 ⟨old, hold⟩⟩
    rw [hl]
    cases w <;> simp [ArtifactUpdate.StoredIn, ArtifactUpdate.onlyChange]
  obtain ⟨e, hst, wf, hhas⟩ := key u s hwf h
  refine ⟨e, hst, wf, hhas, fun v => ?_, fun _ _ => rfl, fun mErr => ?_⟩
  · obtain ⟨e2, hst2, _, _⟩ := key v _ wf hhas
    exact ⟨e2, hst2⟩
  · obtain ⟨old, hold⟩ := (Has_iff_First s p).1 h
    have hnil : s.UpdateMetadata p none mErr =
        (some (StoreError.runtimePanic "invalid memory address or nil pointer dereference"),
          { objects := s.objects ++ [(s.load old).Copy], table := s.table }) := by
      simp [ModuleStore.UpdateMetadata, ModuleStore.deferred, moduleCopyByPath, moduleByPath,
        hold, ModuleStore.new]
    rw [hnil]
    exact ⟨rfl, rfl, fun mod hlt => load_append_lt _ _ _ hlt⟩

/-- Witness of C5 as amended: a manifest update with a non-nil error on the
store holding `/a` returns no error. -/
theorem Update_stores_payload_witness :
    oneModuleStore.WF ∧ oneModuleStore.Has "/a" ∧
      (oneModuleStore.UpdateModManifest "/a" none (some "no manifest")).1 = none :=
  ⟨oneModuleStore_WF, oneModuleStore_Has,
    (Update_stores_payload (ArtifactUpdate.ModManifest none (some "no manifest"))
      oneModuleStore "/a" oneModuleStore_WF oneModuleStore_Has).1⟩

/-- C7: on a store without a Module for the path, every artifact update,
every diagnostics update and every state setter returns
`ModuleNotFoundError` carrying the path and leaves the store exactly as it
was, the transition to Loaded registered by an update included. -/
theorem Write_absent_fails (w : Write) (s : ModuleStore) (p : String) (h : ¬ s.Has p) :
    w.run s p = (some (StoreError.ModuleNotFoundError p), s) :=
  write_absent w ((not_Has_iff_First s p).1 h)

/-- Witness of C7: an update of the reference origins of `/b` on the store
holding `/a` only. -/
theorem Write_absent_fails_witness :
    ¬ oneModuleStore.Has "/b" ∧
      oneModuleStore.UpdateReferenceOrigins "/b" ["origin"] none =
        (some (StoreError.ModuleNotFoundError "/b"), oneModuleStore) :=
  have h : ¬ oneModuleStore.Has "/b" := by
    rw [not_Has_iff_First, oneModuleStore_eq]
    decide
  ⟨h, Write_absent_fails (Write.update (ArtifactUpdate.ReferenceOrigins ["origin"] none))
    oneModuleStore "/b" h⟩

end state

namespace state

theorem replaced_byPath {s t : ModuleStore} {p : String} {m : Module}
    (h : s.Replaced t p m) :
    (∃ mod, t.ModuleByPath p = Except.ok mod ∧ t.load mod = m) ∧
      ∀ q, q ≠ p → t.ModuleByPath q = s.ModuleByPath q ∧
        ∀ mod, s.ModuleByPath q = Except.ok mod → t.load mod = s.load mod := by
  obtain ⟨⟨mod, hm, hl⟩, h2, h3, _⟩ := h
  refine ⟨⟨mod, (ModuleByPath_ok_iff _ _ _).2 hm, hl⟩, fun q hq => ⟨?_, fun ptr hp => ?_⟩⟩
  · unfold ModuleStore.ModuleByPath moduleByPath
    rw [h2 q hq]
  · exact h3 q ptr hq (memdb.First_mem ((ModuleByPath_ok_iff _ _ _).1 hp))

theorem storedIn_both (u v : ArtifactUpdate) (m : Module)
    (hk : u.kind ≠ v.kind) :
    u.StoredIn (v.onlyChange (u.onlyChange m)) ∧ v.StoredIn (v.onlyChange (u.onlyChange m)) := by
  cases u <;> cases v <;>
    first
      | exact absurd rfl hk
      | simp [ArtifactUpdate.StoredIn, ArtifactUpdate.onlyChange]

/-- C6: on a well-formed store holding a Module for the path, each of the
eight artifact updates and each of the two diagnostics updates leaves a Module
for the path that differs from the previous one in the members of the updated
artifact only (payload, error and state; for diagnostics the map of that
family), and every other path reads the same pointer with the same content.
So after two updates of different artifacts the Module holds both. -/
theorem Update_changes_one_artifact (s : ModuleStore) (p : String) (old : ModulePtr)
    (hwf : s.WF) (h : s.ModuleByPath p = Except.ok old) :
    (∀ u : ArtifactUpdate,
      (∃ mod, (u.run s p).2.ModuleByPath p = Except.ok mod ∧
        (u.run s p).2.load mod = u.onlyChange (s.load old)) ∧
      ∀ q, q ≠ p → (u.run s p).2.ModuleByPath q = s.ModuleByPath q ∧
        ∀ mod, s.ModuleByPath q = Except.ok mod → (u.run s p).2.load mod = s.load mod) ∧
    (∀ d : DiagnosticsUpdate,
      (∃ mod, (d.run s p).2.ModuleByPath p = Except.ok mod ∧
        (d.run s p).2.load mod = d.onlyChange (s.load old)) ∧
      ∀ q, q ≠ p → (d.run s p).2.ModuleByPath q = s.ModuleByPath q ∧
        ∀ mod, s.ModuleByPath q = Except.ok mod → (d.run s p).2.load mod = s.load mod) ∧
    ∀ u v : ArtifactUpdate, u.kind ≠ v.kind →
      ∃ mod, (v.run (u.run s p).2 p).2.ModuleByPath p = Except.ok mod ∧
        u.StoredIn ((v.run (u.run s p).2 p).2.load mod) ∧
        v.StoredIn ((v.run (u.run s p).2 p).2.load mod) := by
  have hmem : (p, old) ∈ s.table := memdb.First_mem ((ModuleByPath_ok_iff _ _ _).1 h)
  refine ⟨fun u => replaced_byPath (artifactUpdate_replaced u hwf hmem).2.2,
    fun d => replaced_byPath (diagnosticsUpdate_replaced d hwf hmem).2.2, fun u v hk => ?_⟩
  obtain ⟨_, wf1, ⟨mod1, hm1, hl1⟩, _⟩ := artifactUpdate_replaced u hwf hmem
  obtain ⟨_, _, ⟨mod2, hm2, hl2⟩, _⟩ := artifactUpdate_replaced v wf1 (memdb.First_mem hm1)
  refine ⟨mod2, (ModuleByPath_ok_iff _ _ _).2 hm2, ?_⟩
  rw [hl2, hl1]
  exact storedIn_both u v _ hk

/-- Witness of C6 on the store holding `/a`: after an update of the parsed
module files the Module of `/a` is the previous one with that artifact
replaced. -/
theorem Update_changes_one_artifact_witness :
    oneModuleStore.WF ∧ oneModuleStore.ModuleByPath "/a" = Except.ok 0 ∧
      ∃ mod,
        (oneModuleStore.UpdateParsedModuleFiles "/a" none (some "parse error")).2.ModuleByPath
            "/a" = Except.ok mod ∧
          (oneModuleStore.UpdateParsedModuleFiles "/a" none (some "parse error")).2.load mod =
            { oneModuleStore.load 0 with
              ParsedModuleFiles := none
              ModuleParsingErr := some "parse error"
              ModuleParsingState := op.OpState.OpStateLoaded } :=
  have h : oneModuleStore.ModuleByPath "/a" = Except.ok 0 := by
    rw [ModuleByPath_ok_iff, oneModuleStore_eq]
    decide
  ⟨oneModuleStore_WF, h,
    ((Update_changes_one_artifact oneModuleStore "/a" 0 oneModuleStore_WF h).1
      (ArtifactUpdate.ParsedModuleFiles none (some "parse error"))).1⟩

end state

/-! ## Stores reached from the empty store -/

namespace state

theorem foldl_append_singleton {T : Type} (l acc : List T) :
    l.foldl (fun modules mod => modules ++ [mod]) acc = acc ++ l := by
  induction l generalizing acc with
  | nil => simp
  | cons x rest ih => simp [ih]

theorem List_eq (s : ModuleStore) : s.List = (s.table.map Prod.snd, none) := by
  simp [ModuleStore.List, memdb.Get, foldl_append_singleton]

theorem alloc_WF {s : ModuleStore} (m : Module) (hwf : s.WF) :
    ModuleStore.WF { objects := s.objects ++ [m], table := s.table } := by
  refine ⟨hwf.1, fun e he => ?_, hwf.2.2⟩
  have := hwf.2.1 e he
  refine ⟨?_, ?_⟩
  · show e.2 < (s.objects ++ [m]).length
    rw [List.length_append]
    exact Nat.lt_add_right _ this.1
  · show (ModuleStore.load _ e.2).Path = e.1
    rw [load_append_lt _ _ _ this.1]
    exact this.2

theorem Add_WF {s : ModuleStore} (p : String) (hwf : s.WF) : (s.Add p).2.WF := by
  cases hf : memdb.First s.table p with
  | some mod => rw [Add_present hf]; exact hwf
  | none =>
    by_cases hp : p = ""
    · subst hp
      rw [Add_no_key hf]
      exact alloc_WF _ hwf
    · rw [Add_absent hf hp]
      refine ⟨memdb.Insert_sorted _ _ hwf.1, fun e he => ?_, fun e he => ?_⟩
      · rcases (memdb.mem_Insert_iff p s.objects.length e hwf.1).1 he with h | ⟨h, _⟩
        · subst h
          refine ⟨by simp, ?_⟩
          show (ModuleStore.load _ s.objects.length).Path = p
          rw [load_append_self]
          rfl
        · have := hwf.2.1 e h
          refine ⟨?_, ?_⟩
          · show e.2 < (s.objects ++ [newModule p]).length
            rw [List.length_append]
            exact Nat.lt_add_right _ this.1
          · show (ModuleStore.load _ e.2).Path = e.1
            rw [load_append_lt _ _ _ this.1]
            exact this.2
      · rcases (memdb.mem_Insert_iff p s.objects.length e hwf.1).1 he with h | ⟨h, _⟩
        · subst h
          exact hp
        · exact hwf.2.2 e h

theorem Add_Has (s : ModuleStore) (p q : String) :
    (s.Add q).2.Has p ↔ s.Has p ∨ (p = q ∧ q ≠ "") := by
  cases hf : memdb.First s.table q with
  | some mod =>
    rw [Add_present hf]
    constructor
    · exact Or.inl
    · rintro (h | ⟨h, _⟩)
      · exact h
      · subst h
        exact (Has_iff_First _ _).2 ⟨mod, hf⟩
  | none =>
    by_cases hq : q = ""
    · subst hq
      rw [Add_no_key hf]
      constructor
      · exact Or.inl
      · rintro (h | ⟨_, h⟩)
        · exact h
        · exact absurd rfl h
    · rw [Add_absent hf hq]
      by_cases hpq : p = q
      · subst hpq
        simp only [hq, ne_eq, not_false_eq_true, and_self, or_true, iff_true]
        exact (Has_iff_First _ _).2 ⟨_, memdb.First_Insert_self _ _ _⟩
      · simp only [Has_iff_First, memdb.First_Insert_ne _ _ hpq, hpq, false_and, or_false]

theorem Remove_WF {s : ModuleStore} (p : String) (hwf : s.WF) : (s.Remove p).2.WF :=
  ⟨memdb.DeleteAll_sorted _ hwf.1,
    fun e he => hwf.2.1 e ((memdb.mem_DeleteAll _ _ _).1 he).1,
    fun e he => hwf.2.2 e ((memdb.mem_DeleteAll _ _ _).1 he).1⟩

theorem Remove_Has (s : ModuleStore) (p q : String) :
    (s.Remove q).2.Has p ↔ s.Has p ∧ ¬ Deletes q p := by
  simp only [ModuleStore.Has, ModuleStore.Remove, memdb.mem_DeleteAll, Deletes]
  constructor
  · rintro ⟨mod, h1, h2⟩
    exact ⟨⟨mod, h1⟩, h2⟩
  · rintro ⟨⟨mod, h1⟩, h2⟩
    exact ⟨mod, h1, h2⟩

theorem write_keeps (w : Write) {s : ModuleStore} (path : String) (hwf : s.WF) :
    (w.run s path).2.WF ∧ ∀ q, (w.run s path).2.Has q ↔ s.Has q := by
  cases hf : memdb.First s.table path with
  | none =>
    rw [write_absent w hf]
    exact ⟨hwf, fun _ => Iff.rfl⟩
  | some mod =>
    obtain ⟨_, wf, m, hr⟩ := write_present w hwf (memdb.First_mem hf)
    exact ⟨wf, hr.2.2.2⟩

theorem op_run_WF (o : Op) {s : ModuleStore} (hwf : s.WF) : (o.run s).WF := by
  cases o with
  | Add path => exact Add_WF path hwf
  | Remove path => exact Remove_WF path hwf
  | write path w => exact (write_keeps w path hwf).1

theorem storeAfter_snoc (ops : List Op) (o : Op) :
    storeAfter (ops ++ [o]) = o.run (storeAfter ops) := by
  simp [storeAfter]

theorem storeAfter_WF (ops : List Op) : (storeAfter ops).WF := by
  induction ops using List.reverseRecOn with
  | nil => exact empty_WF
  | append_singleton ops o ih =>
    rw [storeAfter_snoc]
    exact op_run_WF o ih

theorem live_snoc (ops : List Op) (o : Op) (p : String) :
    (∃ pre post, ops ++ [o] = pre ++ Op.Add p :: post ∧
        ∀ q, Op.Remove q ∈ post → ¬ Deletes q p) ↔
      o = Op.Add p ∨
        ((∃ pre post, ops = pre ++ Op.Add p :: post ∧
            ∀ q, Op.Remove q ∈ post → ¬ Deletes q p) ∧
          ∀ q, o = Op.Remove q → ¬ Deletes q p) := by
  constructor
  · rintro ⟨pre, post, heq, hnot⟩
    rcases List.eq_nil_or_concat post with hp | ⟨post0, x, hp⟩
    · subst hp
      have h1 : ops ++ [o] = pre ++ [Op.Add p] := heq
      exact Or.inl (List.append_inj_right' h1 rfl |> List.singleton_inj.1)
    · subst hp
      have h1 : ops ++ [o] = (pre ++ Op.Add p :: post0) ++ [x] := by
        rw [heq]; simp
      have h2 := List.append_inj_left' h1 rfl
      have h3 : o = x := List.singleton_inj.1 (List.append_inj_right' h1 rfl)
      subst h3
      refine Or.inr ⟨⟨pre, post0, h2, fun q hm => hnot q (by simp [hm])⟩, fun q ho => hnot q ?_⟩
      simp [ho]
  · rintro (h | ⟨⟨pre, post, heq, hnot⟩, hne⟩)
    · subst h
      exact ⟨ops, [], rfl, by simp⟩
    · refine ⟨pre, post ++ [o], by rw [heq]; simp, ?_⟩
      intro q hm
      rcases List.mem_append.1 hm with h | h
      · exact hnot q h
      · exact hne q (List.mem_singleton.1 h).symm

theorem storeAfter_Has (ops : List Op) (p : String) :
    (storeAfter ops).Has p ↔
      p ≠ "" ∧ ∃ pre post, ops = pre ++ Op.Add p :: post ∧
        ∀ q, Op.Remove q ∈ post → ¬ Deletes q p := by
  induction ops using List.reverseRecOn with
  | nil =>
    constructor
    · intro h
      exact absurd h (empty_not_Has p)
    · rintro ⟨_, pre, post, h, _⟩
      simp at h
  | append_singleton ops o ih =>
    rw [storeAfter_snoc, live_snoc]
    cases o with
    | Add q =>
      simp only [Op.run, Add_Has, ih, Op.Add.injEq, reduceCtorEq, false_imp_iff, implies_true,
        and_true]
      constructor
      · rintro (⟨h1, h2⟩ | ⟨h1, h2⟩)
        · exact ⟨h1, Or.inr h2⟩
        · exact ⟨by rw [h1]; exact h2, Or.inl h1.symm⟩
      · rintro ⟨h1, h2 | h2⟩
        · exact Or.inr ⟨h2.symm, by rw [h2]; exact h1⟩
        · exact Or.inl ⟨h1, h2⟩
    | Remove q =>
      simp only [Op.run, Remove_Has, ih, Op.Remove.injEq, reduceCtorEq, false_or]
      constructor
      · rintro ⟨⟨h1, h2⟩, h3⟩
        exact ⟨h1, h2, fun q0 hq => by rw [← hq]; exact h3⟩
      · rintro ⟨h1, h2, h3⟩
        exact ⟨⟨h1, h2⟩, h3 q rfl⟩
    | write path w =>
      simp only [Op.run, (write_keeps w path (storeAfter_WF ops)).2, ih, reduceCtorEq,
        false_imp_iff, implies_true, and_true, false_or]

theorem paths_of_WF {s : ModuleStore} (hwf : s.WF) :
    (s.table.map Prod.snd).map (fun mod => (s.load mod).Path) = s.table.map Prod.fst := by
  rw [List.map_map]
  apply List.map_congr_left
  intro e he
  exact (hwf.2.1 e he).2

/-- C8 as stated fails: after `Add` of the path made of `/a`, a NUL character
and `b`, and `Remove` of `/a`, the path has been added and not removed since,
and `List` returns nothing; and after `Add` of the empty path, which fails,
`List` returns nothing either. -/
theorem List_misses_added_path :
    Op.Remove "/a\x00b" ∉ [Op.Remove "/a"] ∧
      (storeAfter [Op.Add "/a\x00b"]).List.1 = [0] ∧
      ((storeAfter [Op.Add "/a\x00b"]).load 0).Path = "/a\x00b" ∧
      (storeAfter [Op.Add "/a\x00b", Op.Remove "/a"]).List.1 = [] ∧
      (storeAfter [Op.Add ""]).List.1 = [] := by
  refine ⟨?_, rfl, rfl, rfl, rfl⟩
  simp only [List.mem_singleton, Op.Remove.injEq]
  decide

/-- C8 as amended: in every store reached from the empty store by calls of
`Add`, `Remove`, the updates and the state setters, `List` returns without
error the pointers of the table in index order; the paths of the listed
Modules are in strictly ascending order (so no path is listed twice), each
listed Module has the path it is stored under, and a path is listed exactly
when it is not empty, some call added it and no later call of `Remove` deleted
it, that is, was given the path itself or a path of which it is an extension
by a NUL character and further characters. -/
theorem List_of_reachable (ops : List Op) :
    (storeAfter ops).List.2 = none ∧
      (storeAfter ops).List.1 = (storeAfter ops).table.map Prod.snd ∧
      (∀ e ∈ (storeAfter ops).table, ((storeAfter ops).load e.2).Path = e.1) ∧
      (((storeAfter ops).values (storeAfter ops).List.1).map Module.Path).Pairwise
        (fun a b => a < b) ∧
      ((storeAfter ops).values (storeAfter ops).List.1).Nodup ∧
      (∀ p, p ∈ ((storeAfter ops).values (storeAfter ops).List.1).map Module.Path ↔
        p ≠ "" ∧ ∃ pre post, ops = pre ++ Op.Add p :: post ∧
          ∀ q, Op.Remove q ∈ post → ¬ Deletes q p) ∧
      ∀ q p, Deletes q p ↔ p = q ∨ q.data ++ [Char.ofNat 0] <+: p.data := by
  have hwf := storeAfter_WF ops
  have hpaths : ((storeAfter ops).values (storeAfter ops).List.1).map Module.Path =
      (storeAfter ops).table.map Prod.fst := by
    rw [List_eq, ← paths_of_WF hwf]
    simp [ModuleStore.values, List.map_map]
  have hsorted : ((storeAfter ops).table.map Prod.fst).Pairwise (fun a b => a < b) :=
    List.pairwise_map.2 hwf.1
  refine ⟨by rw [List_eq], by rw [List_eq], fun e he => (hwf.2.1 e he).2, ?_, ?_, fun p => ?_,
    fun q p => memdb.indexKey_extends_iff q p⟩
  · rw [hpaths]
    exact hsorted
  · have hn : (((storeAfter ops).values (storeAfter ops).List.1).map Module.Path).Nodup := by
      rw [hpaths]
      exact hsorted.imp (fun h => ne_of_lt h)
    exact List.Nodup.of_map _ hn
  · rw [hpaths, ← storeAfter_Has]
    simp only [ModuleStore.Has, List.mem_map, Prod.exists, exists_and_right, exists_eq_right]

end state

/-! ## Queries over the manifests -/

namespace state

theorem foldl_callers (ContainsLocalModule : datadir.ModuleManifest → String → Bool)
    (s : ModuleStore) (modPath : String) (l acc : List ModulePtr) :
    l.foldl
        (fun callers mod =>
          match (s.load mod).ModManifest with
          | none => callers
          | some manifest =>
            if ContainsLocalModule manifest modPath then callers ++ [mod] else callers)
        acc =
      acc ++ l.filter (fun mod => (s.load mod).calls ContainsLocalModule modPath) := by
  induction l generalizing acc with
  | nil => simp
  | cons x rest ih =>
    rw [List.foldl_cons, ih]
    cases hm : (s.load x).ModManifest with
    | none => simp [Module.calls, hm]
    | some manifest =>
      by_cases hc : ContainsLocalModule manifest modPath = true
      · simp [Module.calls, hm, hc]
      · simp [Module.calls, hm, hc]

theorem pointers_nodup {s : ModuleStore} (hwf : s.WF) : (s.table.map Prod.snd).Nodup := by
  have h : ((s.table.map Prod.snd).map (fun mod => (s.load mod).Path)).Nodup := by
    rw [paths_of_WF hwf]
    exact (List.pairwise_map.2 hwf.1).imp (fun h => ne_of_lt h)
  exact List.Nodup.of_map _ h

/-- C9: `CallersOfModule` returns, without error, the stored Modules that have
a manifest for which `ContainsLocalModule` holds at the path, and no others,
in the order of `List`; in a well-formed store none is returned twice. -/
theorem CallersOfModule_exact (ContainsLocalModule : datadir.ModuleManifest → String → Bool)
    (s : ModuleStore) (modPath : String) :
    (s.CallersOfModule ContainsLocalModule modPath).2 = none ∧
      (s.CallersOfModule ContainsLocalModule modPath).1 =
        s.List.1.filter (fun mod => (s.load mod).calls ContainsLocalModule modPath) ∧
      (∀ mod, mod ∈ (s.CallersOfModule ContainsLocalModule modPath).1 ↔
        mod ∈ s.List.1 ∧ ∃ manifest, (s.load mod).ModManifest = some manifest ∧
          ContainsLocalModule manifest modPath = true) ∧
      (s.CallersOfModule ContainsLocalModule modPath).1.Sublist s.List.1 ∧
      (s.WF → (s.CallersOfModule ContainsLocalModule modPath).1.Nodup) := by
  have heq : (s.CallersOfModule ContainsLocalModule modPath).1 =
      s.List.1.filter (fun mod => (s.load mod).calls ContainsLocalModule modPath) := by
    simp [ModuleStore.CallersOfModule, foldl_callers, List_eq, memdb.Get]
  refine ⟨rfl, heq, fun mod => ?_, ?_, fun hwf => ?_⟩
  · rw [heq, List.mem_filter]
    apply and_congr_right
    intro _
    cases hm : (s.load mod).ModManifest with
    | none => simp [Module.calls, hm]
    | some manifest => simp [Module.calls, hm]
  · rw [heq]
    exact List.filter_sublist _
  · rw [heq, List_eq]
    exact (pointers_nodup hwf).filter _

/-- Witness of C9 on the store holding `/other` with a manifest: with the
query that holds everywhere, the Module is the one caller. -/
theorem CallersOfModule_exact_witness :
    foreignStore.WF ∧ (foreignStore.CallersOfModule (fun _ _ => true) "/other/x").1.Nodup :=
  ⟨storeAfter_WF _,
    (CallersOfModule_exact (fun _ _ => true) foreignStore "/other/x").2.2.2.2 (storeAfter_WF _)⟩

theorem foldl_records (IsRoot : datadir.ModuleRecord → Bool) (Join : String → String → String)
    (modPath : String) (l : List datadir.ModuleRecord) (acc : List tfmod.ModuleCall) :
    l.foldl
        (fun result record =>
          if IsRoot record then result
          else result ++ [tfmod.ModuleCall.mk record.Key record.SourceAddr
                            (Join modPath record.Dir)])
        acc =
      acc ++ (l.filter (fun record => !IsRoot record)).map
        (fun record => tfmod.ModuleCall.mk record.Key record.SourceAddr
          (Join modPath record.Dir)) := by
  induction l generalizing acc with
  | nil => simp
  | cons x rest ih =>
    rw [List.foldl_cons, ih]
    by_cases hr : IsRoot x = true
    · simp [hr]
    · simp [hr]

theorem foldl_calls (IsRoot : datadir.ModuleRecord → Bool) (Join : String → String → String)
    (s : ModuleStore) (modPath : String) (l : List ModulePtr) (acc : List tfmod.ModuleCall) :
    l.foldl
        (fun result mod =>
          match (s.load mod).ModManifest with
          | none => result
          | some manifest =>
            manifest.Records.foldl
              (fun result record =>
                if IsRoot record then result
                else result ++ [tfmod.ModuleCall.mk record.Key record.SourceAddr
                                  (Join modPath record.Dir)])
              result)
        acc =
      acc ++ ((l.flatMap (fun mod => (s.load mod).records)).filter
          (fun record => !IsRoot record)).map
        (fun record => tfmod.ModuleCall.mk record.Key record.SourceAddr
          (Join modPath record.Dir)) := by
  induction l generalizing acc with
  | nil => simp
  | cons x rest ih =>
    rw [List.foldl_cons, ih]
    cases hm : (s.load x).ModManifest with
    | none => simp [Module.records, hm]
    | some manifest => simp [Module.records, hm, foldl_records]

/-- C10 as amended: `ModuleCalls` returns one call for each record that is not
a root record in the manifest of each stored Module, whatever the path of that
Module, in the order of `List` and then of the records; the call has the key
of the record as local name, its source address, and its directory joined to
the path asked for. -/
theorem ModuleCalls_of_every_manifest (IsRoot : datadir.ModuleRecord → Bool)
    (Join : String → String → String) (s : ModuleStore) (modPath : String) :
    s.ModuleCalls IsRoot Join modPath =
      ((((s.values s.List.1).flatMap Module.records).filter
          (fun record => !IsRoot record)).map
        (fun record => tfmod.ModuleCall.mk record.Key record.SourceAddr
          (Join modPath record.Dir)), none) := by
  have h := foldl_calls IsRoot Join s modPath (s.table.map Prod.snd) []
  simp only [ModuleStore.ModuleCalls, List_eq, h]
  simp [ModuleStore.values, List.flatMap_map]

theorem foreignStore_eq :
    foreignStore =
      { objects :=
          [newModule "/other",
           { newModule "/other" with ModManifest := some foreignManifest },
           { newModule "/other" with
             ModManifest := some foreignManifest
             ModManifestState := op.OpState.OpStateLoaded }]
        table := [("/other", 2)] } := by
  simp [foreignStore, storeAfter, Op.run, Write.run, ArtifactUpdate.run,
    ModuleStore.UpdateModManifest, ModuleStore.SetModManifestState, ModuleStore.deferred,
    ModuleStore.writeCopy, moduleCopyByPath, moduleByPath, ModuleStore.Add, memdb.First,
    memdb.indexInsert, memdb.Insert, ModuleStore.new, ModuleStore.assign, ModuleStore.insert,
    ModuleStore.load,
    moduleCopy_eq, newModule]

/-- C10 as stated fails: the store holds one Module, `/other`, whose path
does not start with `/root`; `ModuleCalls` asked for `/root` still returns a
call, made from the record of the manifest of `/other` and placed under
`/root`. -/
theorem ModuleCalls_foreign_manifest :
    (foreignStore.values foreignStore.List.1).map Module.Path = ["/other"] ∧
      ¬ ("/root".data <+: "/other".data) ∧
      (foreignStore.ModuleCalls (fun record => record.Key == "")
          (fun dir elem => dir ++ "/" ++ elem) "/root").1 =
        [{ LocalName := "x", SourceAddr := "./x", Path := "/root/x" }] := by
  rw [foreignStore_eq]
  refine ⟨by decide, by decide, by decide⟩

end state

/-! ## The example scenario and the metadata projection -/

namespace state

theorem scenarioStore_eq :
    scenarioStore =
      { objects :=
          [newModule "/root", newModule "/root/child",
           { newModule "/root" with ModManifest := some scenarioManifest },
           { newModule "/root" with
             ModManifest := some scenarioManifest
             ModManifestState := op.OpState.OpStateLoaded }]
        table := [("/root", 3), ("/root/child", 1)] } := by
  simp +decide [scenarioStore, storeAfter, Op.run, Write.run, ArtifactUpdate.run,
    ModuleStore.UpdateModManifest, ModuleStore.SetModManifestState, ModuleStore.deferred,
    moduleCopyByPath, moduleByPath, ModuleStore.Add, memdb.First,
    memdb.indexInsert, memdb.Insert, ModuleStore.new, ModuleStore.assign, ModuleStore.insert,
    ModuleStore.load,
    moduleCopy_eq, newModule, String.lt_iff_toList_lt]

/-- C11: in a store whose Modules are `/root` and `/root/child`, where
`/root/child` has no manifest and the manifest of `/root` holds a root record
and the record with key `child` and directory `child` (in either order),
`ModuleCalls` asked for `/root` returns exactly one call, with local name
`child` and path `/root/child`. -/
theorem ModuleCalls_example (IsRoot : datadir.ModuleRecord → Bool)
    (Join : String → String → String) (s : ModuleStore) (root child : Module)
    (manifest : datadir.ModuleManifest) (rootRecord : datadir.ModuleRecord) (source : String)
    (hlist : s.values s.List.1 = [root, child])
    (hroot : root.Path = "/root" ∧ root.ModManifest = some manifest)
    (hchild : child.Path = "/root/child" ∧ child.ModManifest = none)
    (hrecords :
      manifest.Records =
          [rootRecord, { Key := "child", SourceAddr := source, Dir := "child" }] ∨
        manifest.Records =
          [{ Key := "child", SourceAddr := source, Dir := "child" }, rootRecord])
    (hrootRecord : IsRoot rootRecord = true)
    (hcall : IsRoot { Key := "child", SourceAddr := source, Dir := "child" } = false)
    (hjoin : Join "/root" "child" = "/root/child") :
    s.ModuleCalls IsRoot Join "/root" =
      ([{ LocalName := "child", SourceAddr := source, Path := "/root/child" }], none) := by
  have h := foldl_calls IsRoot Join s "/root" (s.table.map Prod.snd) []
  have hv : (s.table.map Prod.snd).flatMap (fun mod => (s.load mod).records) =
      [root, child].flatMap Module.records := by
    rw [← hlist, List_eq]
    simp [ModuleStore.values, List.flatMap_map]
  simp only [ModuleStore.ModuleCalls, List_eq, h, hv]
  rcases hrecords with hrecords | hrecords <;>
    simp [Module.records, hroot.2, hchild.2, hrecords, hrootRecord, hcall, hjoin]

/-- Witness of C11 on the store of the scenario, with the root record
recognised by its empty key and directories joined by a slash. -/
theorem ModuleCalls_example_witness :
    scenarioStore.values scenarioStore.List.1 =
        [{ newModule "/root" with
           ModManifest := some scenarioManifest
           ModManifestState := op.OpState.OpStateLoaded },
         newModule "/root/child"] ∧
      scenarioStore.ModuleCalls (fun record => record.Key == "")
          (fun dir elem => dir ++ "/" ++ elem) "/root" =
        ([{ LocalName := "child", SourceAddr := "./child", Path := "/root/child" }], none) :=
  have hlist : scenarioStore.values scenarioStore.List.1 =
      [{ newModule "/root" with
         ModManifest := some scenarioManifest
         ModManifestState := op.OpState.OpStateLoaded },
       newModule "/root/child"] := by
    rw [scenarioStore_eq]
    decide
  ⟨hlist,
    ModuleCalls_example (fun record => record.Key == "") (fun dir elem => dir ++ "/" ++ elem)
      scenarioStore _ _ scenarioManifest { Key := "", SourceAddr := "", Dir := "." } "./child"
      hlist ⟨rfl, rfl⟩ ⟨rfl, rfl⟩ (Or.inl rfl) (by decide) (by decide) (by decide)⟩

end state

namespace state

theorem ModuleMeta_ok {s : ModuleStore} {p : String} {mod : ModulePtr}
    (h : memdb.First s.table p = some mod) :
    s.ModuleMeta p =
      Except.ok { Path := (s.load mod).Path
                  ProviderReferences := (s.load mod).Meta.ProviderReferences
                  ProviderRequirements := (s.load mod).Meta.ProviderRequirements
                  CoreRequirements := (s.load mod).Meta.CoreRequirements
                  Variables := (s.load mod).Meta.Variables
                  Outputs := (s.load mod).Meta.Outputs } := by
  simp [ModuleStore.ModuleMeta, ModuleStore.ModuleByPath, moduleByPath, h]

/-- C12: `ModuleMeta` fails with `ModuleNotFoundError` carrying the path when
the store holds no Module for it; otherwise it returns the path of the Module
and the five members of its stored metadata. On a well-formed store holding
the path, the value returned after `UpdateMetadata` has the path and the five
members of the metadata that the pointer passed in points to. -/
theorem ModuleMeta_projects (s : ModuleStore) (p : String) :
    (¬ s.Has p → s.ModuleMeta p = Except.error (StoreError.ModuleNotFoundError p)) ∧
      (∀ mod, s.ModuleByPath p = Except.ok mod →
        s.ModuleMeta p =
          Except.ok { Path := (s.load mod).Path
                      ProviderReferences := (s.load mod).Meta.ProviderReferences
                      ProviderRequirements := (s.load mod).Meta.ProviderRequirements
                      CoreRequirements := (s.load mod).Meta.CoreRequirements
                      Variables := (s.load mod).Meta.Variables
                      Outputs := (s.load mod).Meta.Outputs }) ∧
      (s.WF → s.Has p → ∀ (meta : tfmod.Meta) (mErr : GoError),
        (s.UpdateMetadata p (some meta) mErr).2.ModuleMeta p =
          Except.ok { Path := p
                      ProviderReferences := meta.ProviderReferences
                      ProviderRequirements := meta.ProviderRequirements
                      CoreRequirements := meta.CoreRequirements
                      Variables := meta.Variables
                      Outputs := meta.Outputs }) := by
  refine ⟨fun h => ?_, fun mod h => ?_, fun hwf hhas meta mErr => ?_⟩
  · have hf := (not_Has_iff_First s p).1 h
    simp [ModuleStore.ModuleMeta, ModuleStore.ModuleByPath, moduleByPath, hf]
  · exact ModuleMeta_ok ((ModuleByPath_ok_iff s p mod).1 h)
  · obtain ⟨old, hold⟩ := hhas
    obtain ⟨_, wf, ⟨mod, hm, hl⟩, _⟩ :=
      artifactUpdate_replaced (ArtifactUpdate.Metadata meta mErr) hwf hold
    have hpath : (s.load old).Path = p := (hwf.2.1 _ hold).2
    have h1 : (ArtifactUpdate.Metadata meta mErr).run s p =
        s.UpdateMetadata p (some meta) mErr := rfl
    rw [h1] at hm hl
    rw [ModuleMeta_ok hm, hl]
    simp [ArtifactUpdate.onlyChange, hpath]

/-- Witness of C12 on the store holding `/a`: the metadata read back after an
update with a core requirement. -/
theorem ModuleMeta_projects_witness :
    oneModuleStore.WF ∧ oneModuleStore.Has "/a" ∧ ¬ oneModuleStore.Has "/b" ∧
      (oneModuleStore.UpdateMetadata "/a" (some { CoreRequirements := [">= 1.0"] })
          none).2.ModuleMeta "/a" =
        Except.ok { Path := "/a", CoreRequirements := [">= 1.0"] } ∧
      oneModuleStore.ModuleMeta "/b" = Except.error (StoreError.ModuleNotFoundError "/b") :=
  have hb : ¬ oneModuleStore.Has "/b" := by
    rw [not_Has_iff_First, oneModuleStore_eq]
    decide
  ⟨oneModuleStore_WF, oneModuleStore_Has, hb,
    (ModuleMeta_projects oneModuleStore "/a").2.2 oneModuleStore_WF oneModuleStore_Has
      { CoreRequirements := [">= 1.0"] } none,
    (ModuleMeta_projects oneModuleStore "/b").1 hb⟩

end state

/-! ## Pointers held by readers -/

namespace state

theorem load_of_extends {s t : ModuleStore} {mod : ModulePtr} (h : s.objects <+: t.objects)
    (hlt : mod < s.objects.length) : t.load mod = s.load mod := by
  obtain ⟨rest, hr⟩ := h
  simp [ModuleStore.load, ← hr, List.getD_eq_getElem?_getD, List.getElem?_append_left hlt]

theorem writeCopy_extends (s : ModuleStore) (path : String) (f : Module → Module) :
    s.objects <+: (s.writeCopy path f).2.objects := by
  cases hf : memdb.First s.table path with
  | none =>
    rw [writeCopy_absent f hf]
  | some mod =>
    by_cases hp : (f (s.load mod)).Path = ""
    · rw [writeCopy_fails f hf hp]
      exact List.prefix_append _ _
    · rw [writeCopy_eq f hf hp]
      exact List.prefix_append _ _

theorem deferred_extends {s : ModuleStore} {r : Option StoreError × ModuleStore}
    {fn : ModuleStore → Option StoreError × ModuleStore} (h1 : s.objects <+: r.2.objects)
    (h2 : ∀ t : ModuleStore, t.objects <+: (fn t).2.objects) :
    s.objects <+: (ModuleStore.deferred r fn).2.objects := by
  unfold ModuleStore.deferred
  cases r.1 with
  | some err => exact h1
  | none => exact h1.trans (h2 r.2)

theorem write_copies_extends (w : Write) (s : ModuleStore) (path : String)
    (hc : w.copies = true) : s.objects <+: (w.run s path).2.objects := by
  cases w with
  | update u =>
    cases u
    case ReferenceTargets refs rErr => cases hc
    case ReferenceOrigins origins roErr => cases hc
    case TerraformVersion tfVer pv vErr =>
      show s.objects <+: (s.UpdateTerraformVersion path tfVer pv vErr).2.objects
      rw [UpdateTerraformVersion_eq]
      exact deferred_extends (writeCopy_extends _ _ _) (fun t => writeCopy_extends t _ _)
    all_goals exact deferred_extends (writeCopy_extends _ _ _) (fun t => writeCopy_extends t _ _)
  | diagnostics u => cases u <;> exact writeCopy_extends _ _ _
  | setState a st =>
    cases a
    case referenceTargets => cases hc
    case referenceOrigins => cases hc
    all_goals exact writeCopy_extends _ _ _

/-- C13: a write that works on a copy leaves every Module object allocated
before it as it was, so a Module read before the write keeps all its members.
The writes to the reference targets and origins do not: on the store holding
`/a`, the Module read by `ModuleByPath` and by `List` has no reference target
and the states Unknown, and after `UpdateReferenceTargets` the same Module
holds the new target with the state Loaded, after
`SetReferenceOriginsState` the new state. -/
theorem reader_snapshot_changed :
    (∀ (w : Write) (s : ModuleStore) (p : String) (mod : ModulePtr),
      w.copies = true → mod < s.objects.length → (w.run s p).2.load mod = s.load mod) ∧
      oneModuleStore.ModuleByPath "/a" = Except.ok 0 ∧
      oneModuleStore.List.1 = [0] ∧
      (oneModuleStore.load 0).RefTargets = [] ∧
      (oneModuleStore.load 0).RefTargetsState = op.OpState.OpStateUnknown ∧
      (oneModuleStore.load 0).RefOriginsState = op.OpState.OpStateUnknown ∧
      ((oneModuleStore.UpdateReferenceTargets "/a" ["target"] none).2.load 0).RefTargets =
        ["target"] ∧
      ((oneModuleStore.UpdateReferenceTargets "/a" ["target"] none).2.load 0).RefTargetsState =
        op.OpState.OpStateLoaded ∧
      ((oneModuleStore.SetReferenceOriginsState "/a" op.OpState.OpStateLoading).2.load
        0).RefOriginsState = op.OpState.OpStateLoading := by
  refine ⟨fun w s p mod hc hlt => load_of_extends (write_copies_extends w s p hc) hlt, ?_⟩
  rw [oneModuleStore_eq]
  refine ⟨rfl, rfl, rfl, rfl, rfl, ?_, ?_, ?_⟩ <;>
    simp [ModuleStore.UpdateReferenceTargets, ModuleStore.SetReferenceTargetsState,
      ModuleStore.SetReferenceOriginsState, ModuleStore.deferred, moduleByPath, memdb.First,
      memdb.indexInsert, memdb.Insert, ModuleStore.assign, ModuleStore.insert, ModuleStore.load,
      newModule]

end state

namespace state

theorem parsedStore_eq :
    parsedStore =
      { objects :=
          [newModule "/a",
           { newModule "/a" with ParsedModuleFiles := some GoMap.make },
           { newModule "/a" with
             ParsedModuleFiles := some GoMap.make
             ModuleParsingState := op.OpState.OpStateLoaded }]
        table := [("/a", 2)] } := by
  simp [parsedStore, oneModuleStore_eq, ModuleStore.UpdateParsedModuleFiles,
    ModuleStore.SetModuleParsingState, ModuleStore.deferred, moduleCopyByPath, moduleByPath,
    memdb.First, memdb.indexInsert, memdb.Insert, ModuleStore.new, ModuleStore.assign,
    ModuleStore.insert,
    ModuleStore.load, moduleCopy_eq, newModule]

/-- C14 as stated fails: on the store holding `/a` with an empty map of parsed
module files, the caller reads the Module with `ModuleByPath` and assigns a
file to its map; the next `ModuleByPath` returns the same pointer and the
Module now holds that file, where it held none before. -/
theorem caller_mutation_is_read_back :
    parsedStore.ModuleByPath "/a" = Except.ok 2 ∧
      (parsedStore.load 2).ParsedModuleFiles = some GoMap.make ∧
      (parsedStore.assign 2 (addParsedFile "main.tf" "parsed")).ModuleByPath "/a" =
        Except.ok 2 ∧
      ((parsedStore.assign 2 (addParsedFile "main.tf" "parsed")).load 2).ParsedModuleFiles =
        some (GoMap.make.assign "main.tf" "parsed") ∧
      (parsedStore.assign 2 (addParsedFile "main.tf" "parsed")).load 2 ≠ parsedStore.load 2 := by
  rw [parsedStore_eq]
  refine ⟨rfl, rfl, rfl, rfl, ?_⟩
  decide

theorem assign_table (s : ModuleStore) (mod : ModulePtr) (f : Module → Module) :
    (s.assign mod f).table = s.table := rfl

/-- C14 as amended: `ModuleByPath` hands out the stored Module itself, not a
copy. After a caller has changed the maps or slices of the Module through the
returned pointer, the next `ModuleByPath` returns the same pointer, the Module
read through it holds the change, and a `ModuleMeta` called then projects the
metadata of the changed Module; every path still reads the same pointer, and
the Modules behind other pointers are as before. -/
theorem ModuleByPath_returns_stored (s : ModuleStore) (p : String) (mod : ModulePtr)
    (f : Module → Module) (hwf : s.WF) (h : s.ModuleByPath p = Except.ok mod)
    (hf : ∀ m, (f m).Path = m.Path) :
    (s.assign mod f).ModuleByPath p = Except.ok mod ∧
      (s.assign mod f).load mod = f (s.load mod) ∧
      (s.assign mod f).ModuleMeta p =
        Except.ok { Path := p
                    ProviderReferences := (f (s.load mod)).Meta.ProviderReferences
                    ProviderRequirements := (f (s.load mod)).Meta.ProviderRequirements
                    CoreRequirements := (f (s.load mod)).Meta.CoreRequirements
                    Variables := (f (s.load mod)).Meta.Variables
                    Outputs := (f (s.load mod)).Meta.Outputs } ∧
      (∀ q, (s.assign mod f).ModuleByPath q = s.ModuleByPath q) ∧
      ∀ other, other ≠ mod → (s.assign mod f).load other = s.load other := by
  have hfirst := (ModuleByPath_ok_iff s p mod).1 h
  have hmem := memdb.First_mem hfirst
  have hlt : mod < s.objects.length := (hwf.2.1 _ hmem).1
  have hpath : (s.load mod).Path = p := (hwf.2.1 _ hmem).2
  have hload : (s.assign mod f).load mod = f (s.load mod) := load_set_self s _ _ hlt
  refine ⟨h, hload, ?_, fun q => rfl, fun other ho => load_set_ne s _ _ (Ne.symm ho)⟩
  have hfirst2 : memdb.First (s.assign mod f).table p = some mod := hfirst
  rw [ModuleMeta_ok hfirst2, hload, hf, hpath]

/-- Witness of C14 as amended on the store holding `/a` with an empty map of
parsed module files. -/
theorem ModuleByPath_returns_stored_witness :
    parsedStore.WF ∧ parsedStore.ModuleByPath "/a" = Except.ok 2 ∧
      (parsedStore.assign 2 (addParsedFile "main.tf" "parsed")).load 2 =
        addParsedFile "main.tf" "parsed" (parsedStore.load 2) :=
  have hwf : parsedStore.WF :=
    (artifactUpdate_replaced (ArtifactUpdate.ParsedModuleFiles (some GoMap.make) none)
      oneModuleStore_WF (memdb.First_mem (show memdb.First oneModuleStore.table "/a" = some 0 by
        rw [oneModuleStore_eq]; decide))).2.1
  have h : parsedStore.ModuleByPath "/a" = Except.ok 2 := by
    rw [parsedStore_eq]
    rfl
  ⟨hwf, h,
    (ModuleByPath_returns_stored parsedStore "/a" 2 (addParsedFile "main.tf" "parsed") hwf h
      (fun _ => rfl)).2.1⟩

end state

/-! ## The state setters -/

namespace state

theorem SetState_withState (a : Artifact) (st : op.OpState) {s : ModuleStore} {path : String}
    {mod : ModulePtr} (hwf : s.WF) (hmem : (path, mod) ∈ s.table) :
    (s.SetState a path st).1 = none ∧ (s.SetState a path st).2.WF ∧
      s.Replaced (s.SetState a path st).2 path (a.withState st (s.load mod)) := by
  cases a
  case referenceTargets =>
    exact writeInPlace_replaced (fun m => { m with RefTargetsState := st })
      (fun _ => rfl) hwf hmem
  case referenceOrigins =>
    exact writeInPlace_replaced (fun m => { m with RefOriginsState := st })
      (fun _ => rfl) hwf hmem
  case manifest =>
    exact writeCopy_replaced (fun m => { m with ModManifestState := st })
      (fun _ => rfl) hwf hmem
  case toolVersion =>
    exact writeCopy_replaced (fun m => { m with TerraformVersionState := st })
      (fun _ => rfl) hwf hmem
  case providerSchema =>
    exact writeCopy_replaced (fun m => { m with ProviderSchemaState := st })
      (fun _ => rfl) hwf hmem
  case moduleParsing =>
    exact writeCopy_replaced (fun m => { m with ModuleParsingState := st })
      (fun _ => rfl) hwf hmem
  case varsParsing =>
    exact writeCopy_replaced (fun m => { m with VarsParsingState := st })
      (fun _ => rfl) hwf hmem
  case meta =>
    exact writeCopy_replaced (fun m => { m with MetaState := st })
      (fun _ => rfl) hwf hmem

theorem state_withState (a : Artifact) (st : op.OpState) (m : Module) :
    a.state (a.withState st m) = st := by
  cases a <;> rfl

/-- C20: on a well-formed store holding a Module for the path, the state
setter of each of the eight artifacts returns no error for every state value,
whatever the state was; the Module then read for the path is the previous one
with the state of that artifact replaced by the value passed in and every
other member as before, and every other path reads the same pointer with the
same content. -/
theorem SetState_changes_state_only (a : Artifact) (st : op.OpState) (s : ModuleStore)
    (p : String) (old : ModulePtr) (hwf : s.WF) (h : s.ModuleByPath p = Except.ok old) :
    (s.SetState a p st).1 = none ∧
      (∃ mod, (s.SetState a p st).2.ModuleByPath p = Except.ok mod ∧
        (s.SetState a p st).2.load mod = a.withState st (s.load old) ∧
        a.state ((s.SetState a p st).2.load mod) = st) ∧
      ∀ q, q ≠ p → (s.SetState a p st).2.ModuleByPath q = s.ModuleByPath q ∧
        ∀ mod, s.ModuleByPath q = Except.ok mod →
          (s.SetState a p st).2.load mod = s.load mod := by
  have hmem : (p, old) ∈ s.table := memdb.First_mem ((ModuleByPath_ok_iff _ _ _).1 h)
  obtain ⟨e, _, hr⟩ := SetState_withState a st hwf hmem
  obtain ⟨⟨mod, hm, hl⟩, hframe⟩ := replaced_byPath hr
  refine ⟨e, ⟨mod, hm, hl, ?_⟩, hframe⟩
  rw [hl, state_withState]

/-- Witness of C20 on the store holding `/a`: the state of the reference
origins is set to Loading. -/
theorem SetState_changes_state_only_witness :
    oneModuleStore.WF ∧ oneModuleStore.ModuleByPath "/a" = Except.ok 0 ∧
      (oneModuleStore.SetReferenceOriginsState "/a" op.OpState.OpStateLoading).1 = none :=
  have h : oneModuleStore.ModuleByPath "/a" = Except.ok 0 := by
    rw [ModuleByPath_ok_iff, oneModuleStore_eq]
    decide
  ⟨oneModuleStore_WF, h,
    (SetState_changes_state_only Artifact.referenceOrigins op.OpState.OpStateLoading
      oneModuleStore "/a" 0 oneModuleStore_WF h).1⟩

end state

/-! ## Interleaved updates -/

namespace state

theorem commit_replaced (u : ArtifactUpdate) {s : ModuleStore} {path : String}
    {mod : ModulePtr} (hwf : s.WF) (hmem : (path, mod) ∈ s.table) :
    (u.commit s path).1 = none ∧ (u.commit s path).2.WF ∧
      s.Replaced (u.commit s path).2 path (u.payloadChange (s.load mod)) := by
  cases u
  case ReferenceTargets refs rErr =>
    exact writeInPlace_replaced (fun m => { m with RefTargets := refs, RefTargetsErr := rErr })
      (fun _ => rfl) hwf hmem
  case ReferenceOrigins origins roErr =>
    exact writeInPlace_replaced
      (fun m => { m with RefOrigins := origins, RefOriginsErr := roErr }) (fun _ => rfl) hwf hmem
  all_goals exact writeCopy_replaced _ (fun _ => rfl) hwf hmem

theorem run_eq_deferred_commit (u : ArtifactUpdate) (s : ModuleStore) (path : String) :
    u.run s path =
      ModuleStore.deferred (u.commit s path)
        (fun s => s.SetState u.kind path op.OpState.OpStateLoaded) := by
  cases u
  case TerraformVersion tfVer pv vErr => exact UpdateTerraformVersion_eq s path tfVer pv vErr
  all_goals rfl

theorem transaction_replaced (t : Transaction) {s : ModuleStore} {path : String}
    {mod : ModulePtr} (hwf : s.WF) (hmem : (path, mod) ∈ s.table) :
    (t.run s path).WF ∧ s.Replaced (t.run s path) path (t.effect (s.load mod)) := by
  cases t with
  | commit u => exact (commit_replaced u hwf hmem).2
  | loaded a => exact (SetState_withState a op.OpState.OpStateLoaded hwf hmem).2

theorem runTransactions_replaced (ts : List Transaction) :
    ∀ {s : ModuleStore} {path : String} {mod : ModulePtr}, s.WF → (path, mod) ∈ s.table →
      (runTransactions s path ts).WF ∧
        s.Replaced (runTransactions s path ts) path
          (ts.foldl (fun m t => t.effect m) (s.load mod)) := by
  induction ts with
  | nil =>
    intro s path mod hwf hmem
    exact ⟨hwf, ⟨mod, memdb.First_of_mem hwf.1 hmem, rfl⟩, fun _ _ => rfl,
      fun _ _ _ _ => rfl, fun _ => Iff.rfl⟩
  | cons t rest ih =>
    intro s path mod hwf hmem
    obtain ⟨wf1, r1⟩ := transaction_replaced t hwf hmem
    obtain ⟨ptr, hp, hl⟩ := r1.1
    obtain ⟨wf2, r2⟩ := ih wf1 (memdb.First_mem hp)
    rw [hl] at r2
    exact ⟨wf2, replaced_trans hwf r1 r2⟩

theorem interleavings_two {T : Type} (a b c d : T) :
    interleavings [a, b] [c, d] =
      [[a, b, c, d], [a, c, b, d], [a, c, d, b], [c, a, b, d], [c, a, d, b], [c, d, a, b]] := by
  simp [interleavings]

theorem storedIn_interleaved (u v : ArtifactUpdate) (m : Module) (hk : u.kind ≠ v.kind)
    (sched : List Transaction) (hs : sched ∈ interleavings u.transactions v.transactions) :
    u.StoredIn (sched.foldl (fun m t => t.effect m) m) ∧
      v.StoredIn (sched.foldl (fun m t => t.effect m) m) := by
  rw [ArtifactUpdate.transactions, ArtifactUpdate.transactions, interleavings_two] at hs
  simp only [List.mem_cons, List.mem_singleton, List.not_mem_nil, or_false] at hs
  rcases hs with h | h | h | h | h | h <;> subst h <;> cases u <;> cases v <;>
    first
      | exact absurd rfl hk
      | repeat' constructor

/-- C19: the database admits one writer at a time, so two concurrent updates
run as an interleaving of their write transactions, the state transition to
Loaded of an update coming after its own commit. On a well-formed store
holding a Module for the path, each update alone is its two transactions in
sequence, and after every interleaving of the transactions of two updates of
different artifacts the Module read for the path holds the payload and the
error of both, with both states Loaded. -/
theorem interleaved_updates_both_stored (u v : ArtifactUpdate) (s : ModuleStore) (p : String)
    (hwf : s.WF) (h : s.Has p) (hk : u.kind ≠ v.kind) :
    (u.run s p).2 = runTransactions s p u.transactions ∧
      (v.run s p).2 = runTransactions s p v.transactions ∧
      ∀ sched ∈ interleavings u.transactions v.transactions,
        ∃ mod, (runTransactions s p sched).ModuleByPath p = Except.ok mod ∧
          u.StoredIn ((runTransactions s p sched).load mod) ∧
          v.StoredIn ((runTransactions s p sched).load mod) := by
  obtain ⟨old, hold⟩ := h
  have hseq : ∀ w : ArtifactUpdate, (w.run s p).2 = runTransactions s p w.transactions := by
    intro w
    have hc := (commit_replaced w hwf hold).1
    rw [run_eq_deferred_commit]
    simp [ModuleStore.deferred, hc, runTransactions, ArtifactUpdate.transactions,
      Transaction.run]
  refine ⟨hseq u, hseq v, fun sched hs => ?_⟩
  obtain ⟨_, ⟨mod, hm, hl⟩, _⟩ := runTransactions_replaced sched hwf hold
  refine ⟨mod, (ModuleByPath_ok_iff _ _ _).2 hm, ?_⟩
  rw [hl]
  exact storedIn_interleaved u v _ hk sched hs

/-- Witness of C19 on the store holding `/a`: a manifest update and an update
of the reference targets, the second committing between the commit of the
first and its transition to Loaded. -/
theorem interleaved_updates_both_stored_witness :
    oneModuleStore.WF ∧ oneModuleStore.Has "/a" ∧
      ∃ mod,
        (runTransactions oneModuleStore "/a"
          [Transaction.commit (ArtifactUpdate.ModManifest none (some "no manifest")),
           Transaction.commit (ArtifactUpdate.ReferenceTargets ["target"] none),
           Transaction.loaded Artifact.manifest,
           Transaction.loaded Artifact.referenceTargets]).ModuleByPath "/a" = Except.ok mod :=
  ⟨oneModuleStore_WF, oneModuleStore_Has,
    ((interleaved_updates_both_stored (ArtifactUpdate.ModManifest none (some "no manifest"))
      (ArtifactUpdate.ReferenceTargets ["target"] none) oneModuleStore "/a" oneModuleStore_WF
      oneModuleStore_Has (by decide)).2.2 _ (by
        rw [ArtifactUpdate.transactions, ArtifactUpdate.transactions, interleavings_two]
        simp [ArtifactUpdate.kind])).imp (fun _ hm => hm.1)⟩

end state

/-! ## The path contexts -/

namespace decoder

theorem collectFiles_eq (files : Option (GoMap String hcl.File)) :
    collectFiles files = files.getD GoMap.make := by
  cases files with
  | none => rfl
  | some m =>
    have h := GoMap.copyInto_make m
    simpa [collectFiles, ast.Filename.String, GoMap.copyInto] using h

/-- C15: `modulePathContext` returns no context and the error of
`schemaForModule` when that returns an error, and a context with no error
when it returns none, so it fails exactly when the schema construction
fails; the same holds for `varsPathContext` and `SchemaForVariables`. -/
theorem pathContext_fails_iff {SchemaReader ModuleReader : Type}
    (schemaForModule : state.Module → SchemaReader → ModuleReader →
      Option schema.BodySchema × GoError)
    (SchemaForVariables : Option (GoMap String tfmod.Variable) →
      Option schema.BodySchema × GoError)
    (mod : state.Module) (schemaReader : SchemaReader) (modReader : ModuleReader) :
    ((schemaForModule mod schemaReader modReader).2 ≠ none ↔
        (modulePathContext schemaForModule mod schemaReader modReader).1 = none ∧
          (modulePathContext schemaForModule mod schemaReader modReader).2 ≠ none) ∧
      (modulePathContext schemaForModule mod schemaReader modReader).2 =
        (schemaForModule mod schemaReader modReader).2 ∧
      ((schemaForModule mod schemaReader modReader).2 = none ↔
        (modulePathContext schemaForModule mod schemaReader modReader).1 ≠ none ∧
          (modulePathContext schemaForModule mod schemaReader modReader).2 = none) ∧
      ((SchemaForVariables mod.Meta.Variables).2 ≠ none ↔
        (varsPathContext SchemaForVariables mod).1 = none ∧
          (varsPathContext SchemaForVariables mod).2 ≠ none) ∧
      (varsPathContext SchemaForVariables mod).2 = (SchemaForVariables mod.Meta.Variables).2 ∧
      ((SchemaForVariables mod.Meta.Variables).2 = none ↔
        (varsPathContext SchemaForVariables mod).1 ≠ none ∧
          (varsPathContext SchemaForVariables mod).2 = none) := by
  unfold modulePathContext varsPathContext
  rcases hm : schemaForModule mod schemaReader modReader with ⟨sm, _ | em⟩ <;>
    rcases hv : SchemaForVariables mod.Meta.Variables with ⟨sv, _ | ev⟩ <;> simp

/-- C16: when the schema construction returns no error, the context built by
`modulePathContext` has the path of the Module, the schema constructed, the
reference origins and targets of the Module, and a map of files that is not
nil and holds exactly the entries of the parsed module files, none when that
map is nil; the context built by `varsPathContext` is the same with the
schema for the declared variables and the parsed variable files. -/
theorem pathContext_contents {SchemaReader ModuleReader : Type}
    (schemaForModule : state.Module → SchemaReader → ModuleReader →
      Option schema.BodySchema × GoError)
    (SchemaForVariables : Option (GoMap String tfmod.Variable) →
      Option schema.BodySchema × GoError)
    (mod : state.Module) (schemaReader : SchemaReader) (modReader : ModuleReader) :
    ((schemaForModule mod schemaReader modReader).2 = none →
        modulePathContext schemaForModule mod schemaReader modReader =
          (some { DirPath := mod.Path
                  Schema := (schemaForModule mod schemaReader modReader).1
                  ReferenceOrigins := mod.RefOrigins
                  ReferenceTargets := mod.RefTargets
                  Files := some (mod.ParsedModuleFiles.getD GoMap.make) },
           none)) ∧
      ((SchemaForVariables mod.Meta.Variables).2 = none →
        varsPathContext SchemaForVariables mod =
          (some { DirPath := mod.Path
                  Schema := (SchemaForVariables mod.Meta.Variables).1
                  ReferenceOrigins := mod.RefOrigins
                  ReferenceTargets := mod.RefTargets
                  Files := some (mod.ParsedVarsFiles.getD GoMap.make) },
           none)) := by
  unfold modulePathContext varsPathContext
  constructor
  · intro h
    rcases hm : schemaForModule mod schemaReader modReader with ⟨sm, _ | em⟩
    · simp [collectFiles_eq]
    · rw [hm] at h
      cases h
  · intro h
    rcases hv : SchemaForVariables mod.Meta.Variables with ⟨sv, _ | ev⟩
    · simp [collectFiles_eq]
    · rw [hv] at h
      cases h

end decoder

namespace decoder

/-- Witness of C15: a schema construction that fails for every Module, and
one that succeeds. -/
theorem pathContext_fails_iff_witness :
    ((modulePathContext (fun _ (_ : Unit) (_ : Unit) => (none, some "bad requirement"))
        exampleModule () ()).1 = none ∧
      (modulePathContext (fun _ (_ : Unit) (_ : Unit) => (none, some "bad requirement"))
        exampleModule () ()).2 ≠ none) ∧
      (varsPathContext (fun _ => (some "variables", none)) exampleModule).1 ≠ none ∧
      (varsPathContext (fun _ => (some "variables", none)) exampleModule).2 = none :=
  ⟨(pathContext_fails_iff (fun _ (_ : Unit) (_ : Unit) => (none, some "bad requirement"))
      (fun _ => (some "variables", none)) exampleModule () ()).1.1 (by simp),
    (pathContext_fails_iff (fun _ (_ : Unit) (_ : Unit) => (none, some "bad requirement"))
      (fun _ => (some "variables", none)) exampleModule () ()).2.2.2.2.2.1 rfl⟩

/-- Witness of C16 on the example Module: the module context holds its one
parsed file, the variables context holds an empty map of files. -/
theorem pathContext_contents_witness :
    modulePathContext (fun _ (_ : Unit) (_ : Unit) => (some "merged", none)) exampleModule
        () () =
      (some { DirPath := "/a"
              Schema := some "merged"
              ReferenceOrigins := ["var.x at main.tf:5"]
              ReferenceTargets := ["var.x"]
              Files := some (GoMap.make.assign "main.tf" "parsed main.tf") },
       none) ∧
      varsPathContext (fun _ => (some "variables", none)) exampleModule =
        (some { DirPath := "/a"
                Schema := some "variables"
                ReferenceOrigins := ["var.x at main.tf:5"]
                ReferenceTargets := ["var.x"]
                Files := some GoMap.make },
         none) :=
  ⟨(pathContext_contents (fun _ (_ : Unit) (_ : Unit) => (some "merged", none))
      (fun _ => (some "variables", none)) exampleModule () ()).1 rfl,
    (pathContext_contents (fun _ (_ : Unit) (_ : Unit) => (some "merged", none))
      (fun _ => (some "variables", none)) exampleModule () ()).2 rfl⟩

end decoder

/-! ## The find-references handler -/

namespace handlers

theorem collectOrigins_ok (targeting : String → Except String lang.ReferenceOrigins)
    (originsOf : String → lang.ReferenceOrigins) (refTargets : lang.ReferenceTargets) :
    ∀ found : lang.ReferenceOrigins,
      (∀ t ∈ refTargets, targeting t = Except.ok (originsOf t)) →
        collectOrigins targeting refTargets found =
          Except.ok (found ++ refTargets.flatMap originsOf) := by
  induction refTargets with
  | nil => intro found _; simp [collectOrigins]
  | cons t rest ih =>
    intro found h
    have ht := h t (List.mem_cons_self _ _)
    have hrest : ∀ x ∈ rest, targeting x = Except.ok (originsOf x) :=
      fun x hx => h x (List.mem_cons_of_mem _ hx)
    simp [collectOrigins, ht, ih _ hrest, List.append_assoc]

theorem References_of_targets {Ctx Params Storage Document Decoder Position : Type}
    (svc : Collaborators Ctx Params Storage Document Decoder Position) (ctx : Ctx)
    (params : Params) (fs : Storage) (doc : Document) (d : Decoder) (fPos : Position)
    (refTargets : lang.ReferenceTargets)
    (hfs : svc.DocumentStorage ctx = Except.ok fs)
    (hdoc : svc.GetDocument fs params = Except.ok doc)
    (hd : svc.decoderForDocument ctx doc = Except.ok d)
    (hpos : svc.FilePositionFromDocumentPosition params doc = Except.ok fPos)
    (ht : svc.InnermostReferenceTargetsAtPos d fPos = Except.ok refTargets) :
    References svc ctx params =
      if refTargets.length = 0 then
        { list := [], err := none, log := [LogEntry.notAddressable fPos] }
      else
        match collectOrigins (svc.ReferenceOriginsTargeting d) refTargets [] with
        | Except.error err =>
          { list := [], err := some err, log := [LogEntry.findingOrigins refTargets] }
        | Except.ok origins =>
          { list := ilsp.RefOriginsToLocations svc.RefOriginToLocation (svc.Dir doc) origins
            err := none
            log := [LogEntry.findingOrigins refTargets] } := by
  simp only [References, hfs, hdoc, hd, hpos, ht]

/-- C17 as stated fails: in a document whose position 0 is covered by no
target and whose position 1 is covered by a target without referring
origins, `References` returns the empty list and no error for both; the two
calls differ in the line they log only. -/
theorem References_same_for_not_addressable :
    quietService.InnermostReferenceTargetsAtPos () 0 = Except.ok [] ∧
      quietService.InnermostReferenceTargetsAtPos () 1 = Except.ok ["var.x"] ∧
      quietService.ReferenceOriginsTargeting () "var.x" = Except.ok [] ∧
      ((References quietService () 0).list, (References quietService () 0).err) =
        ((References quietService () 1).list, (References quietService () 1).err) ∧
      References quietService () 0 =
        { list := [], err := none, log := [LogEntry.notAddressable 0] } ∧
      References quietService () 1 =
        { list := [], err := none, log := [LogEntry.findingOrigins ["var.x"]] } :=
  ⟨rfl, rfl, rfl, rfl, rfl, rfl⟩

/-- C17 as amended: where the collaborators up to the position succeed,
`References` returns the empty list and no error both for a position covered
by no target and for a position covered by targets none of which has a
referring origin; the two results are the same list and error, and the call
logs that the position is not addressable in the first case and the targets
it searches origins for in the second. -/
theorem References_empty_in_both_cases {Ctx Params Storage Document Decoder Position : Type}
    (svc : Collaborators Ctx Params Storage Document Decoder Position) (ctx : Ctx)
    (params : Params) (fs : Storage) (doc : Document) (d : Decoder) (fPos : Position)
    (hfs : svc.DocumentStorage ctx = Except.ok fs)
    (hdoc : svc.GetDocument fs params = Except.ok doc)
    (hd : svc.decoderForDocument ctx doc = Except.ok d)
    (hpos : svc.FilePositionFromDocumentPosition params doc = Except.ok fPos) :
    (svc.InnermostReferenceTargetsAtPos d fPos = Except.ok [] →
        References svc ctx params =
          { list := [], err := none, log := [LogEntry.notAddressable fPos] }) ∧
      ∀ refTargets : lang.ReferenceTargets, refTargets ≠ [] →
        svc.InnermostReferenceTargetsAtPos d fPos = Except.ok refTargets →
        (∀ t ∈ refTargets, svc.ReferenceOriginsTargeting d t = Except.ok []) →
        References svc ctx params =
          { list := [], err := none, log := [LogEntry.findingOrigins refTargets] } := by
  constructor
  · intro ht
    rw [References_of_targets svc ctx params fs doc d fPos [] hfs hdoc hd hpos ht]
    rfl
  · intro refTargets hne ht ho
    rw [References_of_targets svc ctx params fs doc d fPos refTargets hfs hdoc hd hpos ht]
    have hlen : refTargets.length ≠ 0 := fun h => hne (List.length_eq_zero.1 h)
    have hc := collectOrigins_ok (svc.ReferenceOriginsTargeting d) (fun _ => []) refTargets []
      ho
    simp [hlen, hc, ilsp.RefOriginsToLocations]

/-- Witness of C17 as amended on the service without origins, at the
position 1. -/
theorem References_empty_in_both_cases_witness :
    References quietService () 1 =
      { list := [], err := none, log := [LogEntry.findingOrigins ["var.x"]] } :=
  (References_empty_in_both_cases quietService () 1 () () () 1 rfl rfl rfl rfl).2 ["var.x"]
    (by decide) rfl (fun _ _ => rfl)

/-- C18: where the collaborators up to the position succeed, the position is
covered by at least one target and `ReferenceOriginsTargeting` succeeds for
each target, `References` returns without error the conversion of the
origins of the first target followed by those of the second and so on, in
that order and with nothing left out or merged. -/
theorem References_concatenates_origins {Ctx Params Storage Document Decoder Position : Type}
    (svc : Collaborators Ctx Params Storage Document Decoder Position) (ctx : Ctx)
    (params : Params) (fs : Storage) (doc : Document) (d : Decoder) (fPos : Position)
    (refTargets : lang.ReferenceTargets) (originsOf : String → lang.ReferenceOrigins)
    (hfs : svc.DocumentStorage ctx = Except.ok fs)
    (hdoc : svc.GetDocument fs params = Except.ok doc)
    (hd : svc.decoderForDocument ctx doc = Except.ok d)
    (hpos : svc.FilePositionFromDocumentPosition params doc = Except.ok fPos)
    (ht : svc.InnermostReferenceTargetsAtPos d fPos = Except.ok refTargets)
    (hne : refTargets ≠ [])
    (ho : ∀ t ∈ refTargets, svc.ReferenceOriginsTargeting d t = Except.ok (originsOf t)) :
    References svc ctx params =
      { list := ilsp.RefOriginsToLocations svc.RefOriginToLocation (svc.Dir doc)
          (refTargets.flatMap originsOf)
        err := none
        log := [LogEntry.findingOrigins refTargets] } := by
  rw [References_of_targets svc ctx params fs doc d fPos refTargets hfs hdoc hd hpos ht]
  have hlen : refTargets.length ≠ 0 := fun h => hne (List.length_eq_zero.1 h)
  have hc := collectOrigins_ok (svc.ReferenceOriginsTargeting d) originsOf refTargets [] ho
  simp [hlen, hc]

/-- Witness of C18 on the service with two targets at the position 1: the
origin `main.tf:5` refers to both targets and is returned for each. -/
theorem References_concatenates_origins_witness :
    References busyService () 1 =
      { list := ["/a/main.tf:5", "/a/main.tf:2", "/a/main.tf:5"]
        err := none
        log := [LogEntry.findingOrigins ["var.x", "var.y"]] } :=
  References_concatenates_origins busyService () 1 () () () 1 ["var.x", "var.y"]
    (fun t => if t = "var.x" then ["main.tf:5", "main.tf:2"] else ["main.tf:5"])
    rfl rfl rfl rfl rfl (by decide) (fun _ _ => rfl)

end handlers

/-! ## Module.Copy -/

namespace state

theorem diagnosedModule_copy : diagnosedModule.Copy = diagnosedModule := by
  decide

/-- C21: `Module.Copy` returns a Module equal to its receiver in every member:
the path, every payload, every error, all eight states, the metadata, both
maps of parsed files and both maps of diagnostics, with the same entries in
the same order. A nil map stays nil and a map that is not nil keeps its
entries, the diagnostics of each file in their order; the copy of a nil
Module is nil; `ModuleMetadata.Copy` returns metadata equal to its
receiver. -/
theorem Copy_is_full_copy (m : Module) (mm : ModuleMetadata) :
    m.Copy = m ∧
      Module.CopyPtr none = none ∧
      Module.CopyPtr (some m) = some m ∧
      (m.ParsedModuleFiles = none → m.Copy.ParsedModuleFiles = none) ∧
      (m.ParsedVarsFiles = none → m.Copy.ParsedVarsFiles = none) ∧
      (m.ModuleDiagnostics = none → m.Copy.ModuleDiagnostics = none) ∧
      (m.VarsDiagnostics = none → m.Copy.VarsDiagnostics = none) ∧
      (∀ diags, m.ModuleDiagnostics = some diags →
        ∃ copied, m.Copy.ModuleDiagnostics = some copied ∧ copied.entries = diags.entries) ∧
      (∀ diags, m.VarsDiagnostics = some diags →
        ∃ copied, m.Copy.VarsDiagnostics = some copied ∧ copied.entries = diags.entries) ∧
      m.Copy.Meta = m.Meta ∧
      mm.Copy = mm ∧
      (mm.ProviderReferences = none → mm.Copy.ProviderReferences = none) ∧
      (mm.ProviderRequirements = none → mm.Copy.ProviderRequirements = none) ∧
      (mm.Variables = none → mm.Copy.Variables = none) ∧
      (mm.Outputs = none → mm.Copy.Outputs = none) := by
  have hm : m.Copy = m := moduleCopy_eq m
  have hmm : mm.Copy = mm := metadataCopy_eq mm
  refine ⟨hm, rfl, ?_, ?_, ?_, ?_, ?_, ?_, ?_, ?_, hmm, ?_, ?_, ?_, ?_⟩
  · simp only [Module.CopyPtr, hm]
  · intro h; rw [hm]; exact h
  · intro h; rw [hm]; exact h
  · intro h; rw [hm]; exact h
  · intro h; rw [hm]; exact h
  · intro diags h; exact ⟨diags, by rw [hm]; exact h, rfl⟩
  · intro diags h; exact ⟨diags, by rw [hm]; exact h, rfl⟩
  · rw [hm]
  · intro h; rw [hmm]; exact h
  · intro h; rw [hmm]; exact h
  · intro h; rw [hmm]; exact h
  · intro h; rw [hmm]; exact h

/-- Witness of C21 on a Module with diagnostics for two files and a nil map of
parsed variable files. -/
theorem Copy_is_full_copy_witness :
    diagnosedModule.ParsedVarsFiles = none ∧
      diagnosedModule.Copy.ParsedVarsFiles = none ∧
      diagnosedModule.Copy = diagnosedModule :=
  ⟨rfl, (Copy_is_full_copy diagnosedModule {}).2.2.2.2.1 rfl,
    (Copy_is_full_copy diagnosedModule {}).1⟩

end state

/-! ## Code actions -/

namespace sort

theorem insertStable_perm {T : Type} (less : T → T → Bool) (x : T) (l : List T) :
    (insertStable less x l).Perm (x :: l) := by
  induction l with
  | nil => exact List.Perm.refl _
  | cons y ys ih =>
    by_cases h : less x y = true
    · simp [insertStable, h]
    · simp only [insertStable, h]
      exact (List.Perm.cons y ih).trans (List.Perm.swap x y ys)

theorem SliceStable_loop_perm {T : Type} (less : T → T → Bool) (s : List T) :
    ∀ sorted : List T,
      (s.foldl (fun sorted x => insertStable less x sorted) sorted).Perm (sorted ++ s) := by
  induction s with
  | nil => intro sorted; simp
  | cons x rest ih =>
    intro sorted
    rw [List.foldl_cons]
    refine (ih _).trans ?_
    refine ((insertStable_perm less x sorted).append_right rest).trans ?_
    have hmid : (sorted ++ x :: rest).Perm (x :: (sorted ++ rest)) := List.perm_middle
    simpa using hmid.symm

theorem SliceStable_perm {T : Type} (less : T → T → Bool) (s : List T) :
    (SliceStable less s).Perm s := by
  simpa [SliceStable] using SliceStable_loop_perm less s []

theorem insertStable_ascending {T : Type} [LinearOrder T] (less : T → T → Bool)
    (hless : ∀ a b, less a b = true ↔ a < b) (x : T) (l : List T)
    (h : l.Pairwise (fun a b => a ≤ b)) :
    (insertStable less x l).Pairwise (fun a b => a ≤ b) := by
  induction l with
  | nil => simp [insertStable]
  | cons y ys ih =>
    rw [List.pairwise_cons] at h
    by_cases hxy : less x y = true
    · have hlt : x < y := (hless x y).1 hxy
      simp only [insertStable, hxy, if_true]
      refine List.pairwise_cons.2 ⟨fun z hz => ?_, List.pairwise_cons.2 h⟩
      rcases List.mem_cons.1 hz with hz | hz
      · rw [hz]; exact le_of_lt hlt
      · exact le_trans (le_of_lt hlt) (h.1 z hz)
    · have hge : y ≤ x := not_lt.1 (fun hlt => hxy ((hless x y).2 hlt))
      simp only [insertStable, hxy, Bool.false_eq_true, if_false]
      refine List.pairwise_cons.2 ⟨fun z hz => ?_, ih h.2⟩
      rcases List.mem_cons.1 ((insertStable_perm _ x ys).mem_iff.1 hz) with hz | hz
      · rw [hz]; exact hge
      · exact h.1 z hz

theorem SliceStable_ascending {T : Type} [LinearOrder T] (less : T → T → Bool)
    (hless : ∀ a b, less a b = true ↔ a < b) (s : List T) :
    (SliceStable less s).Pairwise (fun a b => a ≤ b) := by
  have key : ∀ (s sorted : List T), sorted.Pairwise (fun a b => a ≤ b) →
      (s.foldl (fun sorted x => insertStable less x sorted) sorted).Pairwise
        (fun a b => a ≤ b) := by
    intro s
    induction s with
    | nil => intro sorted h; exact h
    | cons x rest ih =>
      intro sorted h
      exact ih _ (insertStable_ascending less hless x sorted h)
  exact key s [] List.Pairwise.nil

end sort

namespace ilsp

theorem keys_loop (entries : List (lsp.CodeActionKind × Bool)) :
    ∀ s : List lsp.CodeActionKind,
      entries.foldl (fun s e => s ++ [e.1]) s = s ++ entries.map Prod.fst := by
  induction entries with
  | nil => intro s; simp
  | cons e rest ih => intro s; simp [ih]

theorem AsSlice_perm (c : CodeActions) : c.AsSlice.Perm (c.entries.map Prod.fst) := by
  have h := sort.SliceStable_perm (fun (a b : lsp.CodeActionKind) => decide (a < b))
    (c.entries.foldl (fun s e => s ++ [e.1]) [])
  rw [keys_loop] at h
  simpa [CodeActions.AsSlice, keys_loop] using h

theorem AsSlice_ascending (c : CodeActions) : c.AsSlice.Pairwise (fun a b => a < b) := by
  have hle : c.AsSlice.Pairwise (fun a b => a ≤ b) :=
    sort.SliceStable_ascending _ (fun a b => by simp) _
  have hnd : c.AsSlice.Nodup := (AsSlice_perm c).nodup_iff.2 c.nodup
  exact (hle.and hnd).imp (fun h => lt_of_le_of_ne h.1 h.2)

theorem mem_keys_iff (c : CodeActions) (k : lsp.CodeActionKind) :
    k ∈ c.entries.map Prod.fst ↔ ∃ v, (k, v) ∈ c.entries := by
  simp

/-- C22: `AsSlice` returns the keys of the map in strictly ascending order:
a kind is in the list exactly when the map has it as a key, whatever value
it maps to, the list is as long as the map has entries, and two maps with
the same keys give the same list, in whatever order they are ranged over. -/
theorem AsSlice_sorted_keys (c : CodeActions) :
    c.AsSlice.Pairwise (fun a b => a < b) ∧
      (∀ k, k ∈ c.AsSlice ↔ ∃ v, (k, v) ∈ c.entries) ∧
      c.AsSlice.length = c.entries.length ∧
      ∀ other : CodeActions,
        (∀ k, (∃ v, (k, v) ∈ other.entries) ↔ ∃ v, (k, v) ∈ c.entries) →
          other.AsSlice = c.AsSlice := by
  refine ⟨AsSlice_ascending c, fun k => ?_, ?_, fun other h => ?_⟩
  · rw [(AsSlice_perm c).mem_iff, mem_keys_iff]
  · rw [(AsSlice_perm c).length_eq, List.length_map]
  · have hp : other.AsSlice.Perm c.AsSlice := by
      refine (List.perm_ext_iff_of_nodup ?_ ?_).2 fun k => ?_
      · exact (AsSlice_perm other).nodup_iff.2 other.nodup
      · exact (AsSlice_perm c).nodup_iff.2 c.nodup
      · rw [(AsSlice_perm other).mem_iff, (AsSlice_perm c).mem_iff, mem_keys_iff,
          mem_keys_iff]
        exact h k
    have hs : ∀ x : CodeActions, x.AsSlice.Sorted (fun a b => a < b) := AsSlice_ascending
    exact List.eq_of_perm_of_sorted hp (hs other) (hs c)

/-- Witness of C22 on the supported code actions and on the map with the same
two keys entered in the other order and with other values. -/
theorem AsSlice_sorted_keys_witness :
    SupportedCodeActions.AsSlice = [SourceFormatAll, SourceFormatAllTerraformLs] ∧
      CodeActions.AsSlice
          ((GoMap.make.assign SourceFormatAllTerraformLs false).assign SourceFormatAll true) =
        SupportedCodeActions.AsSlice :=
  ⟨by simp +decide [CodeActions.AsSlice, SupportedCodeActions, sort.SliceStable,
      sort.insertStable, GoMap.assign, GoMap.assignEntries, GoMap.make, SourceFormatAll,
      SourceFormatAllTerraformLs, String.lt_iff_toList_lt],
    (AsSlice_sorted_keys SupportedCodeActions).2.2.2 _ (by
      intro k
      simp [SupportedCodeActions, GoMap.assign, GoMap.assignEntries, GoMap.make,
        SourceFormatAll, SourceFormatAllTerraformLs]
      tauto)⟩

end ilsp

namespace GoMap

theorem lookupEntries_mem {K V : Type} [DecidableEq K] (k : K) (v : V) :
    ∀ l : List (K × V), (l.map Prod.fst).Nodup → (lookupEntries k l = some v ↔ (k, v) ∈ l) := by
  intro l
  induction l with
  | nil => intro _; simp [lookupEntries]
  | cons e rest ih =>
    intro hn
    rw [List.map_cons, List.nodup_cons] at hn
    obtain ⟨k0, v0⟩ := e
    by_cases hk : k0 = k
    · subst hk
      simp only [lookupEntries, if_true, Option.some.injEq, List.mem_cons, Prod.mk.injEq,
        true_and]
      constructor
      · intro h; exact Or.inl h.symm
      · rintro (h | h)
        · exact h.symm
        · exact absurd (List.mem_map.2 ⟨(k0, v), h, rfl⟩) hn.1
    · simp only [lookupEntries, hk, if_false, ih hn.2, List.mem_cons, Prod.mk.injEq]
      constructor
      · intro h; exact Or.inr h
      · rintro (h | h)
        · exact absurd h.1.symm hk
        · exact h

theorem lookup_mem {K V : Type} [DecidableEq K] (m : GoMap K V) (k : K) (v : V) :
    m.lookup k = some v ↔ (k, v) ∈ m.entries :=
  lookupEntries_mem k v m.entries m.nodup

theorem lookup_assign_self {K V : Type} [DecidableEq K] (m : GoMap K V) (k : K) (v : V) :
    (m.assign k v).lookup k = some v := by
  have key : ∀ l : List (K × V), lookupEntries k (assignEntries k v l) = some v := by
    intro l
    induction l with
    | nil => simp [assignEntries, lookupEntries]
    | cons e rest ih =>
      by_cases hk : e.1 = k
      · simp [assignEntries, lookupEntries, hk]
      · simp [assignEntries, lookupEntries, hk, ih]
  exact key m.entries

theorem lookup_assign_ne {K V : Type} [DecidableEq K] (m : GoMap K V) {k q : K} (v : V)
    (hq : q ≠ k) : (m.assign k v).lookup q = m.lookup q := by
  have key : ∀ l : List (K × V),
      lookupEntries q (assignEntries k v l) = lookupEntries q l := by
    intro l
    induction l with
    | nil => simp [assignEntries, lookupEntries, Ne.symm hq]
    | cons e rest ih =>
      by_cases hk : e.1 = k
      · have hne : ¬ e.1 = q := fun h => hq (h.symm.trans hk)
        simp [assignEntries, lookupEntries, hk, Ne.symm hq, hne]
      · by_cases he : e.1 = q
        · simp [assignEntries, lookupEntries, he, hq]
        · simp [assignEntries, lookupEntries, hk, he, ih]
  exact key m.entries

end GoMap

namespace ilsp

theorem Only_loop (ca : CodeActions) (k : lsp.CodeActionKind)
    (only : List lsp.CodeActionKind) :
    ∀ wanted : CodeActions,
      GoMap.lookup
          (only.foldl
            (fun wanted kind =>
              match ca.lookup kind with
              | some v => wanted.assign kind v
              | none => wanted)
            wanted) k =
        if k ∈ only ∧ (ca.lookup k).isSome then ca.lookup k else wanted.lookup k := by
  induction only with
  | nil => intro wanted; simp
  | cons kind rest ih =>
    intro wanted
    rw [List.foldl_cons, ih]
    by_cases hk : k = kind
    · subst hk
      cases hc : ca.lookup k with
      | none => simp
      | some v => simp [GoMap.lookup_assign_self]
    · cases hc : ca.lookup kind with
      | none => simp [hk]
      | some v => simp [hk, GoMap.lookup_assign_ne _ _ hk]

theorem Only_lookup (ca : CodeActions) (only : List lsp.CodeActionKind)
    (k : lsp.CodeActionKind) :
    (ca.Only only).lookup k = if k ∈ only then ca.lookup k else none := by
  have h := Only_loop ca k only GoMap.make
  have hmake : GoMap.lookup (GoMap.make : CodeActions) k = none := rfl
  rw [hmake] at h
  unfold CodeActions.Only
  rw [h]
  by_cases hm : k ∈ only
  · cases hc : ca.lookup k <;> simp [hm]
  · simp [hm]

theorem Only_congr (ca cb : CodeActions) (only : List lsp.CodeActionKind)
    (h : ∀ k ∈ only, ca.lookup k = cb.lookup k) : ca.Only only = cb.Only only := by
  have key : ∀ (l : List lsp.CodeActionKind), (∀ k ∈ l, ca.lookup k = cb.lookup k) →
      ∀ wanted : CodeActions,
        l.foldl
            (fun wanted kind =>
              match ca.lookup kind with
              | some v => wanted.assign kind v
              | none => wanted)
            wanted =
          l.foldl
            (fun wanted kind =>
              match cb.lookup kind with
              | some v => wanted.assign kind v
              | none => wanted)
            wanted := by
    intro l
    induction l with
    | nil => intro _ wanted; rfl
    | cons kind rest ih =>
      intro hl wanted
      rw [List.foldl_cons, List.foldl_cons, hl kind (List.mem_cons_self _ _)]
      exact ih (fun k hk => hl k (List.mem_cons_of_mem _ hk)) _
  exact key only h GoMap.make

/-- C23: `Only` returns the map that maps a kind to a value exactly when the
kind occurs in the list and the receiver maps it to that value. So every
entry of the result is an entry of the receiver, the result of an empty list
is the empty map, two lists with the same elements give maps with the same
entries, and `Only` applied again with the same list returns the same map. -/
theorem Only_keeps_wanted (ca : CodeActions) (only : List lsp.CodeActionKind) :
    (∀ k v, (ca.Only only).lookup k = some v ↔ k ∈ only ∧ ca.lookup k = some v) ∧
      (∀ k v, (k, v) ∈ (ca.Only only).entries ↔ k ∈ only ∧ (k, v) ∈ ca.entries) ∧
      (∀ e ∈ (ca.Only only).entries, e ∈ ca.entries) ∧
      ca.Only [] = GoMap.make ∧
      (∀ other : List lsp.CodeActionKind, (∀ k, k ∈ other ↔ k ∈ only) →
        ∀ k v, (k, v) ∈ (ca.Only other).entries ↔ (k, v) ∈ (ca.Only only).entries) ∧
      (ca.Only only).Only only = ca.Only only := by
  have hlookup : ∀ (l : List lsp.CodeActionKind) k v,
      (ca.Only l).lookup k = some v ↔ k ∈ l ∧ ca.lookup k = some v := by
    intro l k v
    rw [Only_lookup]
    by_cases hm : k ∈ l <;> simp [hm]
  have hentries : ∀ (l : List lsp.CodeActionKind) k v,
      (k, v) ∈ (ca.Only l).entries ↔ k ∈ l ∧ (k, v) ∈ ca.entries := by
    intro l k v
    rw [← GoMap.lookup_mem, ← GoMap.lookup_mem, hlookup]
  refine ⟨hlookup only, hentries only, ?_, rfl, ?_, ?_⟩
  · intro e he
    exact ((hentries only e.1 e.2).1 he).2
  · intro other hsame k v
    rw [hentries, hentries, hsame]
  · apply Only_congr
    intro k hk
    rw [Only_lookup, if_pos hk]

/-- Witness of C23 on the supported code actions: a list with a kind twice
and a kind the map does not have. -/
theorem Only_keeps_wanted_witness :
    (SupportedCodeActions.Only
        [SourceFormatAllTerraformLs, "quickfix", SourceFormatAllTerraformLs]).entries =
      [(SourceFormatAllTerraformLs, true)] ∧
      (SupportedCodeActions.Only
          [SourceFormatAllTerraformLs, "quickfix", SourceFormatAllTerraformLs]).Only
        [SourceFormatAllTerraformLs, "quickfix", SourceFormatAllTerraformLs] =
        SupportedCodeActions.Only
          [SourceFormatAllTerraformLs, "quickfix", SourceFormatAllTerraformLs] :=
  ⟨by decide,
    (Only_keeps_wanted SupportedCodeActions
      [SourceFormatAllTerraformLs, "quickfix", SourceFormatAllTerraformLs]).2.2.2.2.2⟩

end ilsp
